import Mathlib

/-!
# Otter content blocking: a shallow embedding

The development embeds `ContentBlockingManager.cpp` and `ContentBlockingProfile.cpp`
(the Adblock-Plus style filter engine of the Otter browser) as pure Lean functions and
proves properties of them.

Conventions of the embedding:

* `QString` / `QByteArray` values are lists of characters; Qt positions are `Int`
  (`-1` is "not found"), exactly as in the C++ code.
* A `QNetworkRequest` is the record of the values the engine reads from it.
* The members `m_currentRule`, `m_requestSubdomainList` and `m_baseUrl` of a profile are
  scratch variables that the C++ code assigns before every read; they are passed as
  arguments.
* A C++ loop that may run forever is a function to `Option`: `none` is "does not return".
-/

set_option autoImplicit false

namespace Otter

/-! ## Qt string primitives -/

/-- A `QString` (also used for `QByteArray`) is the list of its characters. -/
abbrev QString := List Char

/-- The literal `s` as a `QString`. -/
abbrev qs (s : String) : QString := s.toList

/-- Embeds `QString::startsWith(QString)`. -/
def startsWith (s t : QString) : Bool := t.isPrefixOf s

/-- Embeds `QString::startsWith(QChar)`. -/
def startsWithChar (s : QString) (c : Char) : Bool :=
  match s with
  | [] => false
  | d :: _ => d == c

/-- Embeds `QString::endsWith(QString)`. -/
def endsWith (s t : QString) : Bool := t.reverse.isPrefixOf s.reverse

/-- Embeds `QString::contains(QString)`: `t` occurs in `s` as a contiguous substring. -/
def contains : QString → QString → Bool
  | [], t => t.isPrefixOf []
  | c :: cs, t => t.isPrefixOf (c :: cs) || contains cs t

/-- Embeds `QString::contains(QChar)`. -/
def containsChar (s : QString) (c : Char) : Bool := s.any (fun d => d == c)

/-- Position of the first character satisfying `p`, counted from `i`; `-1` if there is none. -/
def indexOfFrom (p : Char → Bool) : QString → Nat → Int
  | [], _ => -1
  | c :: cs, i => if p c then (i : Int) else indexOfFrom p cs (i + 1)

/-- Embeds `QString::indexOf(QChar)`. -/
def indexOfChar (s : QString) (c : Char) : Int := indexOfFrom (fun d => d == c) s 0

/-- Embeds `QString::left(n)`: the whole string when `n` is negative or not smaller than the size. -/
def left (s : QString) (n : Int) : QString :=
  if n < 0 ∨ (s.length : Int) ≤ n then s else s.take n.toNat

/-- Embeds `QString::mid(position)`: empty when `position` exceeds the size, a negative position
counts as `0`. -/
def mid (s : QString) (position : Int) : QString :=
  if (s.length : Int) < position then [] else s.drop position.toNat

/-- Embeds `QString::right(n)`: the whole string when `n` is negative or not smaller than the size. -/
def right (s : QString) (n : Int) : QString :=
  if n < 0 ∨ (s.length : Int) ≤ n then s else s.drop (s.length - n.toNat)

/-- Backward scan of `qt_last_index_of`: the greatest position `≤ n` holding `ch`, else `-1`. -/
def lastIndexOfScan (s : QString) (ch : Char) : Nat → Int
  | 0 => if s.get? 0 == some ch then 0 else -1
  | n + 1 => if s.get? (n + 1) == some ch then ((n + 1 : Nat) : Int) else lastIndexOfScan s ch n

/-- Embeds `QString::lastIndexOf(QChar, from)`: a negative `from` counts from the end
(`-1` is the last character); a start outside the string gives `-1`. -/
def lastIndexOf (s : QString) (ch : Char) (start : Int) : Int :=
  let start1 := if start < 0 then start + (s.length : Int) else start
  if start1 < 0 ∨ (s.length : Int) ≤ start1 then -1 else lastIndexOfScan s ch start1.toNat

/-- Worker of `QString::split(QChar)` keeping empty parts: `cur` is the part being read. -/
def splitCharAux (sep : Char) : QString → QString → List QString
  | [], cur => [cur]
  | c :: cs, cur => if c == sep then cur :: splitCharAux sep cs [] else splitCharAux sep cs (cur ++ [c])

/-- Embeds `QString::split(QChar)` with `KeepEmptyParts` (the default). -/
def splitChar (s : QString) (sep : Char) : List QString := splitCharAux sep s []

/-- Embeds `QString::split(QChar, QString::SkipEmptyParts)`. -/
def splitCharSkipEmpty (s : QString) (sep : Char) : List QString :=
  (splitChar s sep).filter (fun part => !part.isEmpty)

/-- Worker of `QString::split(QString)` for a non-empty separator: `skip` characters of a
separator just found are still to be passed over, `cur` is the part being read. -/
def splitStrAux (sep : QString) : QString → Nat → QString → List QString
  | [], _, cur => [cur]
  | _ :: cs, skip + 1, cur => splitStrAux sep cs skip cur
  | c :: cs, 0, cur =>
    if sep.isPrefixOf (c :: cs) then cur :: splitStrAux sep cs (sep.length - 1) []
    else splitStrAux sep cs 0 (cur ++ [c])

/-- Embeds `QString::split(QString)` with `KeepEmptyParts`, for a non-empty separator. -/
def splitStr (s sep : QString) : List QString := splitStrAux sep s 0 []

/-- Worker of `QString::remove(QString)`: drops every occurrence of the non-empty `t`. -/
def removeStrAux (t : QString) : QString → Nat → QString
  | [], _ => []
  | _ :: cs, skip + 1 => removeStrAux t cs skip
  | c :: cs, 0 => if t.isPrefixOf (c :: cs) then removeStrAux t cs (t.length - 1) else c :: removeStrAux t cs 0

/-- Embeds `QString::remove(QString)` for a non-empty argument. -/
def removeStr (s t : QString) : QString := removeStrAux t s 0

/-- Embeds `QString::remove(QChar)`. -/
def removeChar (s : QString) (c : Char) : QString := s.filter (fun d => !(d == c))

/-- Embeds `QChar::isSpace`: ASCII white space, NEL, NBSP and the characters of the Unicode
separator categories Zs, Zl and Zp. -/
def isSpace (c : Char) : Bool :=
  let u := c.toNat
  u == 0x20 || (9 ≤ u && u ≤ 13) || u == 0x85 || u == 0xA0 || u == 0x1680 ||
    (0x2000 ≤ u && u ≤ 0x200A) || u == 0x2028 || u == 0x2029 || u == 0x202F ||
    u == 0x205F || u == 0x3000

/-- Embeds `QString::trimmed`. -/
def trimmed (s : QString) : QString :=
  ((s.dropWhile isSpace).reverse.dropWhile isSpace).reverse

/-! ## ContentBlockingManager::createSubdomainList -/

/-- The `while (dotPosition != -1)` loop of `createSubdomainList`; `none` when the loop is
still running after `fuel` iterations. -/
def createSubdomainListLoop (domain : QString) : Nat → Int → List QString → Option (List QString)
  | fuel, dotPosition, subdomainList =>
    if dotPosition = -1 then some (subdomainList ++ [domain])
    else
      match fuel with
      | 0 => none
      | fuel + 1 =>
        createSubdomainListLoop domain fuel (lastIndexOf domain '.' (dotPosition - 1))
          (subdomainList ++ [mid domain (dotPosition + 1)])

/-- Embeds `ContentBlockingManager::createSubdomainList`. The loop is given `length + 1`
iterations. That is enough for every run that ends (`createSubdomainList_returns`, and more
iterations do not change a result: `createSubdomainListLoop_fuel`); `none` is a loop that
never ends, which is the case of a host starting with a dot (`createSubdomainList_forever`). -/
def createSubdomainList (domain : QString) : Option (List QString) :=
  let dotPosition := lastIndexOf domain '.' (-1)
  let dotPosition := lastIndexOf domain '.' (dotPosition - 1)
  createSubdomainListLoop domain (domain.length + 1) dotPosition []

/-! ## Rules and the match trie -/

/-- Modelled from the spec: the `RuleOption` enumeration of `ContentBlockingProfile.h`
(the header is not part of the sources at hand). Section 4.1 of the specification: each
option is "exactly one bit in a fixed enumeration {ThirdParty, StyleSheet, Image, Script,
Object, ObjectSubRequest, SubDocument, XmlHttpRequest}"; `NoOption` is the empty mask. -/
def NoOption : Nat := 0

/-- Modelled from the spec: bit of the `third-party` option (see `NoOption`). -/
def ThirdPartyOption : Nat := 1

/-- Modelled from the spec: bit of the `stylesheet` option (see `NoOption`). -/
def StyleSheetOption : Nat := 2

/-- Modelled from the spec: bit of the `image` option (see `NoOption`). -/
def ImageOption : Nat := 4

/-- Modelled from the spec: bit of the `script` option (see `NoOption`). -/
def ScriptOption : Nat := 8

/-- Modelled from the spec: bit of the `object` option (see `NoOption`). -/
def ObjectOption : Nat := 16

/-- Modelled from the spec: bit of the `object-subrequest` option (see `NoOption`). -/
def ObjectSubRequestOption : Nat := 32

/-- Modelled from the spec: bit of the `subdocument` option (see `NoOption`). -/
def SubDocumentOption : Nat := 64

/-- Modelled from the spec: bit of the `xmlhttprequest` option (see `NoOption`). -/
def XmlHttpRequestOption : Nat := 128

/-- The C++ test `mask & option` used as a condition. -/
def hasOption (mask option : Nat) : Bool := (mask &&& option) != 0

/-- The C++ struct `ContentBlockingRule`. -/
structure ContentBlockingRule where
  blockedDomains : List QString
  allowedDomains : List QString
  ruleOption : Nat
  exceptionRuleOption : Nat
  isException : Bool
  needsDomainCheck : Bool
  deriving DecidableEq, Repr

/-- The C++ struct `Node` of the match trie: a character, the children in insertion order and
the rule owned by the node, if any. -/
inductive Node where
  | mk (value : Char) (children : List Node) (rule : Option ContentBlockingRule) : Node
  deriving Repr

/-- Field `value` of a node. -/
def Node.value : Node → Char
  | Node.mk v _ _ => v

/-- Field `children` of a node. -/
def Node.children : Node → List Node
  | Node.mk _ c _ => c

/-- Field `rule` of a node. -/
def Node.rule : Node → Option ContentBlockingRule
  | Node.mk _ _ r => r

/-- The node made by `new Node()`: null character, no children, no rule. -/
def Node.empty : Node := Node.mk (Char.ofNat 0) [] none

/-- The values `QNetworkRequest` hands to the engine: `url().url()`, `url().host()`,
`url().scheme()`, `rawHeader("Accept")` and `rawHeader("X-Requested-With")`. -/
structure QNetworkRequest where
  url : QString
  host : QString
  scheme : QString
  accept : QString
  xRequestedWith : QString
  deriving DecidableEq, Repr

/-- The part of a `QUrl` the engine reads from the page base URL: `host()`. -/
structure QUrl where
  host : QString
  deriving DecidableEq, Repr

/-- Embeds `m_domainExpression`, the regular expression `[:\?&/=]` set up by `loadRules`: the
characters that end the host part of an anchor. -/
def isDomainDelimiter (c : Char) : Bool :=
  c == ':' || c == '?' || c == '&' || c == '/' || c == '='

/-- Embeds `QString::indexOf(m_domainExpression)`. -/
def indexOfDomainExpression (s : QString) : Int := indexOfFrom isDomainDelimiter s 0

/-- One step of the child search of `addRule` together with the action taken on its result:
`step` is applied to the first child carrying `value`; when no child carries it, a new node
with that value is appended and `step` is applied to it. -/
def addRuleChild (value : Char) (step : Node → Node) : List Node → List Node
  | [] => [step (Node.mk value [] none)]
  | nextNode :: rest =>
    if nextNode.value == value then step nextNode :: rest
    else nextNode :: addRuleChild value step rest

/-- Embeds `ContentBlockingProfile::addRule`, on the subtree at `node`: follows `ruleString` character
by character, creating missing children, and stores the rule at the node reached. -/
def addRule (rule : ContentBlockingRule) : QString → Node → Node
  | [], node => Node.mk node.value node.children (some rule)
  | value :: rest, node =>
    Node.mk node.value (addRuleChild value (addRule rule rest) node.children) node.rule

/-- The child search of `checkUrlSubstring`: the first child carrying `treeChar`. -/
def findChild (treeChar : Char) : List Node → Option Node
  | [] => none
  | nextNode :: rest => if nextNode.value == treeChar then some nextNode else findChild treeChar rest

/-- Embeds `ContentBlockingProfile::resolveDomainExceptions`. -/
def resolveDomainExceptions (url : QString) : List QString → Bool
  | [] => false
  | d :: rest => if contains url d then true else resolveDomainExceptions url rest

/-- Embeds `ContentBlockingProfile::resolveRuleOptions`; the result is the final value of the
reference parameter `isBlocked`. `baseUrlHost` is `m_baseUrl.host()` and
`requestSubdomainList` is `m_requestSubdomainList`. -/
def resolveRuleOptions (rule : ContentBlockingRule) (request : QNetworkRequest)
    (baseUrlHost : QString) (requestSubdomainList : List QString) (isBlocked : Bool) : Bool :=
  let url := request.url
  let requestHeader := request.accept
  let isBlocked :=
    if rule.allowedDomains.length > 0 then !resolveDomainExceptions baseUrlHost rule.allowedDomains
    else isBlocked
  let isBlocked :=
    if rule.blockedDomains.length > 0 then resolveDomainExceptions baseUrlHost rule.blockedDomains
    else isBlocked
  let isBlocked :=
    if hasOption rule.ruleOption ThirdPartyOption then
      if baseUrlHost.isEmpty || requestSubdomainList.contains baseUrlHost then
        hasOption rule.exceptionRuleOption ThirdPartyOption
      else !hasOption rule.exceptionRuleOption ThirdPartyOption
    else isBlocked
  let isBlocked :=
    if hasOption rule.ruleOption ImageOption then
      if contains requestHeader (qs "image/") || endsWith url (qs ".png") ||
          endsWith url (qs ".jpg") || endsWith url (qs ".gif") then
        (if isBlocked then !hasOption rule.exceptionRuleOption ImageOption else isBlocked)
      else (if isBlocked then hasOption rule.exceptionRuleOption ImageOption else isBlocked)
    else isBlocked
  let isBlocked :=
    if hasOption rule.ruleOption ScriptOption then
      if contains requestHeader (qs "script/") || endsWith url (qs ".js") then
        (if isBlocked then !hasOption rule.exceptionRuleOption ScriptOption else isBlocked)
      else (if isBlocked then hasOption rule.exceptionRuleOption ScriptOption else isBlocked)
    else isBlocked
  let isBlocked :=
    if hasOption rule.ruleOption StyleSheetOption then
      if contains requestHeader (qs "text/css") || endsWith url (qs ".css") then
        (if isBlocked then !hasOption rule.exceptionRuleOption StyleSheetOption else isBlocked)
      else (if isBlocked then hasOption rule.exceptionRuleOption StyleSheetOption else isBlocked)
    else isBlocked
  let isBlocked :=
    if hasOption rule.ruleOption ObjectOption then
      if contains requestHeader (qs "object") then
        (if isBlocked then !hasOption rule.exceptionRuleOption ObjectOption else isBlocked)
      else (if isBlocked then hasOption rule.exceptionRuleOption ObjectOption else isBlocked)
    else isBlocked
  let isBlocked :=
    if hasOption rule.ruleOption XmlHttpRequestOption then
      if request.xRequestedWith == qs "XMLHttpRequest" then
        (if isBlocked then !hasOption rule.exceptionRuleOption XmlHttpRequestOption else isBlocked)
      else (if isBlocked then hasOption rule.exceptionRuleOption XmlHttpRequestOption else isBlocked)
    else isBlocked
  isBlocked

/-- Embeds `ContentBlockingProfile::checkRuleMatch`, with `currentRule` for `m_currentRule` and
`baseUrl` for `m_baseUrl`; `none` when `createSubdomainList` does not return. -/
def checkRuleMatch (rule : ContentBlockingRule) (currentRule : QString)
    (request : QNetworkRequest) (baseUrl : QUrl) : Option Bool :=
  let isBlocked := false
  if contains request.url currentRule then
    match createSubdomainList request.host with
    | none => none
    | some requestSubdomainList =>
      if rule.needsDomainCheck &&
          !requestSubdomainList.contains (left currentRule (indexOfDomainExpression currentRule)) then
        some false
      else
        let isBlocked := if rule.needsDomainCheck then true else isBlocked
        let isBlocked := if isBlocked then !rule.isException else isBlocked
        some (resolveRuleOptions rule request baseUrl.host requestSubdomainList isBlocked)
  else some isBlocked

/-- The test `node->rule && checkRuleMatch(node->rule, request)` of `checkUrlSubstring`. -/
def nodeRuleMatches (node : Node) (currentRule : QString) (request : QNetworkRequest)
    (baseUrl : QUrl) : Option Bool :=
  match node.rule with
  | none => some false
  | some rule => checkRuleMatch rule currentRule request baseUrl

/-- Embeds `ContentBlockingProfile::checkUrlSubstring` from the state reached after some iterations of
its loop: `subString` is what is left to read, `node` the current node and `currentRule` the
value of `m_currentRule`. -/
def checkUrlSubstringFrom (request : QNetworkRequest) (baseUrl : QUrl) :
    QString → Node → QString → Option Bool
  | [], node, currentRule => nodeRuleMatches node currentRule request baseUrl
  | treeChar :: rest, node, currentRule =>
    match nodeRuleMatches node currentRule request baseUrl with
    | none => none
    | some true => some true
    | some false =>
      match findChild treeChar node.children with
      | none => some false
      | some nextNode => checkUrlSubstringFrom request baseUrl rest nextNode (currentRule ++ [treeChar])

/-- Embeds `ContentBlockingProfile::checkUrlSubstring`: the walk starts at `m_root` with an empty
`m_currentRule`. -/
def checkUrlSubstring (root : Node) (subString : QString) (request : QNetworkRequest)
    (baseUrl : QUrl) : Option Bool :=
  checkUrlSubstringFrom request baseUrl subString root []

/-- The `for` loop of `ContentBlockingProfile::isUrlBlocked` from offset `i` on, `fuel` being
the number of offsets left (`urlLenght - i`). -/
def isUrlBlockedLoop (root : Node) (request : QNetworkRequest) (baseUrl : QUrl) :
    Nat → Nat → Option Bool
  | 0, _ => some false
  | fuel + 1, i =>
    let url := request.url
    let testString := right url ((url.length : Int) - (i : Int))
    match checkUrlSubstring root testString request baseUrl with
    | none => none
    | some true => some true
    | some false => isUrlBlockedLoop root request baseUrl fuel (i + 1)

/-- The body of `ContentBlockingProfile::isUrlBlocked` once the rules are loaded: the trie
`root` is searched at every offset of the request URL. -/
def isUrlBlockedIn (root : Node) (request : QNetworkRequest) (baseUrl : QUrl) : Option Bool :=
  isUrlBlockedLoop root request baseUrl request.url.length 0

/-! ## ContentBlockingProfile: state, parsing and loading -/

/-- The fields of `ContentBlockingInformation` the engine reads or writes. `lastUpdate` is
`none` for an invalid `QDateTime`. -/
structure ContentBlockingInformation where
  title : QString
  updateUrl : QString
  lastUpdate : Option Int
  daysToExpire : Int
  isLoaded : Bool
  isUpToDate : Bool
  deriving DecidableEq, Repr

/-- The state of a `ContentBlockingProfile`. `file` holds the lines of the file at
`m_information.path` as `QTextStream::readLine` returns them (`none`: the file cannot be
opened); `m_root` is `none` for the null pointer; a `QMultiHash` is the list of its pairs in
insertion order; `m_networkReply` is the URL of the download in flight. -/
structure ContentBlockingProfile where
  file : Option (List QString)
  m_information : ContentBlockingInformation
  m_root : Option Node
  m_styleSheet : QString
  m_styleSheetBlackList : List (QString × QString)
  m_styleSheetWhiteList : List (QString × QString)
  m_networkReply : Option QString

/-- The Qt services `load` relies on and that are outside the sources at hand:
`QString::toInt`, `QLocale::toDateTime` with the format `ddMMMyyyyhh:mm` (`none`: invalid
date), `QUrl::isValid`, and `lastUpdate.daysTo(QDateTime::currentDateTimeUtc())`. -/
structure QtServices where
  toInt : QString → Int
  toDateTime : QString → Option Int
  urlIsValid : QString → Bool
  daysToNow : Int → Int

/-- Embeds `ContentBlockingProfile::parseStyleSheetRule`: one pair per listed domain, all with the
selector `line.at(1)`. -/
def parseStyleSheetRule (line : List QString) (list : List (QString × QString)) :
    List (QString × QString) :=
  let domains := splitChar (line.getD 0 []) ','
  list ++ domains.map (fun domain => (domain, line.getD 1 []))

/-- The domain loop of `parseRuleLine` over the entries of a `domain=` option. -/
def parseDomains : List QString → ContentBlockingRule → ContentBlockingRule
  | [], rule => rule
  | domain :: rest, rule =>
    if startsWithChar domain '~' then
      parseDomains rest { rule with allowedDomains := rule.allowedDomains ++ [mid domain 1] }
    else
      parseDomains rest { rule with blockedDomains := rule.blockedDomains ++ [domain] }

/-- Adds `option` to the rule and, when the token is negated, to its exception mask. -/
def setOption (rule : ContentBlockingRule) (optionException : Bool) (option : Nat) :
    ContentBlockingRule :=
  { rule with
    ruleOption := rule.ruleOption ||| option
    exceptionRuleOption := rule.exceptionRuleOption ||| (if optionException then option else NoOption) }

/-- The option loop of `parseRuleLine`; `none` when the rule is deleted and the function
returns without inserting it. -/
def parseOptions : List QString → ContentBlockingRule → Option ContentBlockingRule
  | [], rule => some rule
  | option :: rest, rule =>
    let optionException := startsWithChar option '~'
    if contains option (qs "third-party") then
      parseOptions rest (setOption rule optionException ThirdPartyOption)
    else if contains option (qs "stylesheet") then
      parseOptions rest (setOption rule optionException StyleSheetOption)
    else if contains option (qs "image") then
      parseOptions rest (setOption rule optionException ImageOption)
    else if contains option (qs "script") then
      parseOptions rest (setOption rule optionException ScriptOption)
    else if contains option (qs "object") then
      parseOptions rest (setOption rule optionException ObjectOption)
    else if contains option (qs "object-subrequest") || contains option (qs "object_subrequest") then
      none
    else if contains option (qs "subdocument") then
      none
    else if contains option (qs "xmlhttprequest") then
      parseOptions rest (setOption rule optionException XmlHttpRequestOption)
    else if contains option (qs "domain") then
      let parsedDomains := splitCharSkipEmpty (mid option (indexOfChar option '=' + 1)) '|'
      parseOptions rest (parseDomains parsedDomains rule)
    else
      none

/-- The loop of `parseRuleLine` that drops trailing `|`, `*` and `^`, run on the reversed
line. -/
def stripTrailingRev : QString → QString
  | [] => []
  | c :: cs => if c == '|' || c == '*' || c == '^' then stripTrailingRev cs else c :: cs

/-- The loop of `parseRuleLine` that drops trailing `|`, `*` and `^`. -/
def stripTrailing (line : QString) : QString := (stripTrailingRev line.reverse).reverse

/-- The network-rule part of `ContentBlockingProfile::parseRuleLine` (from the search for the
option separator to the call of `addRule`): the rule built and the string it is stored under,
or `none` when the function returns without inserting a rule. -/
def parseNetworkRule (line : QString) : Option (ContentBlockingRule × QString) :=
  let optionSeparator := indexOfChar line '$'
  let options :=
    if optionSeparator ≥ 0 then splitCharSkipEmpty (mid line (optionSeparator + 1)) ',' else []
  let line := if optionSeparator ≥ 0 then left line optionSeparator else line
  let line := stripTrailing line
  let line := if startsWithChar line '*' then mid line 1 else line
  if containsChar line '*' || containsChar line '^' then none
  else
    let rule : ContentBlockingRule :=
      { blockedDomains := [], allowedDomains := [], ruleOption := NoOption,
        exceptionRuleOption := NoOption, isException := false, needsDomainCheck := false }
    let isException := startsWith line (qs "@@")
    let line := if isException then mid line 2 else line
    let rule := if isException then { rule with isException := true } else rule
    let needsDomainCheck := startsWith line (qs "||")
    let line := if needsDomainCheck then mid line 2 else line
    let rule := if needsDomainCheck then { rule with needsDomainCheck := true } else rule
    match parseOptions options rule with
    | none => none
    | some rule => some (rule, line)

/-- Embeds `ContentBlockingProfile::parseRuleLine`. The rule is inserted below `m_root`, which
`loadRules` allocates before the first call. -/
def parseRuleLine (p : ContentBlockingProfile) (line : QString) : ContentBlockingProfile :=
  if indexOfChar line '!' = 0 || line.isEmpty then p
  else if startsWith line (qs "##") then
    { p with m_styleSheet := p.m_styleSheet ++ (mid line 2 ++ [','] ) }
  else if contains line (qs "##") then
    { p with m_styleSheetBlackList := parseStyleSheetRule (splitStr line (qs "##")) p.m_styleSheetBlackList }
  else if contains line (qs "#@#") then
    { p with m_styleSheetWhiteList := parseStyleSheetRule (splitStr line (qs "#@#")) p.m_styleSheetWhiteList }
  else
    match parseNetworkRule line with
    | none => p
    | some (rule, ruleString) => { p with m_root := p.m_root.map (addRule rule ruleString) }

/-- Embeds `ContentBlockingProfile::loadRules`: marks the profile loaded, allocates a fresh root,
parses every line after the first one and closes the generic style sheet. -/
def loadRules (p : ContentBlockingProfile) : ContentBlockingProfile :=
  let p := { p with m_information := { p.m_information with isLoaded := true } }
  let lines := p.file.getD []
  let p := { p with m_root := some Node.empty }
  let p := (lines.drop 1).foldl parseRuleLine p
  if p.m_styleSheet.length > 0 then
    { p with m_styleSheet := left p.m_styleSheet ((p.m_styleSheet.length : Int) - 1) ++ qs "\x7bdisplay:none;\x7d" }
  else p

/-- Embeds `ContentBlockingProfile::downloadUpdate`: a request for `updateUrl` is sent and its reply
handle remembered. -/
def downloadUpdate (p : ContentBlockingProfile) : ContentBlockingProfile :=
  { p with m_networkReply := some p.m_information.updateUrl }

/-- The header loop of `load`: reads comment lines until the first line that is not a
comment; the result is the information found and the final value of `isEmpty`. -/
def loadHeader (qt : QtServices) : List QString → ContentBlockingInformation →
    ContentBlockingInformation × Bool
  | [], information => (information, true)
  | rawLine :: rest, information =>
    let line := trimmed rawLine
    if !startsWithChar line '!' then (information, false)
    else if startsWith line (qs "! Title: ") then
      loadHeader qt rest { information with title := removeStr line (qs "! Title: ") }
    else if startsWith line (qs "! Expires: ") then
      loadHeader qt rest { information with
        daysToExpire := qt.toInt ((splitChar (removeStr line (qs "! Expires: ")) ' ').headD []) }
    else
      let line := removeChar line ' '
      if startsWith line (qs "!URL:") then
        loadHeader qt rest { information with updateUrl := removeStr line (qs "!URL:") }
      else if startsWith line (qs "!Lastmodified:") then
        loadHeader qt rest { information with
          lastUpdate := qt.toDateTime (removeStr (removeStr line (qs "!Lastmodified:")) (qs "UTC")) }
      else loadHeader qt rest information

/-- Embeds `ContentBlockingProfile::load`. A file that cannot be opened or whose first line does not
start with the version marker leaves the profile as it is (a console message apart). The
background call of `loadRules` is run in place. -/
def load (qt : QtServices) (p : ContentBlockingProfile) (onlyHeader : Bool) : ContentBlockingProfile :=
  match p.file with
  | none => p
  | some lines =>
    if !startsWith (trimmed (lines.headD [])) (qs "[Adblock Plus 2.") then p
    else
      let (information, isEmpty) := loadHeader qt (lines.drop 1) p.m_information
      let p := { p with m_information := information }
      let expired :=
        match information.lastUpdate with
        | none => false
        | some lastUpdate => decide (qt.daysToNow lastUpdate > information.daysToExpire)
      let p :=
        if !information.isUpToDate && ((isEmpty && qt.urlIsValid information.updateUrl) || expired) then
          downloadUpdate p
        else p
      if !onlyHeader then loadRules p else p

/-- The constructor of `ContentBlockingProfile` for the file with the given lines:
default-initialised members, title "(Unknown)", then `load(true)`. -/
def ContentBlockingProfile.create (qt : QtServices) (file : Option (List QString)) :
    ContentBlockingProfile :=
  load qt
    { file := file,
      m_information := { title := qs "(Unknown)", updateUrl := [], lastUpdate := none,
                         daysToExpire := 0, isLoaded := false, isUpToDate := false },
      m_root := none, m_styleSheet := [], m_styleSheetBlackList := [],
      m_styleSheetWhiteList := [], m_networkReply := none }
    true

/-- The lazy loading at the head of every query: `if (!m_information.isLoaded) loadRules()`. -/
def ensureLoaded (p : ContentBlockingProfile) : ContentBlockingProfile :=
  if !p.m_information.isLoaded then loadRules p else p

/-- Embeds `ContentBlockingProfile::getStyleSheet`: the style sheet and the profile after the call. -/
def ContentBlockingProfile.getStyleSheet (p : ContentBlockingProfile) :
    QString × ContentBlockingProfile :=
  let p := ensureLoaded p
  (p.m_styleSheet, p)

/-- Embeds `ContentBlockingProfile::getStyleSheetWhiteList` (it returns `m_styleSheetBlackList`). -/
def ContentBlockingProfile.getStyleSheetWhiteList (p : ContentBlockingProfile) :
    List (QString × QString) × ContentBlockingProfile :=
  let p := ensureLoaded p
  (p.m_styleSheetBlackList, p)

/-- Embeds `ContentBlockingProfile::getStyleSheetBlackList` (it returns `m_styleSheetWhiteList`). -/
def ContentBlockingProfile.getStyleSheetBlackList (p : ContentBlockingProfile) :
    List (QString × QString) × ContentBlockingProfile :=
  let p := ensureLoaded p
  (p.m_styleSheetWhiteList, p)

/-- Embeds `ContentBlockingProfile::isUrlBlocked`: the answer and the profile after the call. `none`
when the call does not return a value: `createSubdomainList` runs forever, or `m_root` is
null and is dereferenced by the first walk. -/
def ContentBlockingProfile.isUrlBlocked (p : ContentBlockingProfile) (request : QNetworkRequest)
    (baseUrl : QUrl) : Option (Bool × ContentBlockingProfile) :=
  let p := ensureLoaded p
  match p.m_root with
  | some root => (isUrlBlockedIn root request baseUrl).map (fun blocked => (blocked, p))
  | none => if request.url.length = 0 then some (false, p) else none

/-! ## ContentBlockingManager -/

/-- The `for` loop of `ContentBlockingManager::isUrlBlocked` over the profile indices. -/
def ContentBlockingManager.isUrlBlockedLoop (request : QNetworkRequest) (baseUrl : QUrl) :
    List Int → List ContentBlockingProfile → Option (Bool × List ContentBlockingProfile)
  | [], m_profiles => some (false, m_profiles)
  | index :: rest, m_profiles =>
    if 0 ≤ index ∧ index < (m_profiles.length : Int) then
      match m_profiles.get? index.toNat with
      | none => ContentBlockingManager.isUrlBlockedLoop request baseUrl rest m_profiles
      | some profile =>
        match profile.isUrlBlocked request baseUrl with
        | none => none
        | some (true, profile1) => some (true, m_profiles.set index.toNat profile1)
        | some (false, profile1) =>
          ContentBlockingManager.isUrlBlockedLoop request baseUrl rest (m_profiles.set index.toNat profile1)
    else ContentBlockingManager.isUrlBlockedLoop request baseUrl rest m_profiles

/-- Embeds `ContentBlockingManager::isUrlBlocked` on the profile vector `m_profiles`: the answer and
the profiles after the call; `none` when a profile does not return. -/
def ContentBlockingManager.isUrlBlocked (m_profiles : List ContentBlockingProfile)
    (profiles : List Int) (request : QNetworkRequest) (baseUrl : QUrl) :
    Option (Bool × List ContentBlockingProfile) :=
  if profiles.isEmpty then some (false, m_profiles)
  else if request.scheme != qs "http" && request.scheme != qs "https" then some (false, m_profiles)
  else ContentBlockingManager.isUrlBlockedLoop request baseUrl profiles m_profiles

/-! ## Inputs used in the examples -/

/-- An `http` request without headers for the given URL text and host. -/
def httpRequest (url host : String) : QNetworkRequest :=
  { url := url.toList, host := host.toList, scheme := qs "http", accept := [], xRequestedWith := [] }

/-- The profile constructed for a file with the given lines. -/
def profileOfLines (qt : QtServices) (lines : List String) : ContentBlockingProfile :=
  ContentBlockingProfile.create qt (some (lines.map String.toList))

/-- The answer of `ContentBlockingProfile::isUrlBlocked` for the profile of a file with the
given lines, for a page whose base URL has host `baseHost`. -/
def blockedBy (qt : QtServices) (lines : List String) (request : QNetworkRequest)
    (baseHost : String) : Option Bool :=
  ((profileOfLines qt lines).isUrlBlocked request { host := baseHost.toList }).map Prod.fst

/-- The rule `parseRuleLine` builds for an option-less line `||anchor`. -/
def anchoredRule : ContentBlockingRule :=
  { blockedDomains := [], allowedDomains := [], ruleOption := NoOption,
    exceptionRuleOption := NoOption, isException := false, needsDomainCheck := true }

/-- The rule `parseRuleLine` builds for an option-less line without `@@` and `||`. -/
def plainRule : ContentBlockingRule :=
  { blockedDomains := [], allowedDomains := [], ruleOption := NoOption,
    exceptionRuleOption := NoOption, isException := false, needsDomainCheck := false }

/-- A filter file with the single rule `||ads.example.com^`. -/
def adsLines : List String := ["[Adblock Plus 2.0]", "||ads.example.com^"]

/-- The request for `http://ads.example.com/banner.png`. -/
def adsRequest : QNetworkRequest := httpRequest "http://ads.example.com/banner.png" "ads.example.com"

/-- The request for `http://notads.example.com/banner.png`. -/
def notAdsRequest : QNetworkRequest :=
  httpRequest "http://notads.example.com/banner.png" "notads.example.com"

/-- The request for `http://notads.example.com/ok`. -/
def notAdsOkRequest : QNetworkRequest :=
  httpRequest "http://notads.example.com/ok" "notads.example.com"

/-- The request for `http://ads.example.com/ok/img.png`. -/
def okRequest : QNetworkRequest := httpRequest "http://ads.example.com/ok/img.png" "ads.example.com"

/-- The trie holding the single anchor `ads.example.com` with the rule of `||ads.example.com^`. -/
def adsRoot : Node := addRule anchoredRule (qs "ads.example.com") Node.empty

mutual
/-- Number of rules owned by the nodes of a trie. -/
def Node.ruleCount : Node → Nat
  | Node.mk _ children rule => (if rule.isSome then 1 else 0) + ruleCountList children
/-- Number of rules owned by the nodes of a list of tries. -/
def ruleCountList : List Node → Nat
  | [] => 0
  | node :: rest => node.ruleCount + ruleCountList rest
end

/-- A state a profile can be in: once the rules are marked loaded the root is allocated
(`loadRules` is the only writer of `isLoaded` and allocates the root in the same call). -/
def ContentBlockingProfile.WellFormed (p : ContentBlockingProfile) : Prop :=
  p.m_information.isLoaded = true → p.m_root.isSome = true

/-- Qt services for the examples: no number, no date and no valid URL is ever recognised. -/
def exampleQt : QtServices :=
  { toInt := fun _ => 0, toDateTime := fun _ => none, urlIsValid := fun _ => false,
    daysToNow := fun _ => 0 }

/-- The generic selectors of a rule body, each followed by a comma, as `parseRuleLine` appends
them to `m_styleSheet`. -/
def genericSheet : List QString → QString
  | [] => []
  | line :: rest =>
    if startsWith line (qs "##") then line.drop 2 ++ [','] ++ genericSheet rest
    else genericSheet rest

/-- The pattern body of a network-rule line as the code forms it: the text before the first
`$` of the line (the whole line when it has none), without its trailing `|`, `*` and `^`
characters and without one leading `*`. -/
def patternBody (line : QString) : QString :=
  let pattern := line.takeWhile (fun c => c != '$')
  let pattern := (pattern.reverse.dropWhile (fun c => c == '|' || c == '*' || c == '^')).reverse
  match pattern with
  | '*' :: rest => rest
  | _ => pattern

/-- The pattern body of a network-rule line in the words of the specification (section 4.1,
steps 1 and 2): the line without its options suffix, which starts at the last `$` of the
line, without its trailing `|`, `*` and `^` characters and without one leading `*`. -/
def specPatternBody (line : QString) : QString :=
  let pattern :=
    if containsChar line '$' then ((line.reverse.dropWhile (fun c => c != '$')).drop 1).reverse
    else line
  let pattern := (pattern.reverse.dropWhile (fun c => c == '|' || c == '*' || c == '^')).reverse
  match pattern with
  | '*' :: rest => rest
  | _ => pattern

/-- The rule found by walking `s` from `node` with the child search of `addRule` and
`checkUrlSubstring`: `none` when a character has no child or the node reached owns no rule. -/
def ruleAt : QString → Node → Option ContentBlockingRule
  | [], node => node.rule
  | c :: cs, node =>
    match findChild c node.children with
    | none => none
    | some nextNode => ruleAt cs nextNode

/-- The rule `parseRuleLine` builds for an option-less line `@@||anchor`. -/
def anchoredException : ContentBlockingRule :=
  { blockedDomains := [], allowedDomains := [], ruleOption := NoOption,
    exceptionRuleOption := NoOption, isException := true, needsDomainCheck := true }

/-- The trie holding the exception rule of `@@||ads.example.com` and the blocking rule of
`||ads.example.com/ok`. -/
def exceptionFirstRoot : Node :=
  addRule anchoredRule (qs "ads.example.com/ok") (addRule anchoredException (qs "ads.example.com") Node.empty)

/-- Evidence of a resource type in a request, in the words of the specification (section
4.3): the token of the type in the Accept header or one of its URL extensions (`.png`,
`.jpg`, `.gif` for Image, `.js` for Script, `.css` for StyleSheet, none for Object). -/
def contentTypeEvidence (option : Nat) (request : QNetworkRequest) : Bool :=
  if option = ImageOption then
    contains request.accept (qs "image/") || endsWith request.url (qs ".png") ||
      endsWith request.url (qs ".jpg") || endsWith request.url (qs ".gif")
  else if option = ScriptOption then
    contains request.accept (qs "script/") || endsWith request.url (qs ".js")
  else if option = StyleSheetOption then
    contains request.accept (qs "text/css") || endsWith request.url (qs ".css")
  else if option = ObjectOption then contains request.accept (qs "object")
  else false

/-- A rule without domain lists whose option mask is `option` and whose exception mask is
`exceptionOption`. -/
def optionRule (option exceptionOption : Nat) (isException needsDomainCheck : Bool) :
    ContentBlockingRule :=
  { blockedDomains := [], allowedDomains := [], ruleOption := option,
    exceptionRuleOption := exceptionOption, isException := isException,
    needsDomainCheck := needsDomainCheck }

/-- The request for `http://ads.example.com/page.html`, without headers. -/
def pageRequest : QNetworkRequest := httpRequest "http://ads.example.com/page.html" "ads.example.com"

/-- The option steps of `resolveRuleOptions` (from the third-party test on) as a function of
what they read from the request: `firstParty` is the test "base host empty or in the subdomain
list", the other flags are the evidence tests of the image, script, stylesheet, object and
xmlhttprequest steps, `isBlocked` the state after the two domain-list steps. -/
def resolveOptionBits (ruleOption exceptionRuleOption : Nat)
    (firstParty image script styleSheet object xmlHttpRequest : Bool) (isBlocked : Bool) : Bool :=
  let isBlocked :=
    if hasOption ruleOption ThirdPartyOption then
      if firstParty then hasOption exceptionRuleOption ThirdPartyOption
      else !hasOption exceptionRuleOption ThirdPartyOption
    else isBlocked
  let isBlocked :=
    if hasOption ruleOption ImageOption then
      if image then (if isBlocked then !hasOption exceptionRuleOption ImageOption else isBlocked)
      else (if isBlocked then hasOption exceptionRuleOption ImageOption else isBlocked)
    else isBlocked
  let isBlocked :=
    if hasOption ruleOption ScriptOption then
      if script then (if isBlocked then !hasOption exceptionRuleOption ScriptOption else isBlocked)
      else (if isBlocked then hasOption exceptionRuleOption ScriptOption else isBlocked)
    else isBlocked
  let isBlocked :=
    if hasOption ruleOption StyleSheetOption then
      if styleSheet then
        (if isBlocked then !hasOption exceptionRuleOption StyleSheetOption else isBlocked)
      else (if isBlocked then hasOption exceptionRuleOption StyleSheetOption else isBlocked)
    else isBlocked
  let isBlocked :=
    if hasOption ruleOption ObjectOption then
      if object then (if isBlocked then !hasOption exceptionRuleOption ObjectOption else isBlocked)
      else (if isBlocked then hasOption exceptionRuleOption ObjectOption else isBlocked)
    else isBlocked
  let isBlocked :=
    if hasOption ruleOption XmlHttpRequestOption then
      if xmlHttpRequest then
        (if isBlocked then !hasOption exceptionRuleOption XmlHttpRequestOption else isBlocked)
      else (if isBlocked then hasOption exceptionRuleOption XmlHttpRequestOption else isBlocked)
    else isBlocked
  isBlocked

/-- The two domain-list steps of `resolveRuleOptions`: the state they leave. -/
def resolveDomainLists (rule : ContentBlockingRule) (baseUrlHost : QString) (isBlocked : Bool) :
    Bool :=
  let isBlocked :=
    if rule.allowedDomains.length > 0 then !resolveDomainExceptions baseUrlHost rule.allowedDomains
    else isBlocked
  if rule.blockedDomains.length > 0 then resolveDomainExceptions baseUrlHost rule.blockedDomains
  else isBlocked

/-- The option tokens of a network-rule line, where the code takes them: the text after the
first `$` of the line, split at commas, empty tokens dropped (no token when there is no `$`). -/
def optionTokens (line : QString) : List QString :=
  splitCharSkipEmpty ((line.dropWhile (fun c => c != '$')).drop 1) ','

/-- The steps of `parseRuleLine` that follow the split at the option separator, for a given
pattern text and a given list of option tokens: the rule built and the string it is stored
under, or `none` when no rule is inserted. -/
def parsePattern (pattern : QString) (options : List QString) :
    Option (ContentBlockingRule × QString) :=
  let line := stripTrailing pattern
  let line := if startsWithChar line '*' then mid line 1 else line
  if containsChar line '*' || containsChar line '^' then none
  else
    let rule : ContentBlockingRule :=
      { blockedDomains := [], allowedDomains := [], ruleOption := NoOption,
        exceptionRuleOption := NoOption, isException := false, needsDomainCheck := false }
    let isException := startsWith line (qs "@@")
    let line := if isException then mid line 2 else line
    let rule := if isException then { rule with isException := true } else rule
    let needsDomainCheck := startsWith line (qs "||")
    let line := if needsDomainCheck then mid line 2 else line
    let rule := if needsDomainCheck then { rule with needsDomainCheck := true } else rule
    match parseOptions options rule with
    | none => none
    | some rule => some (rule, line)

/-- An option token in the words of the specification (section 4.1, step 6): one of the
eight option keywords, with or without a leading `~`, or a `domain=...` token. -/
def isRecognisedToken (token : QString) : Bool :=
  let word := if startsWithChar token '~' then token.drop 1 else token
  [qs "third-party", qs "stylesheet", qs "image", qs "script", qs "object",
      qs "object-subrequest", qs "subdocument", qs "xmlhttprequest"].contains word ||
    startsWith token (qs "domain=")

/-- Test of a token for the words the option loop of `parseRuleLine` looks for and accepts:
true when the token contains none of them. -/
def containsNoOptionWord (token : QString) : Bool :=
  !contains token (qs "third-party") && !contains token (qs "stylesheet") &&
    !contains token (qs "image") && !contains token (qs "script") &&
    !contains token (qs "object") && !contains token (qs "xmlhttprequest") &&
    !contains token (qs "domain")

/-- The positions below `n` at which `s` holds `ch`, greatest first. -/
def positionsBelow (s : QString) (ch : Char) : Nat → List Nat
  | 0 => []
  | n + 1 => if s.get? n = some ch then n :: positionsBelow s ch n else positionsBelow s ch n

/-- The first entry of a list of positions as a Qt position, `-1` for the empty list. -/
def firstPosition : List Nat → Int
  | [] => -1
  | k :: _ => (k : Int)

/-- The request for `http://ads.example.com/page.html` carrying the header
`X-Requested-With: XMLHttpRequest` and no other header. -/
def xhrPageRequest : QNetworkRequest := { pageRequest with xRequestedWith := qs "XMLHttpRequest" }

/-- The `for` loop of `ContentBlockingManager::getStyleSheetBlackList` and of
`ContentBlockingManager::getStyleSheetWhiteList` over the profile indices: `getter` is the
profile member the function calls, `list` the hash built so far, to which `+=` adds the pairs
the profile returns. The result is the hash and the profiles after the calls. -/
def ContentBlockingManager.styleSheetListLoop
    (getter : ContentBlockingProfile → List (QString × QString) × ContentBlockingProfile) :
    List Int → List ContentBlockingProfile → List (QString × QString) →
      List (QString × QString) × List ContentBlockingProfile
  | [], m_profiles, list => (list, m_profiles)
  | index :: rest, m_profiles, list =>
    if 0 ≤ index ∧ index < (m_profiles.length : Int) then
      match m_profiles.get? index.toNat with
      | none => ContentBlockingManager.styleSheetListLoop getter rest m_profiles list
      | some profile =>
        ContentBlockingManager.styleSheetListLoop getter rest
          (m_profiles.set index.toNat (getter profile).2) (list ++ (getter profile).1)
    else ContentBlockingManager.styleSheetListLoop getter rest m_profiles list

/-- Embeds `ContentBlockingManager::getStyleSheetBlackList`: it adds up what
`getStyleSheetWhiteList` of each profile returns. -/
def ContentBlockingManager.getStyleSheetBlackList (m_profiles : List ContentBlockingProfile)
    (profiles : List Int) : List (QString × QString) × List ContentBlockingProfile :=
  ContentBlockingManager.styleSheetListLoop ContentBlockingProfile.getStyleSheetWhiteList
    profiles m_profiles []

/-- Embeds `ContentBlockingManager::getStyleSheetWhiteList`: it adds up what
`getStyleSheetBlackList` of each profile returns. -/
def ContentBlockingManager.getStyleSheetWhiteList (m_profiles : List ContentBlockingProfile)
    (profiles : List Int) : List (QString × QString) × List ContentBlockingProfile :=
  ContentBlockingManager.styleSheetListLoop ContentBlockingProfile.getStyleSheetBlackList
    profiles m_profiles []

/-- The file of a profile with one generic line, two `##` lines and two `#@#` lines. -/
def cosmeticLines : List String :=
  ["[Adblock Plus 2.0]", "##.ad", "example.com,example.org##.banner", "shop.example###promo",
    "example.com#@#.banner", "||ads.example.com^", "news.example#@#.teaser"]

/-! ## ContentBlockingProfile::updateDownloaded -/

/-- What `updateDownloaded` reads from a `QNetworkReply`: the URL of the request it answers
(it stands for the identity of the reply, which the code compares with `m_networkReply`),
whether `error()` differs from `NoError`, and the bytes of the body. -/
structure QNetworkReply where
  request : QString
  error : Bool
  data : QString
  deriving DecidableEq, Repr

/-- The services `updateDownloaded` relies on and that are outside the sources at hand:
`QCryptographicHash::hash(bytes, Md5).toBase64()`, the current UTC time in the format
`dd MMM yyyy hh:mm`, whether `QFile::open(ReadWrite | Truncate)` succeeds on the profile's
file, and the lines `QTextStream::readLine` returns for a file holding the given bytes. -/
structure UpdateServices where
  md5Base64 : QString → QString
  currentDateTimeUtc : QString
  canOpenForWriting : Bool
  readLines : QString → List QString

/-- Embeds `QIODevice::readLine` on the bytes not read yet: the line up to and including its
`\n` (everything when there is none) and the bytes left. -/
def readLine : QString → QString × QString
  | [] => ([], [])
  | c :: cs => if c == '\n' then ([c], cs) else (c :: (readLine cs).1, (readLine cs).2)

/-- The white space of `QByteArray::trimmed`: space, `\t`, `\n`, `\v`, `\f`, `\r`. -/
def isSpaceByte (c : Char) : Bool := c == ' ' || (9 ≤ c.toNat && c.toNat ≤ 13)

/-- Embeds `QByteArray::trimmed`. -/
def trimmedBytes (s : QString) : QString :=
  ((s.dropWhile isSpaceByte).reverse.dropWhile isSpaceByte).reverse

/-- The local `downloadedDataHeader` of `updateDownloaded`: the first line of the reply. -/
def downloadedDataHeader (reply : QNetworkReply) : QString := (readLine reply.data).1

/-- The local `downloadedDataChecksum` of `updateDownloaded`: the second line of the reply. -/
def downloadedDataChecksum (reply : QNetworkReply) : QString :=
  (readLine (readLine reply.data).2).1

/-- The local `downloadedData` of `updateDownloaded`: all bytes after the second line. -/
def downloadedData (reply : QNetworkReply) : QString := (readLine (readLine reply.data).2).2

/-- The bytes `updateDownloaded` writes to the profile's file: the header line, the line
`! URL: ...`, the second line of the reply, a line `! Last modified: ... UTC` when the
downloaded data holds none, and the downloaded data. -/
def writtenFile (env : UpdateServices) (p : ContentBlockingProfile) (reply : QNetworkReply) :
    QString :=
  downloadedDataHeader reply ++ (qs "! URL: " ++ p.m_information.updateUrl ++ qs "\n") ++
    downloadedDataChecksum reply ++
    (if !contains (downloadedData reply) (qs "! Last modified: ") then
      qs "! Last modified: " ++ env.currentDateTimeUtc ++ qs " UTC\n"
    else []) ++
    downloadedData reply

/-- Modelled from the spec: the default value of the parameter `onlyHeader` of `load`, declared
in `ContentBlockingProfile.h` (the header is not part of the sources at hand). Section 4.6 of
the specification: a successful update "discards the in-memory trie and cosmetic maps, and
re-triggers a full load". -/
def onlyHeaderDefault : Bool := false

/-- Embeds `ContentBlockingProfile::updateDownloaded`: the profile after the slot has run for
`reply`. Every early `return` leaves the profile as it is (console messages apart); a file
that cannot be opened for writing keeps its contents. After the writes the file holds the
lines of `writtenFile`; the nodes of the old trie are freed in the background and `m_root`
keeps its value until `loadRules` allocates a new root. The call `load()` at the end takes
the default argument. -/
def updateDownloaded (qt : QtServices) (env : UpdateServices) (p : ContentBlockingProfile)
    (reply : QNetworkReply) : ContentBlockingProfile :=
  if p.m_networkReply != some reply.request then p
  else if reply.error ||
      !startsWith (trimmedBytes (downloadedDataHeader reply)) (qs "[Adblock Plus 2.") then p
  else if contains (downloadedDataChecksum reply) (qs "! Checksum: ") &&
      removeStr (env.md5Base64 (downloadedDataHeader reply ++ downloadedData reply)) (qs "=") !=
        removeStr (removeStr (downloadedDataChecksum reply) (qs "! Checksum: ")) (qs "\n") then p
  else if !env.canOpenForWriting then p
  else
    let p := { p with file := some (env.readLines (writtenFile env p reply)) }
    let p := { p with m_information := { p.m_information with isUpToDate := true } }
    let p := { p with m_styleSheet := [], m_styleSheetWhiteList := [], m_styleSheetBlackList := [] }
    load qt p onlyHeaderDefault

/-- The lines of a text: the parts between line feeds, without an empty last part. -/
def textLines (bytes : QString) : List QString :=
  if (splitChar bytes '\n').getLast? = some [] then (splitChar bytes '\n').dropLast
  else splitChar bytes '\n'

/-- Services for the examples: a hash function with the constant value
`1B2M2Y8AsgTpgAmY7PhCfg==`, a fixed time, and a file that can be written or not. -/
def exampleUpdate (canOpenForWriting : Bool) : UpdateServices :=
  { md5Base64 := fun _ => qs "1B2M2Y8AsgTpgAmY7PhCfg==",
    currentDateTimeUtc := qs "30 Oct 2026 12:00",
    canOpenForWriting := canOpenForWriting,
    readLines := textLines }

/-- The loaded profile of cosmeticLines while its update is in flight. -/
def updatingProfile : ContentBlockingProfile :=
  { ensureLoaded (profileOfLines exampleQt cosmeticLines) with
    m_networkReply := some (qs "http://example.com/list.txt") }

/-- A reply for the update in flight whose second line declares the given checksum and whose
data is the rule `||tracker.example.org^`. -/
def replyWithChecksum (checksum : String) : QNetworkReply :=
  { request := qs "http://example.com/list.txt", error := false,
    data := qs "[Adblock Plus 2.0]\n! Checksum: " ++ checksum.toList ++
      qs "\n||tracker.example.org^\n" }

/-- The request for `http://tracker.example.org/pixel.gif`, without headers. -/
def trackerRequest : QNetworkRequest :=
  httpRequest "http://tracker.example.org/pixel.gif" "tracker.example.org"

/-- Evidence of an option in a request: for xmlhttprequest the header
`X-Requested-With: XMLHttpRequest`, for the content types what contentTypeEvidence says. -/
def requestEvidence (option : Nat) (request : QNetworkRequest) : Bool :=
  if option = XmlHttpRequestOption then request.xRequestedWith == qs "XMLHttpRequest"
  else contentTypeEvidence option request

/-- The state of `resolveRuleOptions` after its two domain-list steps and its third-party
step, before the first content-type step. -/
def stateAfterThirdParty (rule : ContentBlockingRule) (baseUrlHost : QString)
    (requestSubdomainList : List QString) (isBlocked : Bool) : Bool :=
  if hasOption rule.ruleOption ThirdPartyOption then
    if baseUrlHost.isEmpty || requestSubdomainList.contains baseUrlHost then
      hasOption rule.exceptionRuleOption ThirdPartyOption
    else !hasOption rule.exceptionRuleOption ThirdPartyOption
  else resolveDomainLists rule baseUrlHost isBlocked

/-- What an option of a rule asks of a request: evidence of the option when the rule carries
it not negated, no evidence when the rule carries it negated, nothing when the rule does not
carry it. -/
def optionSatisfied (rule : ContentBlockingRule) (option : Nat) (request : QNetworkRequest) :
    Bool :=
  if hasOption rule.ruleOption option then
    if hasOption rule.exceptionRuleOption option then !requestEvidence option request
    else requestEvidence option request
  else true

/-- The request for `http://ads.example.com/banner.png` whose Accept header names scripts. -/
def scriptImageRequest : QNetworkRequest := { adsRequest with accept := qs "script/javascript" }

mutual
/-- The structural invariant of the trie below a node: at this node and at every node below
it, no two children carry the same character. -/
def Node.distinctSiblings : Node → Bool
  | Node.mk _ children _ =>
    decide ((children.map Node.value).Nodup) && distinctSiblingsList children
/-- The structural invariant for each trie of a list. -/
def distinctSiblingsList : List Node → Bool
  | [] => true
  | node :: rest => node.distinctSiblings && distinctSiblingsList rest
end

/-- The trie built from an empty root by a sequence of `addRule` calls, in the order of the
list. -/
def trieOf (calls : List (ContentBlockingRule × QString)) : Node :=
  calls.foldl (fun root call => addRule call.1 call.2 root) Node.empty

/-- Embeds `ContentBlockingProfile::load` with the callee of its `downloadUpdate();` statement
left open: `download` is what that call does to the profile. `load` is the instance for
`downloadUpdate` itself. -/
def loadWith (download : ContentBlockingProfile → ContentBlockingProfile) (qt : QtServices)
    (p : ContentBlockingProfile) (onlyHeader : Bool) : ContentBlockingProfile :=
  match p.file with
  | none => p
  | some lines =>
    if !startsWith (trimmed (lines.headD [])) (qs "[Adblock Plus 2.") then p
    else
      let (information, isEmpty) := loadHeader qt (lines.drop 1) p.m_information
      let p := { p with m_information := information }
      let expired :=
        match information.lastUpdate with
        | none => false
        | some lastUpdate => decide (qt.daysToNow lastUpdate > information.daysToExpire)
      let p :=
        if !information.isUpToDate && ((isEmpty && qt.urlIsValid information.updateUrl) || expired) then
          download p
        else p
      if !onlyHeader then loadRules p else p

/-- The profile `updateDownloaded` hands to its final `load()`: the file rewritten, the
profile marked up to date, the generic style sheet and both cosmetic maps cleared. -/
def stateBeforeReload (env : UpdateServices) (p : ContentBlockingProfile)
    (reply : QNetworkReply) : ContentBlockingProfile :=
  { p with
    file := some (env.readLines (writtenFile env p reply)),
    m_information := { p.m_information with isUpToDate := true },
    m_styleSheet := [], m_styleSheetWhiteList := [], m_styleSheetBlackList := [] }

/-- Services for the examples under which every update URL is valid and every list with a
date is past its expiry window. -/
def expiredQt : QtServices :=
  { toInt := fun _ => 0, toDateTime := fun _ => some 0, urlIsValid := fun _ => true,
    daysToNow := fun _ => 1000 }

/-- A stand-in for `downloadUpdate` that leaves a mark in the profile: it sets the reply
handle to the text `download started`. -/
def markDownload (p : ContentBlockingProfile) : ContentBlockingProfile :=
  { p with m_networkReply := some (qs "download started") }

/-- A reply for the update in flight with a valid header line and nothing else: the file
written from it has an empty body. -/
def emptyBodyReply : QNetworkReply :=
  { request := qs "http://example.com/list.txt", error := false, data := qs "[Adblock Plus 2.0]\n" }

/-! ## Strings: basic facts -/

theorem isPrefixOf_iff (t s : QString) : t.isPrefixOf s = true ↔ ∃ r, s = t ++ r := by
  rw [List.isPrefixOf_iff_prefix]
  constructor
  · rintro ⟨r, hr⟩; exact ⟨r, hr.symm⟩
  · rintro ⟨r, hr⟩; exact ⟨r, hr.symm⟩

theorem contains_iff (s t : QString) : contains s t = true ↔ ∃ a b, s = a ++ t ++ b := by
  induction s with
  | nil =>
    simp only [contains, isPrefixOf_iff]
    constructor
    · rintro ⟨r, hr⟩
      exact ⟨[], r, by simpa using hr⟩
    · rintro ⟨a, b, h⟩
      have h1 : a ++ t ++ b = [] := h.symm
      simp only [List.append_eq_nil] at h1
      exact ⟨[], by simp [h1.1.2]⟩
  | cons c cs ih =>
    simp only [contains, Bool.or_eq_true, isPrefixOf_iff, ih]
    constructor
    · rintro (⟨r, hr⟩ | ⟨a, b, h⟩)
      · exact ⟨[], r, by simpa using hr⟩
      · exact ⟨c :: a, b, by simp [h]⟩
    · rintro ⟨a, b, h⟩
      cases a with
      | nil => left; exact ⟨b, by simpa using h⟩
      | cons d a =>
        right
        simp only [List.cons_append, List.cons.injEq] at h
        exact ⟨a, b, h.2⟩

theorem contains_iff_drop (s t : QString) :
    contains s t = true ↔ ∃ i, i ≤ s.length ∧ t.isPrefixOf (s.drop i) = true := by
  rw [contains_iff]
  constructor
  · rintro ⟨a, b, h⟩
    refine ⟨a.length, ?_, ?_⟩
    · rw [h]; simp
    · rw [isPrefixOf_iff]
      exact ⟨b, by rw [h]; simp⟩
  · rintro ⟨i, _, hi⟩
    rw [isPrefixOf_iff] at hi
    obtain ⟨r, hr⟩ := hi
    refine ⟨s.take i, r, ?_⟩
    rw [List.append_assoc, ← hr, List.take_append_drop]

theorem mem_of_contains {s t : QString} (h : contains s t = true) {c : Char} (hc : c ∈ t) :
    c ∈ s := by
  obtain ⟨a, b, hab⟩ := (contains_iff s t).1 h
  rw [hab]
  simp [hc]

theorem right_sub (s : QString) (i : Nat) (hi : i < s.length) :
    right s ((s.length : Int) - (i : Int)) = s.drop i := by
  unfold right
  by_cases h0 : i = 0
  · subst h0
    simp
  · have h1 : ¬ ((s.length : Int) - (i : Int) < 0 ∨ (s.length : Int) ≤ (s.length : Int) - (i : Int)) := by
      omega
    rw [if_neg h1]
    congr 1
    omega

theorem indexOfFrom_ge (p : Char → Bool) (s : QString) (i : Nat) :
    indexOfFrom p s i = -1 ∨ (i : Int) ≤ indexOfFrom p s i := by
  induction s generalizing i with
  | nil => left; rfl
  | cons c cs ih =>
    unfold indexOfFrom
    split
    · right; exact le_refl _
    · rcases ih (i + 1) with h | h
      · left; exact h
      · right; omega

theorem indexOfFrom_none (p : Char → Bool) (s : QString) (i : Nat) (h : ∀ c ∈ s, p c = false) :
    indexOfFrom p s i = -1 := by
  induction s generalizing i with
  | nil => rfl
  | cons c cs ih =>
    unfold indexOfFrom
    rw [h c (List.mem_cons_self _ _)]
    simp only [Bool.false_eq_true, if_false]
    exact ih (i + 1) (fun d hd => h d (List.mem_cons_of_mem _ hd))

/-! ## The subdomain list: every entry is a tail of the host -/

theorem mid_tail (domain : QString) (position : Int) : ∃ a, domain = a ++ mid domain position := by
  unfold mid
  split
  · exact ⟨domain, by simp⟩
  · exact ⟨domain.take position.toNat, (List.take_append_drop _ _).symm⟩

theorem createSubdomainListLoop_tail (domain : QString) (fuel : Nat) (dotPosition : Int)
    (acc l : List QString) (h : createSubdomainListLoop domain fuel dotPosition acc = some l)
    (hacc : ∀ x ∈ acc, ∃ a, domain = a ++ x) : ∀ x ∈ l, ∃ a, domain = a ++ x := by
  induction fuel generalizing dotPosition acc with
  | zero =>
    unfold createSubdomainListLoop at h
    split at h
    · cases h
      intro x hx
      rcases List.mem_append.1 hx with hx | hx
      · exact hacc x hx
      · rw [List.mem_singleton.1 hx]; exact ⟨[], rfl⟩
    · cases h
  | succ fuel ih =>
    unfold createSubdomainListLoop at h
    split at h
    · cases h
      intro x hx
      rcases List.mem_append.1 hx with hx | hx
      · exact hacc x hx
      · rw [List.mem_singleton.1 hx]; exact ⟨[], rfl⟩
    · refine ih _ _ h ?_
      intro x hx
      rcases List.mem_append.1 hx with hx | hx
      · exact hacc x hx
      · rw [List.mem_singleton.1 hx]; exact mid_tail _ _

theorem createSubdomainList_tail (domain : QString) (l : List QString)
    (h : createSubdomainList domain = some l) : ∀ x ∈ l, ∃ a, domain = a ++ x :=
  createSubdomainListLoop_tail domain _ _ [] l h (by simp)

/-! ## The walk returns a value exactly when the subdomain list does -/

theorem checkRuleMatch_total (rule : ContentBlockingRule) (cur : QString) (request : QNetworkRequest)
    (baseUrl : QUrl) (l : List QString) (h : createSubdomainList request.host = some l) :
    ∃ b, checkRuleMatch rule cur request baseUrl = some b := by
  unfold checkRuleMatch
  simp only [h]
  split
  · split
    · exact ⟨_, rfl⟩
    · exact ⟨_, rfl⟩
  · exact ⟨_, rfl⟩

theorem checkRuleMatch_true_host (rule : ContentBlockingRule) (cur : QString)
    (request : QNetworkRequest) (baseUrl : QUrl)
    (h : checkRuleMatch rule cur request baseUrl = some true) :
    ∃ l, createSubdomainList request.host = some l := by
  unfold checkRuleMatch at h
  split at h
  · cases hl : createSubdomainList request.host with
    | none => rw [hl] at h; cases h
    | some l => exact ⟨l, rfl⟩
  · cases h

theorem nodeRuleMatches_total (node : Node) (cur : QString) (request : QNetworkRequest)
    (baseUrl : QUrl) (l : List QString) (h : createSubdomainList request.host = some l) :
    ∃ b, nodeRuleMatches node cur request baseUrl = some b := by
  unfold nodeRuleMatches
  split
  · exact ⟨_, rfl⟩
  · exact checkRuleMatch_total _ _ _ _ l h

theorem nodeRuleMatches_true_host (node : Node) (cur : QString) (request : QNetworkRequest)
    (baseUrl : QUrl) (h : nodeRuleMatches node cur request baseUrl = some true) :
    ∃ l, createSubdomainList request.host = some l := by
  unfold nodeRuleMatches at h
  split at h
  · cases h
  · exact checkRuleMatch_true_host _ _ _ _ h

theorem checkUrlSubstringFrom_total (request : QNetworkRequest) (baseUrl : QUrl) (l : List QString)
    (h : createSubdomainList request.host = some l) (s : QString) (node : Node) (cur : QString) :
    ∃ b, checkUrlSubstringFrom request baseUrl s node cur = some b := by
  induction s generalizing node cur with
  | nil => exact nodeRuleMatches_total _ _ _ _ l h
  | cons c cs ih =>
    unfold checkUrlSubstringFrom
    obtain ⟨b, hb⟩ := nodeRuleMatches_total node cur request baseUrl l h
    rw [hb]
    cases b with
    | true => exact ⟨_, rfl⟩
    | false =>
      cases hf : findChild c node.children with
      | none => exact ⟨_, rfl⟩
      | some nextNode => exact ih _ _

theorem checkUrlSubstringFrom_true_host (request : QNetworkRequest) (baseUrl : QUrl) (s : QString)
    (node : Node) (cur : QString)
    (h : checkUrlSubstringFrom request baseUrl s node cur = some true) :
    ∃ l, createSubdomainList request.host = some l := by
  induction s generalizing node cur with
  | nil => exact nodeRuleMatches_true_host _ _ _ _ h
  | cons c cs ih =>
    unfold checkUrlSubstringFrom at h
    cases hn : nodeRuleMatches node cur request baseUrl with
    | none => rw [hn] at h; cases h
    | some b =>
      cases b with
      | true => exact nodeRuleMatches_true_host _ _ _ _ hn
      | false =>
        rw [hn] at h
        cases hf : findChild c node.children with
        | none => rw [hf] at h; cases h
        | some nextNode => rw [hf] at h; exact ih _ _ h

/-! ## The offset loop of `isUrlBlocked` -/

theorem isUrlBlockedLoop_true_iff (root : Node) (request : QNetworkRequest) (baseUrl : QUrl)
    (fuel i : Nat) :
    isUrlBlockedLoop root request baseUrl fuel i = some true ↔
      ∃ j, j < fuel ∧
        checkUrlSubstring root (right request.url ((request.url.length : Int) - ((i + j : Nat) : Int)))
          request baseUrl = some true ∧
        ∀ k, k < j →
          checkUrlSubstring root (right request.url ((request.url.length : Int) - ((i + k : Nat) : Int)))
            request baseUrl = some false := by
  induction fuel generalizing i with
  | zero =>
    simp [isUrlBlockedLoop]
  | succ fuel ih =>
    unfold isUrlBlockedLoop
    simp only []
    cases hc : checkUrlSubstring root (right request.url ((request.url.length : Int) - (i : Int)))
        request baseUrl with
    | none =>
      simp only []
      constructor
      · intro h; cases h
      · rintro ⟨j, _, hj, hk⟩
        cases j with
        | zero => simp only [Nat.add_zero] at hj; rw [hc] at hj; cases hj
        | succ j =>
          have := hk 0 (Nat.succ_pos _)
          simp only [Nat.add_zero] at this
          rw [hc] at this; cases this
    | some b =>
      cases b with
      | true =>
        simp only [true_iff]
        exact ⟨0, Nat.succ_pos _, by simpa using hc, fun k hk => absurd hk (Nat.not_lt_zero _)⟩
      | false =>
        simp only []
        rw [ih (i + 1)]
        constructor
        · rintro ⟨j, hj, hj1, hj2⟩
          refine ⟨j + 1, by omega, ?_, ?_⟩
          · have e : i + (j + 1) = i + 1 + j := by omega
            rw [e]; exact hj1
          · intro k hk
            cases k with
            | zero => simpa using hc
            | succ k =>
              have e : i + (k + 1) = i + 1 + k := by omega
              rw [e]; exact hj2 k (by omega)
        · rintro ⟨j, hj, hj1, hj2⟩
          cases j with
          | zero => simp only [Nat.add_zero] at hj1; rw [hc] at hj1; cases hj1
          | succ j =>
            refine ⟨j, by omega, ?_, ?_⟩
            · have e : i + 1 + j = i + (j + 1) := by omega
              rw [e]; exact hj1
            · intro k hk
              have e : i + 1 + k = i + (k + 1) := by omega
              rw [e]; exact hj2 (k + 1) (by omega)

theorem isUrlBlockedLoop_total (root : Node) (request : QNetworkRequest) (baseUrl : QUrl)
    (l : List QString) (h : createSubdomainList request.host = some l) (fuel i : Nat) :
    ∃ b, isUrlBlockedLoop root request baseUrl fuel i = some b := by
  induction fuel generalizing i with
  | zero => exact ⟨_, rfl⟩
  | succ fuel ih =>
    unfold isUrlBlockedLoop
    simp only []
    obtain ⟨b, hb⟩ := checkUrlSubstringFrom_total request baseUrl l h
      (right request.url ((request.url.length : Int) - (i : Int))) root []
    unfold checkUrlSubstring
    rw [hb]
    cases b with
    | true => exact ⟨_, rfl⟩
    | false => exact ih _

/-- The answer of the offset loop: `true` exactly when the walk from some offset answers
`true`. -/
theorem isUrlBlockedIn_true_iff (root : Node) (request : QNetworkRequest) (baseUrl : QUrl) :
    isUrlBlockedIn root request baseUrl = some true ↔
      ∃ i, i < request.url.length ∧
        checkUrlSubstring root (request.url.drop i) request baseUrl = some true := by
  unfold isUrlBlockedIn
  rw [isUrlBlockedLoop_true_iff]
  constructor
  · rintro ⟨j, hj, hj1, _⟩
    refine ⟨j, hj, ?_⟩
    rw [Nat.zero_add, right_sub _ _ hj] at hj1
    exact hj1
  · rintro ⟨i, hi, hi1⟩
    obtain ⟨l, hl⟩ := checkUrlSubstringFrom_true_host request baseUrl _ root [] hi1
    have hex : ∃ j, j < request.url.length ∧
        checkUrlSubstring root (request.url.drop j) request baseUrl = some true := ⟨i, hi, hi1⟩
    classical
    refine ⟨Nat.find hex, (Nat.find_spec hex).1, ?_, ?_⟩
    · rw [Nat.zero_add, right_sub _ _ (Nat.find_spec hex).1]
      exact (Nat.find_spec hex).2
    · intro k hk
      have hklen : k < request.url.length := lt_trans hk (Nat.find_spec hex).1
      rw [Nat.zero_add, right_sub _ _ hklen]
      obtain ⟨b, hb⟩ := checkUrlSubstringFrom_total request baseUrl l hl (request.url.drop k) root []
      have hmin := Nat.find_min hex hk
      cases b with
      | false => exact hb
      | true => exact absurd ⟨hklen, hb⟩ hmin

/-! ## Profiles: what parsing and loading leave untouched -/

theorem parseRuleLine_information (p : ContentBlockingProfile) (line : QString) :
    (parseRuleLine p line).m_information = p.m_information ∧
    (parseRuleLine p line).file = p.file ∧
    (parseRuleLine p line).m_networkReply = p.m_networkReply ∧
    ((parseRuleLine p line).m_root.isSome = p.m_root.isSome) := by
  unfold parseRuleLine
  split
  · simp
  · split
    · simp
    · split
      · simp
      · split
        · simp
        · split
          · simp
          · simp

theorem foldl_parseRuleLine_information (lines : List QString) (p : ContentBlockingProfile) :
    (lines.foldl parseRuleLine p).m_information = p.m_information ∧
    (lines.foldl parseRuleLine p).file = p.file ∧
    (lines.foldl parseRuleLine p).m_networkReply = p.m_networkReply ∧
    ((lines.foldl parseRuleLine p).m_root.isSome = p.m_root.isSome) := by
  induction lines generalizing p with
  | nil => simp
  | cons line rest ih =>
    simp only [List.foldl_cons]
    obtain ⟨h1, h2, h3, h4⟩ := ih (parseRuleLine p line)
    obtain ⟨g1, g2, g3, g4⟩ := parseRuleLine_information p line
    exact ⟨h1.trans g1, h2.trans g2, h3.trans g3, h4.trans g4⟩

theorem loadRules_facts (p : ContentBlockingProfile) :
    (loadRules p).m_information = { p.m_information with isLoaded := true } ∧
    (loadRules p).file = p.file ∧
    (loadRules p).m_networkReply = p.m_networkReply ∧
    (loadRules p).m_root.isSome = true := by
  unfold loadRules
  simp only []
  obtain ⟨h1, h2, h3, h4⟩ := foldl_parseRuleLine_information ((p.file.getD []).drop 1)
    { file := p.file, m_information := { p.m_information with isLoaded := true },
      m_root := some Node.empty, m_styleSheet := p.m_styleSheet,
      m_styleSheetBlackList := p.m_styleSheetBlackList,
      m_styleSheetWhiteList := p.m_styleSheetWhiteList, m_networkReply := p.m_networkReply }
  split
  · exact ⟨h1, h2, h3, h4⟩
  · exact ⟨h1, h2, h3, h4⟩

theorem ensureLoaded_isLoaded (p : ContentBlockingProfile) :
    (ensureLoaded p).m_information.isLoaded = true := by
  unfold ensureLoaded
  split
  · rw [(loadRules_facts p).1]
  · simpa using ‹¬ (!p.m_information.isLoaded) = true›

theorem ensureLoaded_of_isLoaded (p : ContentBlockingProfile)
    (h : p.m_information.isLoaded = true) : ensureLoaded p = p := by
  unfold ensureLoaded
  simp [h]

theorem ensureLoaded_idem (p : ContentBlockingProfile) :
    ensureLoaded (ensureLoaded p) = ensureLoaded p :=
  ensureLoaded_of_isLoaded _ (ensureLoaded_isLoaded p)

theorem ensureLoaded_root (p : ContentBlockingProfile) (hp : p.WellFormed) :
    ∃ root, (ensureLoaded p).m_root = some root := by
  have h : (ensureLoaded p).m_root.isSome = true := by
    unfold ensureLoaded
    split
    · exact (loadRules_facts p).2.2.2
    · exact hp (by simpa using ‹¬ (!p.m_information.isLoaded) = true›)
  exact Option.isSome_iff_exists.1 h

theorem ensureLoaded_wellFormed (p : ContentBlockingProfile) (hp : p.WellFormed) :
    (ensureLoaded p).WellFormed := by
  intro _
  obtain ⟨root, hroot⟩ := ensureLoaded_root p hp
  rw [hroot]; rfl

theorem isUrlBlocked_congr (p q : ContentBlockingProfile) (h : ensureLoaded p = ensureLoaded q)
    (request : QNetworkRequest) (baseUrl : QUrl) :
    p.isUrlBlocked request baseUrl = q.isUrlBlocked request baseUrl := by
  unfold ContentBlockingProfile.isUrlBlocked
  simp only [h]

theorem isUrlBlocked_state (p p1 : ContentBlockingProfile) (request : QNetworkRequest)
    (baseUrl : QUrl) (b : Bool) (h : p.isUrlBlocked request baseUrl = some (b, p1)) :
    p1 = ensureLoaded p := by
  unfold ContentBlockingProfile.isUrlBlocked at h
  simp only [] at h
  split at h
  · cases hb : isUrlBlockedIn ‹Node› request baseUrl with
    | none => rw [hb] at h; cases h
    | some b1 =>
      rw [hb] at h
      simp only [Option.map_some', Option.some.injEq, Prod.mk.injEq] at h
      exact h.2.symm
  · split at h
    · simp only [Option.some.injEq, Prod.mk.injEq] at h
      exact h.2.symm
    · cases h

theorem isUrlBlocked_answer (p : ContentBlockingProfile) (root : Node)
    (hroot : (ensureLoaded p).m_root = some root) (request : QNetworkRequest) (baseUrl : QUrl) :
    (p.isUrlBlocked request baseUrl).map Prod.fst = isUrlBlockedIn root request baseUrl := by
  unfold ContentBlockingProfile.isUrlBlocked
  simp only [hroot]
  cases isUrlBlockedIn root request baseUrl <;> rfl

theorem isUrlBlocked_total (p : ContentBlockingProfile) (hp : p.WellFormed)
    (request : QNetworkRequest) (baseUrl : QUrl) (l : List QString)
    (h : createSubdomainList request.host = some l) :
    ∃ b, p.isUrlBlocked request baseUrl = some (b, ensureLoaded p) := by
  obtain ⟨root, hroot⟩ := ensureLoaded_root p hp
  obtain ⟨b, hb⟩ := isUrlBlockedLoop_total root request baseUrl l h request.url.length 0
  refine ⟨b, ?_⟩
  unfold ContentBlockingProfile.isUrlBlocked
  simp only [hroot]
  unfold isUrlBlockedIn
  rw [hb]; rfl

theorem isUrlBlocked_true_host (p : ContentBlockingProfile) (hp : p.WellFormed)
    (request : QNetworkRequest) (baseUrl : QUrl)
    (h : (p.isUrlBlocked request baseUrl).map Prod.fst = some true) :
    ∃ l, createSubdomainList request.host = some l := by
  obtain ⟨root, hroot⟩ := ensureLoaded_root p hp
  rw [isUrlBlocked_answer p root hroot, isUrlBlockedIn_true_iff] at h
  obtain ⟨i, _, hi⟩ := h
  exact checkUrlSubstringFrom_true_host request baseUrl _ root [] hi

/-! ## A trie without rules never matches -/

theorem ruleCountList_zero {children : List Node} (h : ruleCountList children = 0) :
    ∀ child ∈ children, child.ruleCount = 0 := by
  induction children with
  | nil => intro child hc; cases hc
  | cons node rest ih =>
    rw [ruleCountList] at h
    intro child hc
    rcases List.mem_cons.1 hc with hc | hc
    · rw [hc]; omega
    · exact ih (by omega) child hc

theorem ruleCount_zero {node : Node} (h : node.ruleCount = 0) :
    node.rule = none ∧ ∀ child ∈ node.children, child.ruleCount = 0 := by
  cases node with
  | mk v children rule =>
    rw [Node.ruleCount] at h
    constructor
    · cases rule with
      | none => rfl
      | some r => simp at h
    · exact ruleCountList_zero (by simp only [Node.children]; omega)

theorem findChild_mem {c : Char} {children : List Node} {node : Node}
    (h : findChild c children = some node) : node ∈ children := by
  induction children with
  | nil => cases h
  | cons n rest ih =>
    unfold findChild at h
    split at h
    · cases h; exact List.mem_cons_self _ _
    · exact List.mem_cons_of_mem _ (ih h)

theorem checkUrlSubstringFrom_no_rule (request : QNetworkRequest) (baseUrl : QUrl) (s : QString)
    (node : Node) (cur : QString) (h : node.ruleCount = 0) :
    checkUrlSubstringFrom request baseUrl s node cur = some false := by
  induction s generalizing node cur with
  | nil =>
    unfold checkUrlSubstringFrom nodeRuleMatches
    rw [(ruleCount_zero h).1]
  | cons c cs ih =>
    unfold checkUrlSubstringFrom nodeRuleMatches
    rw [(ruleCount_zero h).1]
    simp only []
    cases hf : findChild c node.children with
    | none => rfl
    | some nextNode => exact ih _ _ ((ruleCount_zero h).2 _ (findChild_mem hf))

theorem isUrlBlockedLoop_no_rule (root : Node) (request : QNetworkRequest) (baseUrl : QUrl)
    (h : root.ruleCount = 0) (fuel i : Nat) :
    isUrlBlockedLoop root request baseUrl fuel i = some false := by
  induction fuel generalizing i with
  | zero => rfl
  | succ fuel ih =>
    unfold isUrlBlockedLoop checkUrlSubstring
    simp only [checkUrlSubstringFrom_no_rule request baseUrl _ root [] h]
    exact ih _

theorem indexOfChar_eq_zero (line : QString) (c : Char) :
    indexOfChar line c = 0 ↔ startsWithChar line c = true := by
  cases line with
  | nil => simp [indexOfChar, indexOfFrom, startsWithChar]
  | cons d ds =>
    unfold indexOfChar indexOfFrom startsWithChar
    by_cases h : (d == c) = true
    · simp [h]
    · rw [if_neg h]
      rcases indexOfFrom_ge (fun d => d == c) ds (0 + 1) with h1 | h1
      · rw [h1]
        constructor
        · intro h0; cases h0
        · intro h0; exact absurd h0 h
      · constructor
        · intro h0; rw [h0] at h1; omega
        · intro h0; exact absurd h0 h

theorem loadHeader_flags (qt : QtServices) (lines : List QString) (info : ContentBlockingInformation) :
    (loadHeader qt lines info).1.isLoaded = info.isLoaded ∧
      (loadHeader qt lines info).1.isUpToDate = info.isUpToDate := by
  induction lines generalizing info with
  | nil => exact ⟨rfl, rfl⟩
  | cons line rest ih =>
    unfold loadHeader
    simp only []
    split
    · exact ⟨rfl, rfl⟩
    · split
      · exact ih _
      · split
        · exact ih _
        · split
          · exact ih _
          · split
            · exact ih _
            · exact ih _

theorem load_true_facts (qt : QtServices) (p : ContentBlockingProfile) :
    (load qt p true).file = p.file ∧
      (load qt p true).m_information.isLoaded = p.m_information.isLoaded ∧
      (load qt p true).m_root = p.m_root ∧
      (load qt p true).m_styleSheet = p.m_styleSheet ∧
      (load qt p true).m_styleSheetBlackList = p.m_styleSheetBlackList ∧
      (load qt p true).m_styleSheetWhiteList = p.m_styleSheetWhiteList := by
  unfold load
  split
  · simp
  · rename_i lines hfile
    split
    · simp
    · have hflags := (loadHeader_flags qt (lines.drop 1) p.m_information).1
      simp only [Bool.not_true, Bool.false_eq_true, if_false]
      split <;> simp [downloadUpdate, hfile] <;> simpa using hflags

theorem create_facts (qt : QtServices) (file : Option (List QString)) :
    (ContentBlockingProfile.create qt file).file = file ∧
      (ContentBlockingProfile.create qt file).m_information.isLoaded = false ∧
      (ContentBlockingProfile.create qt file).m_root = none ∧
      (ContentBlockingProfile.create qt file).m_styleSheet = [] ∧
      (ContentBlockingProfile.create qt file).m_styleSheetBlackList = [] ∧
      (ContentBlockingProfile.create qt file).m_styleSheetWhiteList = [] := by
  unfold ContentBlockingProfile.create
  exact load_true_facts qt _

theorem mid_two (line : QString) (h : startsWith line (qs "##") = true) : mid line 2 = line.drop 2 := by
  unfold startsWith at h
  obtain ⟨r, hr⟩ := (isPrefixOf_iff _ _).1 h
  subst hr
  unfold mid
  have : ¬ (((qs "##" ++ r).length : Int) < 2) := by
    simp [qs]; omega
  rw [if_neg this]
  rfl

theorem parseRuleLine_styleSheet (p : ContentBlockingProfile) (line : QString) :
    (parseRuleLine p line).m_styleSheet =
      if startsWith line (qs "##") then p.m_styleSheet ++ (line.drop 2 ++ [',']) else p.m_styleSheet := by
  unfold parseRuleLine
  split
  · rename_i h
    have hs : startsWith line (qs "##") = false := by
      simp only [Bool.or_eq_true, decide_eq_true_eq] at h
      rcases h with h | h
      · rw [indexOfChar_eq_zero] at h
        cases line with
        | nil => rfl
        | cons c cs =>
          simp only [startsWithChar, beq_iff_eq] at h
          subst h
          rfl
      · cases line with
        | nil => rfl
        | cons c cs => cases h
    rw [hs]; rfl
  · split
    · rename_i h
      simp only []
      rw [mid_two line h]
    · split
      · rfl
      · split
        · rfl
        · split
          · rfl
          · rfl

theorem foldl_parseRuleLine_styleSheet (lines : List QString) (p : ContentBlockingProfile) :
    (lines.foldl parseRuleLine p).m_styleSheet = p.m_styleSheet ++ genericSheet lines := by
  induction lines generalizing p with
  | nil => simp [genericSheet]
  | cons line rest ih =>
    simp only [List.foldl_cons, genericSheet]
    rw [ih, parseRuleLine_styleSheet]
    split <;> simp

theorem genericSheet_eq (lines : List QString) :
    genericSheet lines =
      (((lines.filter (fun line => startsWith line (qs "##"))).map (fun line => line.drop 2 ++ [','])).flatten) := by
  induction lines with
  | nil => rfl
  | cons line rest ih =>
    unfold genericSheet
    by_cases h : startsWith line (qs "##") = true
    · rw [if_pos h, ih]
      simp only [List.filter_cons, h, if_true, List.map_cons, List.flatten_cons]
    · rw [if_neg h, ih]
      simp only [List.filter_cons, h, if_false, Bool.false_eq_true]

theorem join_comma_dropLast (selectors : List QString) (h : selectors ≠ []) :
    ((selectors.map (fun s => s ++ [','])).flatten).dropLast = List.intercalate [','] selectors := by
  induction selectors with
  | nil => exact absurd rfl h
  | cons s rest ih =>
    cases rest with
    | nil => simp [List.intercalate]
    | cons t rest =>
      have ih1 := ih (by simp)
      simp only [List.map_cons, List.flatten_cons] at ih1 ⊢
      rw [List.dropLast_append_of_ne_nil _ (by simp), ih1]
      simp [List.intercalate, List.intersperse]

theorem left_pred (s : QString) (h : 0 < s.length) :
    left s ((s.length : Int) - 1) = s.dropLast := by
  unfold left
  have h1 : ¬ ((s.length : Int) - 1 < 0 ∨ (s.length : Int) ≤ (s.length : Int) - 1) := by omega
  rw [if_neg h1, List.dropLast_eq_take]
  congr 1
  omega

theorem loadRules_styleSheet (p : ContentBlockingProfile) :
    (loadRules p).m_styleSheet =
      if 0 < (p.m_styleSheet ++ genericSheet ((p.file.getD []).drop 1)).length then
        (p.m_styleSheet ++ genericSheet ((p.file.getD []).drop 1)).dropLast ++ qs "\x7bdisplay:none;\x7d"
      else p.m_styleSheet ++ genericSheet ((p.file.getD []).drop 1) := by
  unfold loadRules
  simp only [gt_iff_lt]
  rw [foldl_parseRuleLine_styleSheet]
  split
  · rename_i h
    rw [left_pred _ h]
  · rw [foldl_parseRuleLine_styleSheet]

theorem take_length_takeWhile (q : Char → Bool) (s : QString) :
    s.take (s.takeWhile q).length = s.takeWhile q := by
  induction s with
  | nil => rfl
  | cons c cs ih =>
    by_cases h : q c = true
    · simp [List.takeWhile_cons, h, ih]
    · simp [List.takeWhile_cons, h]

theorem indexOfFrom_takeWhile (p : Char → Bool) (s : QString) (i : Nat) :
    (indexOfFrom p s i = -1 ∧ s.takeWhile (fun c => !p c) = s) ∨
      (indexOfFrom p s i = ((i + (s.takeWhile (fun c => !p c)).length : Nat) : Int) ∧
        (s.takeWhile (fun c => !p c)).length < s.length) := by
  induction s generalizing i with
  | nil => left; exact ⟨rfl, rfl⟩
  | cons c cs ih =>
    unfold indexOfFrom
    by_cases h : p c = true
    · right
      simp [h, List.takeWhile_cons]
    · rw [if_neg h]
      have hc : (!p c) = true := by simpa using h
      rcases ih (i + 1) with ⟨h1, h2⟩ | ⟨h1, h2⟩
      · left
        refine ⟨h1, ?_⟩
        rw [List.takeWhile_cons, if_pos hc, h2]
      · right
        rw [List.takeWhile_cons, if_pos hc]
        refine ⟨?_, ?_⟩
        · rw [h1]; simp only [List.length_cons]; congr 1; omega
        · simp only [List.length_cons]; omega

theorem left_indexOfChar (line : QString) (c : Char) :
    (if indexOfChar line c ≥ 0 then left line (indexOfChar line c) else line) =
      line.takeWhile (fun d => d != c) := by
  unfold indexOfChar
  have hfun : (fun d : Char => !(d == c)) = (fun d => d != c) := rfl
  rcases indexOfFrom_takeWhile (fun d => d == c) line 0 with ⟨h1, h2⟩ | ⟨h1, h2⟩
  · rw [h1, if_neg (by decide)]
    rw [hfun] at h2
    exact h2.symm
  · rw [hfun] at h1 h2
    rw [h1, if_pos (by omega)]
    unfold left
    rw [if_neg (by omega)]
    simp only [Nat.zero_add, Int.toNat_ofNat]
    exact take_length_takeWhile _ _

theorem stripTrailingRev_eq (s : QString) :
    stripTrailingRev s = s.dropWhile (fun c => c == '|' || c == '*' || c == '^') := by
  induction s with
  | nil => rfl
  | cons c cs ih =>
    unfold stripTrailingRev
    by_cases h : (c == '|' || c == '*' || c == '^') = true
    · rw [if_pos h, ih, List.dropWhile_cons, if_pos h]
    · rw [if_neg h, List.dropWhile_cons, if_neg h]

theorem dropLeadingStar_eq (s : QString) :
    (if startsWithChar s '*' then mid s 1 else s) =
      (match s with
        | '*' :: rest => rest
        | _ => s) := by
  cases s with
  | nil => rfl
  | cons c cs =>
    by_cases h : c = '*'
    · subst h
      have hs : startsWithChar ('*' :: cs) '*' = true := rfl
      rw [hs, if_pos rfl]
      unfold mid
      have hlen : ¬ (((('*' :: cs).length : Nat) : Int) < 1) := by
        simp only [List.length_cons]; omega
      rw [if_neg hlen]
      rfl
    · have h1 : startsWithChar (c :: cs) '*' = false := by
        simp [startsWithChar, h]
      rw [h1]
      simp only [Bool.false_eq_true, if_false]
      split
      · rename_i heq
        simp only [List.cons.injEq] at heq
        exact absurd heq.1 h
      · rfl

theorem containsChar_iff (s : QString) (c : Char) : containsChar s c = true ↔ c ∈ s := by
  unfold containsChar
  rw [List.any_eq_true]
  constructor
  · rintro ⟨d, hd, hdc⟩
    rw [beq_iff_eq] at hdc
    exact hdc ▸ hd
  · intro hc
    exact ⟨c, hc, beq_self_eq_true c⟩

theorem parseNetworkRule_body (line : QString)
    (h : '*' ∈ patternBody line ∨ '^' ∈ patternBody line) : parseNetworkRule line = none := by
  unfold parseNetworkRule
  simp only [left_indexOfChar, stripTrailing, stripTrailingRev_eq, dropLeadingStar_eq]
  have hb : (containsChar (patternBody line) '*' || containsChar (patternBody line) '^') = true := by
    rw [Bool.or_eq_true, containsChar_iff, containsChar_iff]
    exact h
  unfold patternBody at hb
  simp only [] at hb
  split
  · rfl
  · rename_i hn
    exact absurd hb hn

theorem map_set_same {α β : Type} (f : α → β) (l : List α) (i : Nat) (a x : α)
    (hx : l.get? i = some x) (hfa : f a = f x) : (l.set i a).map f = l.map f := by
  induction l generalizing i with
  | nil => rfl
  | cons y ys ih =>
    cases i with
    | zero =>
      simp only [List.get?_cons_zero, Option.some.injEq] at hx
      subst hx
      simp [hfa]
    | succ i =>
      simp only [List.get?_cons_succ] at hx
      simp only [List.set_cons_succ, List.map_cons, ih i hx]

theorem get?_of_map_eq {α β : Type} (f : α → β) (l l0 : List α) (h : l.map f = l0.map f)
    (i : Nat) (x x0 : α) (hx : l.get? i = some x) (hx0 : l0.get? i = some x0) : f x = f x0 := by
  have h1 : (l.map f).get? i = (l0.map f).get? i := by rw [h]
  simp only [List.get?_eq_getElem?, List.getElem?_map] at h1 hx hx0
  rw [hx, hx0] at h1
  simpa using h1

theorem get?_in_range {α : Type} (l : List α) (i : Nat) (h : i < l.length) :
    ∃ x, l.get? i = some x := by
  refine ⟨l.get ⟨i, h⟩, ?_⟩
  rw [List.get?_eq_some]
  exact ⟨h, rfl⟩

/-- The answer of the index loop of the manager, for profile states `ms` that differ from
the initial states `ms0` only by lazy loading. -/
theorem managerLoop_true_iff (request : QNetworkRequest) (baseUrl : QUrl)
    (ms0 : List ContentBlockingProfile) (profiles : List Int) (ms : List ContentBlockingProfile)
    (hE : ms.map ensureLoaded = ms0.map ensureLoaded) (hwf : ∀ p ∈ ms, p.WellFormed) :
    (ContentBlockingManager.isUrlBlockedLoop request baseUrl profiles ms).map Prod.fst = some true ↔
      ∃ k ∈ profiles, 0 ≤ k ∧ k < (ms0.length : Int) ∧
        ∃ p, ms0.get? k.toNat = some p ∧ (p.isUrlBlocked request baseUrl).map Prod.fst = some true := by
  induction profiles generalizing ms with
  | nil => simp [ContentBlockingManager.isUrlBlockedLoop]
  | cons k rest ih =>
    have hlen : ms.length = ms0.length := by
      have := congrArg List.length hE
      simpa using this
    unfold ContentBlockingManager.isUrlBlockedLoop
    by_cases hk : 0 ≤ k ∧ k < (ms.length : Int)
    · rw [if_pos hk]
      have hkn : k.toNat < ms.length := by omega
      obtain ⟨q, hq⟩ := get?_in_range ms k.toNat hkn
      obtain ⟨p, hp⟩ := get?_in_range ms0 k.toNat (hlen ▸ hkn)
      have hqp : ensureLoaded q = ensureLoaded p := get?_of_map_eq ensureLoaded ms ms0 hE _ _ _ hq hp
      have hans : q.isUrlBlocked request baseUrl = p.isUrlBlocked request baseUrl :=
        isUrlBlocked_congr q p hqp request baseUrl
      have hqwf : q.WellFormed := hwf q (List.get?_mem hq)
      rw [hq]
      simp only []
      cases hres : q.isUrlBlocked request baseUrl with
      | none =>
        simp only [Option.map_none']
        constructor
        · intro h; cases h
        · rintro ⟨k2, hk2, hk20, hk2n, p2, hp2, hp2t⟩
          exfalso
          have hk2n1 : k2.toNat < ms.length := by omega
          obtain ⟨q2, hq2⟩ := get?_in_range ms k2.toNat hk2n1
          have hq2p2 : ensureLoaded q2 = ensureLoaded p2 :=
            get?_of_map_eq ensureLoaded ms ms0 hE _ _ _ hq2 hp2
          rw [← isUrlBlocked_congr q2 p2 hq2p2 request baseUrl] at hp2t
          obtain ⟨l, hl⟩ := isUrlBlocked_true_host q2 (hwf q2 (List.get?_mem hq2)) request baseUrl hp2t
          obtain ⟨b, hb⟩ := isUrlBlocked_total q hqwf request baseUrl l hl
          rw [hb] at hres
          cases hres
      | some res =>
        obtain ⟨b, p1⟩ := res
        have hp1 : p1 = ensureLoaded q := isUrlBlocked_state q p1 request baseUrl b hres
        cases b with
        | true =>
          simp only [Option.map_some', true_iff]
          refine ⟨k, List.mem_cons_self _ _, hk.1, by omega, p, hp, ?_⟩
          rw [← hans, hres]
          rfl
        | false =>
          simp only []
          have hE1 : (ms.set k.toNat p1).map ensureLoaded = ms0.map ensureLoaded := by
            rw [map_set_same ensureLoaded ms k.toNat p1 q hq (by rw [hp1, ensureLoaded_idem])]
            exact hE
          have hwf1 : ∀ r ∈ ms.set k.toNat p1, r.WellFormed := by
            intro r hr
            rcases List.mem_or_eq_of_mem_set hr with hr | hr
            · exact hwf r hr
            · rw [hr, hp1]; exact ensureLoaded_wellFormed q hqwf
          rw [ih (ms.set k.toNat p1) hE1 hwf1]
          constructor
          · rintro ⟨k2, hk2, h2⟩
            exact ⟨k2, List.mem_cons_of_mem _ hk2, h2⟩
          · rintro ⟨k2, hk2, hk20, hk2n, p2, hp2, hp2t⟩
            rcases List.mem_cons.1 hk2 with hk2 | hk2
            · subst hk2
              rw [hp] at hp2
              cases hp2
              rw [← hans, hres] at hp2t
              cases hp2t
            · exact ⟨k2, hk2, hk20, hk2n, p2, hp2, hp2t⟩
    · rw [if_neg hk, ih ms hE hwf]
      constructor
      · rintro ⟨k2, hk2, h2⟩
        exact ⟨k2, List.mem_cons_of_mem _ hk2, h2⟩
      · rintro ⟨k2, hk2, hk20, hk2n, h2⟩
        rcases List.mem_cons.1 hk2 with hk2 | hk2
        · subst hk2
          exact absurd ⟨hk20, by omega⟩ hk
        · exact ⟨k2, hk2, hk20, hk2n, h2⟩

theorem managerLoop_filter (request : QNetworkRequest) (baseUrl : QUrl) (n : Nat)
    (profiles : List Int) (ms : List ContentBlockingProfile) (hn : ms.length = n) :
    ContentBlockingManager.isUrlBlockedLoop request baseUrl profiles ms =
      ContentBlockingManager.isUrlBlockedLoop request baseUrl
        (profiles.filter (fun k => decide (0 ≤ k ∧ k < (n : Int)))) ms := by
  induction profiles generalizing ms with
  | nil => rfl
  | cons k rest ih =>
    by_cases hk : 0 ≤ k ∧ k < (ms.length : Int)
    · have hk1 : decide (0 ≤ k ∧ k < (n : Int)) = true := by
        rw [← hn]; exact decide_eq_true hk
      rw [List.filter_cons, if_pos hk1]
      unfold ContentBlockingManager.isUrlBlockedLoop
      rw [if_pos hk, if_pos hk]
      cases ms.get? k.toNat with
      | none => exact ih ms hn
      | some profile =>
        simp only []
        cases profile.isUrlBlocked request baseUrl with
        | none => rfl
        | some res =>
          obtain ⟨b, p1⟩ := res
          cases b with
          | true => rfl
          | false => exact ih _ (by simpa using hn)
    · have hk1 : ¬ decide (0 ≤ k ∧ k < (n : Int)) = true := by
        rw [← hn]; simpa using hk
      rw [List.filter_cons, if_neg hk1]
      conv_lhs => unfold ContentBlockingManager.isUrlBlockedLoop
      rw [if_neg hk]
      exact ih ms hn

theorem create_wellFormed (qt : QtServices) (file : Option (List QString)) :
    (ContentBlockingProfile.create qt file).WellFormed := by
  intro h
  rw [(create_facts qt file).2.1] at h
  cases h

theorem addRule_value (rule : ContentBlockingRule) (anchor : QString) (node : Node) :
    (addRule rule anchor node).value = node.value := by
  cases anchor <;> rfl

theorem checkUrlSubstringFrom_chain (rule : ContentBlockingRule) (request : QNetworkRequest)
    (baseUrl : QUrl) (anchor s : QString) (value : Char) (cur : QString) :
    checkUrlSubstringFrom request baseUrl s (addRule rule anchor (Node.mk value [] none)) cur =
      if anchor.isPrefixOf s then checkRuleMatch rule (cur ++ anchor) request baseUrl
      else some false := by
  induction anchor generalizing s value cur with
  | nil =>
    simp only [List.isPrefixOf, if_true, List.append_nil]
    cases s with
    | nil => rfl
    | cons c cs =>
      unfold checkUrlSubstringFrom
      simp only [addRule, nodeRuleMatches, Node.rule, Node.children, Node.value]
      cases h : checkRuleMatch rule cur request baseUrl with
      | none => rfl
      | some b => cases b <;> rfl
  | cons a rest ih =>
    have hnode : addRule rule (a :: rest) (Node.mk value [] none) =
        Node.mk value [addRule rule rest (Node.mk a [] none)] none := rfl
    rw [hnode]
    cases s with
    | nil => rfl
    | cons c cs =>
      unfold checkUrlSubstringFrom
      simp only [nodeRuleMatches, Node.rule, Node.children, findChild]
      rw [addRule_value]
      by_cases hac : a = c
      · subst hac
        simp only [Node.value, beq_self_eq_true, if_true, List.isPrefixOf, Bool.true_and]
        rw [ih]
        simp only [List.append_assoc, List.singleton_append]
      · have h1 : (a == c) = false := by simpa using hac
        simp only [Node.value, h1, Bool.false_eq_true, if_false, List.isPrefixOf, Bool.false_and]

theorem resolveRuleOptions_anchoredRule (request : QNetworkRequest) (baseUrlHost : QString)
    (l : List QString) (isBlocked : Bool) :
    resolveRuleOptions anchoredRule request baseUrlHost l isBlocked = isBlocked := by
  simp [resolveRuleOptions, anchoredRule, hasOption, NoOption]

theorem left_whole (s : QString) (h : ∀ c ∈ s, isDomainDelimiter c = false) :
    left s (indexOfDomainExpression s) = s := by
  unfold indexOfDomainExpression
  rw [indexOfFrom_none _ _ _ h]
  rfl

theorem checkRuleMatch_anchoredRule (anchor : QString) (request : QNetworkRequest) (baseUrl : QUrl)
    (h : ∀ c ∈ anchor, isDomainDelimiter c = false) :
    checkRuleMatch anchoredRule anchor request baseUrl =
      if contains request.url anchor then
        (createSubdomainList request.host).map (fun l => l.contains anchor)
      else some false := by
  unfold checkRuleMatch
  simp only [left_whole anchor h, resolveRuleOptions_anchoredRule]
  split
  · cases createSubdomainList request.host with
    | none => rfl
    | some l =>
      simp only [Option.map_some']
      cases hc : l.contains anchor <;> simp [anchoredRule, hc]
  · rfl



theorem dropWhile_reverse_keep (q : Char → Bool) (s : QString) (hne : s ≠ [])
    (hlast : ∀ c, s.getLast? = some c → q c = false) :
    s.reverse.dropWhile q = s.reverse := by
  cases hr : s.reverse with
  | nil =>
    exact absurd (List.reverse_eq_nil_iff.1 hr) hne
  | cons c t =>
    have hl : s.getLast? = some c := by
      rw [← List.head?_reverse, hr]; rfl
    rw [List.dropWhile_cons, hlast c hl]
    simp

theorem stripTrailing_anchored (H : QString) (hne : H ≠ [])
    (hchars : ∀ c ∈ H, c ∉ qs ":?&/=$*^#|") :
    stripTrailing ('|' :: '|' :: (H ++ ['^'])) = '|' :: '|' :: H := by
  unfold stripTrailing
  rw [stripTrailingRev_eq]
  have hrev : ('|' :: '|' :: (H ++ ['^'])).reverse = '^' :: ('|' :: '|' :: H).reverse := by
    simp
  rw [hrev, List.dropWhile_cons, if_pos (by decide)]
  have hlast : ∀ c, ('|' :: '|' :: H).getLast? = some c →
      (c == '|' || c == '*' || c == '^') = false := by
    intro c hc
    have hcH : c ∈ H := by
      have h1 : ('|' :: '|' :: H).getLast? = H.getLast? := by
        cases H with
        | nil => exact absurd rfl hne
        | cons a t => simp [List.getLast?_cons_cons]
      rw [h1] at hc
      exact List.mem_of_getLast?_eq_some hc
    have hbad := hchars c hcH
    cases h : (c == '|' || c == '*' || c == '^') with
    | false => rfl
    | true =>
      exfalso
      apply hbad
      simp only [Bool.or_eq_true, beq_iff_eq] at h
      rcases h with (h | h) | h <;> subst h <;> decide
  rw [dropWhile_reverse_keep _ _ (by simp) hlast, List.reverse_reverse]

theorem parseNetworkRule_anchored (H : QString) (hne : H ≠ [])
    (hchars : ∀ c ∈ H, c ∉ qs ":?&/=$*^#|") :
    parseNetworkRule (qs "||" ++ H ++ qs "^") = some (anchoredRule, H) := by
  have hline : qs "||" ++ H ++ qs "^" = '|' :: '|' :: (H ++ ['^']) := rfl
  rw [hline]
  have hmem : ∀ c, c ∈ '|' :: '|' :: (H ++ ['^']) → c = '|' ∨ c = '^' ∨ c ∈ H := by
    intro c hc
    simp only [List.mem_cons, List.mem_append, List.mem_singleton, List.not_mem_nil, or_false] at hc
    rcases hc with h | h | h | h
    · exact Or.inl h
    · exact Or.inl h
    · exact Or.inr (Or.inr h)
    · exact Or.inr (Or.inl h)
  have hdollar : indexOfChar ('|' :: '|' :: (H ++ ['^'])) '$' = -1 := by
    unfold indexOfChar
    apply indexOfFrom_none
    intro c hc
    rcases hmem c hc with h | h | h
    · subst h; rfl
    · subst h; rfl
    · cases hb : (c == '$') with
      | false => rfl
      | true =>
        rw [beq_iff_eq] at hb
        subst hb
        exact absurd (by decide) (hchars _ h)
  have hstar : ∀ x, x = '*' ∨ x = '^' → containsChar ('|' :: '|' :: H) x = false := by
    intro x hx
    cases hb : containsChar ('|' :: '|' :: H) x with
    | false => rfl
    | true =>
      rw [containsChar_iff] at hb
      simp only [List.mem_cons] at hb
      rcases hx with hx | hx <;> subst hx
      · rcases hb with hb | hb | hb
        · cases hb
        · cases hb
        · exact absurd (by decide) (hchars _ hb)
      · rcases hb with hb | hb | hb
        · cases hb
        · cases hb
        · exact absurd (by decide) (hchars _ hb)
  have hmid : mid ('|' :: '|' :: H) 2 = H := by
    unfold mid
    have : ¬ ((('|' :: '|' :: H).length : Int) < 2) := by
      simp only [List.length_cons]; omega
    rw [if_neg this]
    rfl
  unfold parseNetworkRule
  simp only [hdollar]
  have hneg : ¬ ((-1 : Int) ≥ 0) := by decide
  simp only [hneg, if_false, stripTrailing_anchored H hne hchars]
  have hs1 : startsWithChar ('|' :: '|' :: H) '*' = false := rfl
  have hs2 : startsWith ('|' :: '|' :: H) (qs "@@") = false := rfl
  have hs3 : startsWith ('|' :: '|' :: H) (qs "||") = true := by
    unfold startsWith
    rw [isPrefixOf_iff]
    exact ⟨H, rfl⟩
  simp only [hs1, hs2, hs3, Bool.false_eq_true, if_false, if_true, hstar '*' (Or.inl rfl),
    hstar '^' (Or.inr rfl), Bool.or_self, hmid, parseOptions]
  rfl



theorem parseRuleLine_network (p : ContentBlockingProfile) (line : QString)
    (hcomment : startsWithChar line '!' = false) (hne : line ≠ [])
    (hhide : contains line (qs "##") = false) (hshow : contains line (qs "#@#") = false)
    (rule : ContentBlockingRule) (anchor : QString)
    (h : parseNetworkRule line = some (rule, anchor)) :
    parseRuleLine p line = { p with m_root := p.m_root.map (addRule rule anchor) } := by
  unfold parseRuleLine
  have h1 : (decide (indexOfChar line '!' = 0) || line.isEmpty) = false := by
    rw [Bool.or_eq_false_iff]
    constructor
    · rw [decide_eq_false_iff_not, indexOfChar_eq_zero, hcomment]
      exact Bool.false_ne_true
    · cases line with
      | nil => exact absurd rfl hne
      | cons c cs => rfl
  have hstart : startsWith line (qs "##") = false := by
    cases hs : startsWith line (qs "##") with
    | false => rfl
    | true =>
      have : contains line (qs "##") = true := by
        rw [contains_iff_drop]
        exact ⟨0, Nat.zero_le _, hs⟩
      rw [hhide] at this
      cases this
  rw [h1, hstart, hhide, hshow, h]
  simp

theorem loadRules_root (p : ContentBlockingProfile) :
    (loadRules p).m_root =
      (((p.file.getD []).drop 1).foldl parseRuleLine
        { p with m_information := { p.m_information with isLoaded := true },
                 m_root := some Node.empty }).m_root := by
  unfold loadRules
  simp only []
  split <;> rfl

/-- The trie of a freshly constructed profile whose file has one line after the header, a
network rule line. -/
theorem singleRule_root (qt : QtServices) (header line : QString)
    (hcomment : startsWithChar line '!' = false) (hne : line ≠ [])
    (hhide : contains line (qs "##") = false) (hshow : contains line (qs "#@#") = false)
    (rule : ContentBlockingRule) (anchor : QString)
    (h : parseNetworkRule line = some (rule, anchor)) :
    (ensureLoaded (ContentBlockingProfile.create qt (some [header, line]))).m_root =
      some (addRule rule anchor Node.empty) := by
  obtain ⟨hfile, hloaded, _, _, _, _⟩ := create_facts qt (some [header, line])
  unfold ensureLoaded
  simp only [hloaded, Bool.not_false, if_true]
  rw [loadRules_root, hfile]
  simp only [Option.getD_some, List.drop_succ_cons, List.drop_zero, List.foldl_cons, List.foldl_nil]
  rw [parseRuleLine_network _ line hcomment hne hhide hshow rule anchor h]
  rfl

theorem not_contains_of_not_mem (s t : QString) (c : Char) (hc : c ∈ t) (hs : c ∉ s) :
    contains s t = false := by
  cases h : contains s t with
  | false => rfl
  | true => exact absurd (mem_of_contains h hc) hs

theorem contains_trans (s t u : QString) (h1 : contains s t = true) (h2 : contains t u = true) :
    contains s u = true := by
  rw [contains_iff] at h1 h2 ⊢
  obtain ⟨a, b, hab⟩ := h1
  obtain ⟨c, d, hcd⟩ := h2
  exact ⟨a ++ c, d ++ b, by rw [hab, hcd]; simp⟩

theorem lastIndexOfScan_spec (s : QString) (ch : Char) (n : Nat) :
    lastIndexOfScan s ch n = -1 ∨
      (0 ≤ lastIndexOfScan s ch n ∧ lastIndexOfScan s ch n ≤ (n : Int) ∧
        s.get? (lastIndexOfScan s ch n).toNat = some ch) := by
  induction n with
  | zero =>
    unfold lastIndexOfScan
    by_cases h : (s.get? 0 == some ch) = true
    · right
      rw [if_pos h]
      exact ⟨le_refl _, le_refl _, by simpa using h⟩
    · left
      rw [if_neg h]
  | succ n ih =>
    unfold lastIndexOfScan
    by_cases h : (s.get? (n + 1) == some ch) = true
    · right
      rw [if_pos h]
      refine ⟨by omega, le_refl _, ?_⟩
      simpa using h
    · rw [if_neg h]
      rcases ih with ih | ⟨h1, h2, h3⟩
      · left; exact ih
      · right
        exact ⟨h1, by omega, h3⟩

theorem lastIndexOfScan_found (s : QString) (ch : Char) (n : Nat) (h : s.get? 0 = some ch) :
    lastIndexOfScan s ch n ≠ -1 := by
  induction n with
  | zero =>
    unfold lastIndexOfScan
    rw [h]
    simp
  | succ n ih =>
    unfold lastIndexOfScan
    split
    · omega
    · exact ih

theorem lastIndexOf_eq (s : QString) (ch : Char) (start start1 : Int)
    (h : start1 = if start < 0 then start + (s.length : Int) else start) :
    lastIndexOf s ch start =
      if start1 < 0 ∨ (s.length : Int) ≤ start1 then -1 else lastIndexOfScan s ch start1.toNat := by
  subst h
  rfl

theorem lastIndexOf_spec (s : QString) (ch : Char) (start : Int) :
    lastIndexOf s ch start = -1 ∨
      (0 ≤ lastIndexOf s ch start ∧ lastIndexOf s ch start < (s.length : Int) ∧
        (0 ≤ start → lastIndexOf s ch start ≤ start) ∧
        s.get? (lastIndexOf s ch start).toNat = some ch) := by
  obtain ⟨start1, hs1⟩ : ∃ start1, start1 = (if start < 0 then start + (s.length : Int) else start) :=
    ⟨_, rfl⟩
  rw [lastIndexOf_eq s ch start start1 hs1]
  by_cases hr : start1 < 0 ∨ (s.length : Int) ≤ start1
  · left
    rw [if_pos hr]
  · rw [if_neg hr]
    rcases lastIndexOfScan_spec s ch start1.toNat with h | ⟨h1, h2, h3⟩
    · left; exact h
    · right
      refine ⟨h1, by omega, ?_, h3⟩
      intro h0
      rw [if_neg (by omega)] at hs1
      omega

theorem lastIndexOf_found (s : QString) (ch : Char) (start : Int) (h : s.get? 0 = some ch)
    (h1 : -(s.length : Int) ≤ start) (h2 : start < (s.length : Int)) :
    lastIndexOf s ch start ≠ -1 := by
  obtain ⟨start1, hs1⟩ : ∃ start1, start1 = (if start < 0 then start + (s.length : Int) else start) :=
    ⟨_, rfl⟩
  rw [lastIndexOf_eq s ch start start1 hs1]
  have hr : ¬ (start1 < 0 ∨ (s.length : Int) ≤ start1) := by
    split at hs1 <;> omega
  rw [if_neg hr]
  exact lastIndexOfScan_found s ch _ h

theorem createSubdomainListLoop_fuel (domain : QString) (fuel fuel1 : Nat) (dotPosition : Int)
    (acc r : List QString) (h : createSubdomainListLoop domain fuel dotPosition acc = some r)
    (hle : fuel ≤ fuel1) : createSubdomainListLoop domain fuel1 dotPosition acc = some r := by
  induction fuel generalizing fuel1 dotPosition acc with
  | zero =>
    unfold createSubdomainListLoop at h
    split at h
    · rename_i hp
      unfold createSubdomainListLoop
      rw [if_pos hp]
      exact h
    · cases h
  | succ fuel ih =>
    unfold createSubdomainListLoop at h
    split at h
    · rename_i hp
      unfold createSubdomainListLoop
      rw [if_pos hp]
      exact h
    · rename_i hp
      cases fuel1 with
      | zero => omega
      | succ fuel1 =>
        unfold createSubdomainListLoop
        rw [if_neg hp]
        exact ih _ _ _ h (by omega)

theorem createSubdomainListLoop_forever (domain : QString) (h : domain.get? 0 = some '.')
    (fuel : Nat) (dotPosition : Int) (acc : List QString)
    (h0 : 0 ≤ dotPosition) (h1 : dotPosition < (domain.length : Int)) :
    createSubdomainListLoop domain fuel dotPosition acc = none := by
  induction fuel generalizing dotPosition acc with
  | zero =>
    unfold createSubdomainListLoop
    rw [if_neg (by omega)]
  | succ fuel ih =>
    unfold createSubdomainListLoop
    rw [if_neg (by omega)]
    have hne := lastIndexOf_found domain '.' (dotPosition - 1) h (by omega) (by omega)
    rcases lastIndexOf_spec domain '.' (dotPosition - 1) with hs | ⟨hs0, hs1, _, _⟩
    · exact absurd hs hne
    · exact ih _ _ hs0 hs1

theorem createSubdomainListLoop_returns (domain : QString) (h : domain.get? 0 ≠ some '.')
    (fuel : Nat) (dotPosition : Int) (acc : List QString)
    (hp : dotPosition = -1 ∨ (1 ≤ dotPosition ∧ dotPosition < (domain.length : Int)))
    (hfuel : dotPosition + 1 ≤ (fuel : Int)) :
    ∃ r, createSubdomainListLoop domain fuel dotPosition acc = some r := by
  induction fuel generalizing dotPosition acc with
  | zero =>
    unfold createSubdomainListLoop
    rw [if_pos (by omega)]
    exact ⟨_, rfl⟩
  | succ fuel ih =>
    unfold createSubdomainListLoop
    by_cases hd : dotPosition = -1
    · rw [if_pos hd]
      exact ⟨_, rfl⟩
    · rw [if_neg hd]
      rcases lastIndexOf_spec domain '.' (dotPosition - 1) with hs | ⟨hs0, hs1, hs2, hs3⟩
      · exact ih _ _ (Or.inl hs) (by omega)
      · have hs2 := hs2 (by omega)
        have hnz : lastIndexOf domain '.' (dotPosition - 1) ≠ 0 := by
          intro hz
          rw [hz] at hs3
          exact h hs3
        exact ih _ _ (Or.inr ⟨by omega, hs1⟩) (by omega)

/-- The loop of createSubdomainList never ends for a host that starts with a dot, whatever
the number of iterations granted. -/
theorem createSubdomainList_forever (domain : QString) (h : domain.get? 0 = some '.')
    (fuel : Nat) :
    createSubdomainListLoop domain fuel
      (lastIndexOf domain '.' (lastIndexOf domain '.' (-1) - 1)) [] = none := by
  have hlen : 0 < domain.length := by
    cases domain with
    | nil => cases h
    | cons c cs => simp
  have hne0 := lastIndexOf_found domain '.' (-1) h (by omega) (by omega)
  rcases lastIndexOf_spec domain '.' (-1) with hs | ⟨hs0, hs1, _, _⟩
  · exact absurd hs hne0
  · have hne1 := lastIndexOf_found domain '.' (lastIndexOf domain '.' (-1) - 1) h (by omega) (by omega)
    rcases lastIndexOf_spec domain '.' (lastIndexOf domain '.' (-1) - 1) with ht | ⟨ht0, ht1, _, _⟩
    · exact absurd ht hne1
    · exact createSubdomainListLoop_forever domain h fuel _ [] ht0 ht1

/-- Test of createSubdomainList for a result: it returns exactly for the hosts that do not
start with a dot. -/
theorem createSubdomainList_returns (domain : QString) (h : domain.get? 0 ≠ some '.') :
    ∃ l, createSubdomainList domain = some l := by
  unfold createSubdomainList
  simp only []
  have hpos : ∀ start, lastIndexOf domain '.' start = -1 ∨
      (1 ≤ lastIndexOf domain '.' start ∧ lastIndexOf domain '.' start < (domain.length : Int)) := by
    intro start
    rcases lastIndexOf_spec domain '.' start with hs | ⟨hs0, hs1, _, hs3⟩
    · exact Or.inl hs
    · right
      have hnz : lastIndexOf domain '.' start ≠ 0 := by
        intro hz
        rw [hz] at hs3
        exact h hs3
      exact ⟨by omega, hs1⟩
  refine createSubdomainListLoop_returns domain h _ _ [] (hpos _) ?_
  rcases hpos (lastIndexOf domain '.' (-1) - 1) with hs | ⟨_, hs1⟩
  · rw [hs]; omega
  · push_cast; omega

theorem findChild_addRuleChild_same (c : Char) (f : Node → Node)
    (hf : ∀ n, (f n).value = n.value) (children : List Node) :
    findChild c (addRuleChild c f children) =
      some (f ((findChild c children).getD (Node.mk c [] none))) := by
  induction children with
  | nil =>
    have hv : ((f (Node.mk c [] none)).value == c) = true := by
      rw [hf]; exact beq_self_eq_true c
    unfold addRuleChild findChild
    rw [if_pos hv]
    rfl
  | cons n rest ih =>
    unfold addRuleChild
    by_cases h : (n.value == c) = true
    · rw [if_pos h]
      unfold findChild
      rw [hf, if_pos h, if_pos h]
      rfl
    · rw [if_neg h]
      unfold findChild
      rw [if_neg h, if_neg h]
      exact ih

theorem findChild_addRuleChild_other (c d : Char) (hdc : d ≠ c) (f : Node → Node)
    (hf : ∀ n, (f n).value = n.value) (children : List Node) :
    findChild d (addRuleChild c f children) = findChild d children := by
  have hcd : ¬ ((c == d) = true) := by
    rw [beq_iff_eq]
    exact fun h => hdc h.symm
  induction children with
  | nil =>
    have hv : ¬ (((f (Node.mk c [] none)).value == d) = true) := by
      rw [hf]; exact hcd
    unfold addRuleChild findChild
    rw [if_neg hv]
    rfl
  | cons n rest ih =>
    unfold addRuleChild
    by_cases h : (n.value == c) = true
    · rw [if_pos h]
      have hn : n.value = c := by simpa using h
      unfold findChild
      rw [hf, hn, if_neg hcd, if_neg hcd]
    · rw [if_neg h]
      unfold findChild
      rw [ih]

theorem ruleAt_leaf (s : QString) (c : Char) : ruleAt s (Node.mk c [] none) = none := by
  cases s <;> rfl

theorem ruleAt_cons (c : Char) (cs : QString) (node : Node) :
    ruleAt (c :: cs) node =
      match findChild c node.children with
      | none => none
      | some nextNode => ruleAt cs nextNode := rfl

theorem addRule_cons (rule : ContentBlockingRule) (c : Char) (cs : QString) (node : Node) :
    addRule rule (c :: cs) node =
      Node.mk node.value (addRuleChild c (addRule rule cs) node.children) node.rule := rfl

theorem ruleAt_addRule_self (rule : ContentBlockingRule) (a : QString) (root : Node) :
    ruleAt a (addRule rule a root) = some rule := by
  induction a generalizing root with
  | nil => rfl
  | cons c cs ih =>
    rw [addRule_cons, ruleAt_cons]
    have hch : (Node.mk root.value (addRuleChild c (addRule rule cs) root.children) root.rule).children =
        addRuleChild c (addRule rule cs) root.children := rfl
    rw [hch, findChild_addRuleChild_same c _ (addRule_value rule cs)]
    exact ih _

theorem ruleAt_addRule_other (rule : ContentBlockingRule) (a b : QString) (hba : b ≠ a)
    (root : Node) : ruleAt b (addRule rule a root) = ruleAt b root := by
  induction a generalizing b root with
  | nil =>
    cases b with
    | nil => exact absurd rfl hba
    | cons d ds => rfl
  | cons c cs ih =>
    cases b with
    | nil => rfl
    | cons d ds =>
      rw [addRule_cons, ruleAt_cons, ruleAt_cons]
      have hch : (Node.mk root.value (addRuleChild c (addRule rule cs) root.children) root.rule).children =
          addRuleChild c (addRule rule cs) root.children := rfl
      rw [hch]
      by_cases hdc : d = c
      · subst hdc
        have hds : ds ≠ cs := fun h => hba (by rw [h])
        rw [findChild_addRuleChild_same d _ (addRule_value rule cs)]
        simp only []
        rw [ih ds hds]
        cases findChild d root.children with
        | none => exact ruleAt_leaf ds d
        | some x => rfl
      · rw [findChild_addRuleChild_other c d hdc _ (addRule_value rule cs)]



theorem checkUrlSubstringFrom_blocked (request : QNetworkRequest) (baseUrl : QUrl)
    (a t : QString) (node : Node) (cur : QString) (r : ContentBlockingRule)
    (hrule : ruleAt a node = some r)
    (hres : checkRuleMatch r (cur ++ a) request baseUrl = some true) :
    checkUrlSubstringFrom request baseUrl (a ++ t) node cur = some true := by
  induction a generalizing node cur with
  | nil =>
    have hn : nodeRuleMatches node cur request baseUrl = some true := by
      unfold nodeRuleMatches
      have hr : node.rule = some r := hrule
      rw [hr]
      simpa using hres
    cases t with
    | nil => exact hn
    | cons c cs =>
      show checkUrlSubstringFrom request baseUrl (c :: cs) node cur = some true
      unfold checkUrlSubstringFrom
      rw [hn]
  | cons c cs ih =>
    rw [ruleAt_cons] at hrule
    show checkUrlSubstringFrom request baseUrl (c :: (cs ++ t)) node cur = some true
    unfold checkUrlSubstringFrom
    obtain ⟨l, hl⟩ := checkRuleMatch_true_host _ _ _ _ hres
    obtain ⟨b, hb⟩ := nodeRuleMatches_total node cur request baseUrl l hl
    rw [hb]
    cases b with
    | true => rfl
    | false =>
      cases hf : findChild c node.children with
      | none => rw [hf] at hrule; cases hrule
      | some nextNode =>
        rw [hf] at hrule
        exact ih nextNode (cur ++ [c]) hrule (by simpa using hres)

theorem addRuleChild_nil (c : Char) (f : Node → Node) :
    addRuleChild c f [] = [f (Node.mk c [] none)] := rfl

theorem addRuleChild_cons_pos (c : Char) (f : Node → Node) (n : Node) (rest : List Node)
    (h : (n.value == c) = true) : addRuleChild c f (n :: rest) = f n :: rest := by
  unfold addRuleChild
  rw [if_pos h]

theorem addRuleChild_cons_neg (c : Char) (f : Node → Node) (n : Node) (rest : List Node)
    (h : ¬ (n.value == c) = true) :
    addRuleChild c f (n :: rest) = n :: addRuleChild c f rest := by
  conv_lhs => unfold addRuleChild
  rw [if_neg h]

theorem addRuleChild_addRuleChild (c : Char) (f g : Node → Node)
    (hg : ∀ n, (g n).value = n.value) (children : List Node) :
    addRuleChild c f (addRuleChild c g children) = addRuleChild c (fun n => f (g n)) children := by
  induction children with
  | nil =>
    have hv : ((g (Node.mk c [] none)).value == c) = true := by
      rw [hg]; exact beq_self_eq_true c
    rw [addRuleChild_nil, addRuleChild_nil, addRuleChild_cons_pos c f _ _ hv]
  | cons n rest ih =>
    by_cases h : (n.value == c) = true
    · have hv : ((g n).value == c) = true := by rw [hg]; exact h
      rw [addRuleChild_cons_pos c g _ _ h, addRuleChild_cons_pos c f _ _ hv,
        addRuleChild_cons_pos c _ _ _ h]
    · rw [addRuleChild_cons_neg c g _ _ h, addRuleChild_cons_neg c f _ _ h,
        addRuleChild_cons_neg c _ _ _ h, ih]

theorem addRule_proper_prefix_comm (r1 r2 : ContentBlockingRule) (a : QString) (b : Char)
    (bs : QString) (node : Node) :
    addRule r1 a (addRule r2 (a ++ b :: bs) node) = addRule r2 (a ++ b :: bs) (addRule r1 a node) := by
  induction a generalizing node with
  | nil => rfl
  | cons c cs ih =>
    show addRule r1 (c :: cs) (addRule r2 (c :: (cs ++ b :: bs)) node) =
      addRule r2 (c :: (cs ++ b :: bs)) (addRule r1 (c :: cs) node)
    rw [addRule_cons r2, addRule_cons r1, addRule_cons r1, addRule_cons r2]
    show Node.mk node.value
        (addRuleChild c (addRule r1 cs) (addRuleChild c (addRule r2 (cs ++ b :: bs)) node.children))
        node.rule =
      Node.mk node.value
        (addRuleChild c (addRule r2 (cs ++ b :: bs)) (addRuleChild c (addRule r1 cs) node.children))
        node.rule
    rw [addRuleChild_addRuleChild c _ _ (addRule_value r2 _),
      addRuleChild_addRuleChild c _ _ (addRule_value r1 _)]
    have hfun : (fun n => addRule r1 cs (addRule r2 (cs ++ b :: bs) n)) =
        (fun n => addRule r2 (cs ++ b :: bs) (addRule r1 cs n)) := funext (fun n => ih n)
    rw [hfun]

theorem checkUrlSubstringFrom_two (request : QNetworkRequest) (baseUrl : QUrl)
    (r1 r2 : ContentBlockingRule) (a : QString) (b : Char) (bs t : QString) (v : Char)
    (cur : QString) :
    checkUrlSubstringFrom request baseUrl (a ++ b :: bs ++ t)
        (addRule r2 (a ++ b :: bs) (addRule r1 a (Node.mk v [] none))) cur =
      match checkRuleMatch r1 (cur ++ a) request baseUrl with
      | none => none
      | some true => some true
      | some false => checkRuleMatch r2 (cur ++ a ++ b :: bs) request baseUrl := by
  induction a generalizing v cur with
  | nil =>
    have hnode : addRule r2 ([] ++ b :: bs) (addRule r1 [] (Node.mk v [] none)) =
        Node.mk v [addRule r2 bs (Node.mk b [] none)] (some r1) := rfl
    rw [hnode]
    show checkUrlSubstringFrom request baseUrl (b :: (bs ++ t)) _ cur = _
    unfold checkUrlSubstringFrom
    simp only [nodeRuleMatches, Node.rule, List.append_nil]
    cases hres : checkRuleMatch r1 cur request baseUrl with
    | none => rfl
    | some res =>
      cases res with
      | true => rfl
      | false =>
        simp only [Node.children, findChild]
        rw [addRule_value]
        simp only [Node.value, beq_self_eq_true, if_true]
        rw [checkUrlSubstringFrom_chain]
        have hp : bs.isPrefixOf (bs ++ t) = true := by
          rw [isPrefixOf_iff]; exact ⟨t, rfl⟩
        rw [if_pos hp]
        simp only [List.append_assoc, List.singleton_append]
  | cons c cs ih =>
    have hnode : addRule r2 (c :: cs ++ b :: bs) (addRule r1 (c :: cs) (Node.mk v [] none)) =
        Node.mk v [addRule r2 (cs ++ b :: bs) (addRule r1 cs (Node.mk c [] none))] none := by
      show addRule r2 (c :: (cs ++ b :: bs)) (addRule r1 (c :: cs) (Node.mk v [] none)) = _
      rw [addRule_cons r1, addRule_cons r2]
      have hv : ((addRule r1 cs (Node.mk c [] none)).value == c) = true := by
        rw [addRule_value]; exact beq_self_eq_true c
      show Node.mk v (addRuleChild c (addRule r2 (cs ++ b :: bs))
        (addRuleChild c (addRule r1 cs) [])) none = _
      rw [addRuleChild_nil, addRuleChild_cons_pos c _ _ _ hv]
    rw [hnode]
    show checkUrlSubstringFrom request baseUrl (c :: (cs ++ b :: bs ++ t)) _ cur = _
    unfold checkUrlSubstringFrom
    simp only [nodeRuleMatches, Node.rule, Node.children, findChild]
    rw [addRule_value, addRule_value]
    simp only [Node.value, beq_self_eq_true, if_true]
    rw [ih]
    simp only [List.append_assoc, List.singleton_append, List.cons_append, List.nil_append]



theorem left_indexOfDomainExpression (m : QString) :
    left m (indexOfDomainExpression m) = m.takeWhile (fun c => !isDomainDelimiter c) := by
  unfold indexOfDomainExpression
  rcases indexOfFrom_takeWhile isDomainDelimiter m 0 with ⟨h1, h2⟩ | ⟨h1, h2⟩
  · rw [h1, h2]
    rfl
  · rw [h1]
    unfold left
    rw [if_neg (by omega)]
    simp only [Nat.zero_add, Int.toNat_ofNat]
    exact take_length_takeWhile _ _

theorem resolveDomainExceptions_iff (url : QString) (l : List QString) :
    resolveDomainExceptions url l = true ↔ ∃ d ∈ l, contains url d = true := by
  induction l with
  | nil => simp [resolveDomainExceptions]
  | cons d rest ih =>
    unfold resolveDomainExceptions
    by_cases h : contains url d = true
    · rw [if_pos h]
      simp only [true_iff]
      exact ⟨d, List.mem_cons_self _ _, h⟩
    · rw [if_neg h, ih]
      constructor
      · rintro ⟨x, hx, hc⟩
        exact ⟨x, List.mem_cons_of_mem _ hx, hc⟩
      · rintro ⟨x, hx, hc⟩
        rcases List.mem_cons.1 hx with hx | hx
        · subst hx; exact absurd hc h
        · exact ⟨x, hx, hc⟩

theorem resolveRuleOptions_noOption (rule : ContentBlockingRule) (request : QNetworkRequest)
    (baseUrlHost : QString) (l : List QString) (prior : Bool) (hopt : rule.ruleOption = NoOption) :
    resolveRuleOptions rule request baseUrlHost l prior =
      if rule.blockedDomains.length > 0 then resolveDomainExceptions baseUrlHost rule.blockedDomains
      else if rule.allowedDomains.length > 0 then
        !resolveDomainExceptions baseUrlHost rule.allowedDomains
      else prior := by
  unfold resolveRuleOptions
  simp only [hopt, hasOption, NoOption, Nat.zero_and, bne_self_eq_false, Bool.false_eq_true,
    if_false]


theorem resolveRuleOptions_eq (rule : ContentBlockingRule) (request : QNetworkRequest)
    (baseUrlHost : QString) (l : List QString) (prior : Bool) :
    resolveRuleOptions rule request baseUrlHost l prior =
      resolveOptionBits rule.ruleOption rule.exceptionRuleOption
        (baseUrlHost.isEmpty || l.contains baseUrlHost)
        (contentTypeEvidence ImageOption request) (contentTypeEvidence ScriptOption request)
        (contentTypeEvidence StyleSheetOption request) (contentTypeEvidence ObjectOption request)
        (request.xRequestedWith == qs "XMLHttpRequest")
        (resolveDomainLists rule baseUrlHost prior) := rfl

theorem resolveDomainLists_nil (rule : ContentBlockingRule) (baseUrlHost : QString) (prior : Bool)
    (ha : rule.allowedDomains = []) (hb : rule.blockedDomains = []) :
    resolveDomainLists rule baseUrlHost prior = prior := by
  unfold resolveDomainLists
  rw [ha, hb]
  rfl

theorem drop_length_takeWhile (q : Char → Bool) (s : QString) :
    s.drop (s.takeWhile q).length = s.dropWhile q := by
  induction s with
  | nil => rfl
  | cons c cs ih =>
    by_cases h : q c = true
    · simp [List.takeWhile_cons, List.dropWhile_cons, h, ih]
    · simp [List.takeWhile_cons, List.dropWhile_cons, h]

theorem splitCharSkipEmpty_nil (sep : Char) : splitCharSkipEmpty [] sep = [] := rfl

theorem options_indexOfChar (line : QString) :
    (if indexOfChar line '$' ≥ 0 then splitCharSkipEmpty (mid line (indexOfChar line '$' + 1)) ','
      else []) = optionTokens line := by
  unfold optionTokens indexOfChar
  have hfun : (fun d : Char => !(d == '$')) = (fun d => d != '$') := rfl
  rcases indexOfFrom_takeWhile (fun d => d == '$') line 0 with ⟨h1, h2⟩ | ⟨h1, h2⟩
  · rw [h1, if_neg (by decide)]
    rw [hfun] at h2
    have hd : line.dropWhile (fun c => c != '$') = [] := by
      have := drop_length_takeWhile (fun c => c != '$') line
      rw [h2] at this
      rw [← this]
      simp
    rw [hd]
    rfl
  · rw [hfun] at h1 h2
    rw [h1, if_pos (by omega)]
    congr 1
    unfold mid
    rw [if_neg (by omega), ← drop_length_takeWhile, List.drop_drop]
    congr 1
    omega

theorem parseNetworkRule_eq (line : QString) :
    parseNetworkRule line = parsePattern (line.takeWhile (fun c => c != '$')) (optionTokens line) := by
  have h1 := left_indexOfChar line '$'
  have h2 := options_indexOfChar line
  unfold parseNetworkRule
  simp only []
  rw [h1, h2]
  rfl

theorem takeWhile_before (P R : QString) (c : Char) (h : c ∉ P) :
    (P ++ c :: R).takeWhile (fun d => d != c) = P ∧
      (P ++ c :: R).dropWhile (fun d => d != c) = c :: R := by
  induction P with
  | nil =>
    simp [List.takeWhile_cons, List.dropWhile_cons]
  | cons a as ih =>
    have ha : (a != c) = true := by
      rw [bne_iff_ne]
      exact fun hac => h (hac ▸ List.mem_cons_self _ _)
    have ih1 := ih (fun hm => h (List.mem_cons_of_mem _ hm))
    simp only [List.cons_append, List.takeWhile_cons, List.dropWhile_cons, ha, if_true, ih1.1, ih1.2,
      and_self]

theorem parseOptions_none_of_mem (token : QString)
    (htoken : ∀ rest rule, parseOptions (token :: rest) rule = none) (options : List QString)
    (hmem : token ∈ options) (rule : ContentBlockingRule) : parseOptions options rule = none := by
  induction options generalizing rule with
  | nil => cases hmem
  | cons o rest ih =>
    by_cases ho : o = token
    · subst ho; exact htoken rest rule
    · have hr : token ∈ rest := by
        rcases List.mem_cons.1 hmem with h | h
        · exact absurd h.symm ho
        · exact h
      unfold parseOptions
      simp only []
      repeat' split
      all_goals first | rfl | exact ih hr _

theorem parsePattern_none_of_options (pattern : QString) (options : List QString)
    (h : ∀ rule, parseOptions options rule = none) : parsePattern pattern options = none := by
  unfold parsePattern
  simp only [h, ite_self]

theorem parseOptions_noOptionWord (token : QString) (h : containsNoOptionWord token = true)
    (rest : List QString) (rule : ContentBlockingRule) :
    parseOptions (token :: rest) rule = none := by
  unfold containsNoOptionWord at h
  simp only [Bool.and_eq_true, Bool.not_eq_true'] at h
  obtain ⟨⟨⟨⟨⟨⟨h1, h2⟩, h3⟩, h4⟩, h5⟩, h6⟩, h7⟩ := h
  unfold parseOptions
  simp only [h1, h2, h3, h4, h5, h6, h7, Bool.false_eq_true, if_false]
  repeat' split
  all_goals rfl


theorem parseRuleLine_of_none (p : ContentBlockingProfile) (line : QString)
    (hhide : contains line (qs "##") = false) (hshow : contains line (qs "#@#") = false)
    (hnone : parseNetworkRule line = none) : parseRuleLine p line = p := by
  unfold parseRuleLine
  have hstart : startsWith line (qs "##") = false := by
    cases hs : startsWith line (qs "##") with
    | false => rfl
    | true =>
      have : contains line (qs "##") = true := by
        rw [contains_iff_drop]
        exact ⟨0, Nat.zero_le _, hs⟩
      rw [hhide] at this
      cases this
  rw [hstart, hhide, hshow, hnone]
  simp

theorem mem_positionsBelow (s : QString) (ch : Char) (n k : Nat) :
    k ∈ positionsBelow s ch n ↔ k < n ∧ s.get? k = some ch := by
  induction n with
  | zero => simp [positionsBelow]
  | succ n ih =>
    unfold positionsBelow
    by_cases h : s.get? n = some ch
    · rw [if_pos h, List.mem_cons, ih]
      constructor
      · rintro (hk | ⟨hk, hc⟩)
        · subst hk; exact ⟨Nat.lt_succ_self _, h⟩
        · exact ⟨Nat.lt_succ_of_lt hk, hc⟩
      · rintro ⟨hk, hc⟩
        rcases Nat.lt_succ_iff_lt_or_eq.1 hk with hk | hk
        · exact Or.inr ⟨hk, hc⟩
        · exact Or.inl hk
    · rw [if_neg h, ih]
      constructor
      · rintro ⟨hk, hc⟩
        exact ⟨Nat.lt_succ_of_lt hk, hc⟩
      · rintro ⟨hk, hc⟩
        rcases Nat.lt_succ_iff_lt_or_eq.1 hk with hk | hk
        · exact ⟨hk, hc⟩
        · subst hk; exact absurd hc h

theorem positionsBelow_cons (s : QString) (ch : Char) (n k : Nat) (rest : List Nat)
    (h : positionsBelow s ch n = k :: rest) :
    rest = positionsBelow s ch k ∧ k < n ∧ s.get? k = some ch := by
  induction n with
  | zero => cases h
  | succ n ih =>
    unfold positionsBelow at h
    by_cases hc : s.get? n = some ch
    · rw [if_pos hc] at h
      simp only [List.cons.injEq] at h
      obtain ⟨h1, h2⟩ := h
      subst h1
      exact ⟨h2.symm, Nat.lt_succ_self _, hc⟩
    · rw [if_neg hc] at h
      obtain ⟨h1, h2, h3⟩ := ih h
      exact ⟨h1, Nat.lt_succ_of_lt h2, h3⟩

theorem positionsBelow_self (s : QString) (ch : Char) (k : Nat) (h : s.get? k = some ch) :
    positionsBelow s ch (k + 1) = k :: positionsBelow s ch k := by
  conv_lhs => unfold positionsBelow
  rw [if_pos h]

theorem positionsBelow_length (s : QString) (ch : Char) :
    (positionsBelow s ch s.length).length = s.count ch := by
  have key : ∀ n, (positionsBelow s ch n).length = (s.take n).count ch := by
    intro n
    induction n with
    | zero => simp [positionsBelow]
    | succ n ih =>
      unfold positionsBelow
      by_cases hlt : n < s.length
      · have hget : s.get? n = some (s.get ⟨n, hlt⟩) := List.get?_eq_get hlt
        have htake : s.take (n + 1) = s.take n ++ [s.get ⟨n, hlt⟩] := by
          rw [List.take_succ, ← List.get?_eq_getElem?, hget]; rfl
        rw [htake, List.count_append, ← ih]
        by_cases hc : s.get? n = some ch
        · rw [if_pos hc]
          have : s.get ⟨n, hlt⟩ = ch := by
            rw [hget] at hc; exact Option.some.inj hc
          rw [this]
          simp
        · rw [if_neg hc]
          have : s.get ⟨n, hlt⟩ ≠ ch := by
            intro he; apply hc; rw [hget, he]
          have this2 : ¬ s[n] = ch := this
          simp [List.count_cons, this2]
      · have hnone : s.get? n = none := List.get?_eq_none.2 (by omega)
        rw [hnone]
        simp only [reduceCtorEq, if_false]
        rw [ih, List.take_of_length_le (by omega), List.take_of_length_le (by omega)]
  rw [key, List.take_length]

theorem lastIndexOfScan_eq (s : QString) (ch : Char) (n : Nat) :
    lastIndexOfScan s ch n = firstPosition (positionsBelow s ch (n + 1)) := by
  induction n with
  | zero =>
    unfold lastIndexOfScan positionsBelow
    by_cases h : s.get? 0 = some ch
    · rw [if_pos h, if_pos (by simpa using h)]; rfl
    · rw [if_neg h, if_neg (by simpa using h)]; rfl
  | succ n ih =>
    unfold lastIndexOfScan
    conv_rhs => unfold positionsBelow
    by_cases h : s.get? (n + 1) = some ch
    · rw [if_pos h, if_pos (by simpa using h)]; rfl
    · rw [if_neg h, if_neg (by simpa using h)]; exact ih

theorem lastIndexOf_eq_positions (s : QString) (ch : Char) (start : Nat)
    (h : start < s.length) :
    lastIndexOf s ch (start : Int) = firstPosition (positionsBelow s ch (start + 1)) := by
  rw [lastIndexOf_eq s ch start start (by rw [if_neg (by omega)]), if_neg (by omega)]
  rw [Int.toNat_ofNat]
  exact lastIndexOfScan_eq s ch start

theorem lastIndexOf_last (s : QString) (ch : Char) :
    lastIndexOf s ch (-1) = firstPosition (positionsBelow s ch s.length) := by
  cases hlen : s.length with
  | zero =>
    rw [lastIndexOf_eq s ch (-1) (-1) (by rw [if_pos (by decide), hlen]; rfl), if_pos (by omega)]
    rfl
  | succ n =>
    rw [lastIndexOf_eq s ch (-1) (n : Int) (by rw [if_pos (by decide), hlen]; push_cast; omega),
      if_neg (by rw [hlen]; push_cast; omega), Int.toNat_ofNat]
    exact lastIndexOfScan_eq s ch n

theorem lastIndexOf_none_of_positions (s : QString) (ch : Char) (start : Int)
    (h : positionsBelow s ch s.length = []) : lastIndexOf s ch start = -1 := by
  rcases lastIndexOf_spec s ch start with h1 | ⟨h0, h1, _, h3⟩
  · exact h1
  · exfalso
    have hm : (lastIndexOf s ch start).toNat ∈ positionsBelow s ch s.length := by
      rw [mem_positionsBelow]
      exact ⟨by omega, h3⟩
    rw [h] at hm
    cases hm



theorem lastIndexOf_pred (s : QString) (ch : Char) (k : Nat) (hk1 : 1 ≤ k) (hk : k < s.length) :
    lastIndexOf s ch ((k : Int) - 1) = firstPosition (positionsBelow s ch k) := by
  have e : ((k : Int) - 1) = ((k - 1 : Nat) : Int) := by omega
  rw [e, lastIndexOf_eq_positions s ch (k - 1) (by omega)]
  have e2 : k - 1 + 1 = k := by omega
  rw [e2]

theorem mid_succ (s : QString) (k : Nat) (hk : k < s.length) :
    mid s ((k : Int) + 1) = s.drop (k + 1) := by
  unfold mid
  rw [if_neg (by omega)]
  congr 1

theorem createSubdomainListLoop_eq (domain : QString) (h0 : domain.get? 0 ≠ some '.')
    (fuel n : Nat) (hn : n ≤ domain.length) (hfuel : n ≤ fuel) (acc : List QString) :
    createSubdomainListLoop domain fuel (firstPosition (positionsBelow domain '.' n)) acc =
      some (acc ++ (positionsBelow domain '.' n).map (fun k => domain.drop (k + 1)) ++ [domain]) := by
  induction fuel generalizing n acc with
  | zero =>
    have hn0 : n = 0 := by omega
    subst hn0
    unfold createSubdomainListLoop
    simp [positionsBelow, firstPosition]
  | succ fuel ih =>
    cases hp : positionsBelow domain '.' n with
    | nil =>
      unfold createSubdomainListLoop
      simp [firstPosition]
    | cons k rest =>
      obtain ⟨hrest, hkn, hget⟩ := positionsBelow_cons domain '.' n k rest hp
      have hk1 : 1 ≤ k := by
        rcases Nat.eq_zero_or_pos k with hz | hz
        · subst hz; exact absurd hget h0
        · exact hz
      unfold createSubdomainListLoop
      have hne : ¬ (firstPosition (k :: rest) = -1) := by
        show ¬ ((k : Int) = -1)
        omega
      rw [if_neg hne]
      show createSubdomainListLoop domain fuel (lastIndexOf domain '.' ((k : Int) - 1))
        (acc ++ [mid domain ((k : Int) + 1)]) = _
      rw [lastIndexOf_pred domain '.' k hk1 (by omega), mid_succ domain k (by omega),
        ih k (by omega) (by omega), ← hrest]
      simp

/-- The list `createSubdomainList` returns for a host that does not start with a dot: the
tails of the host after each of its dots but the last one, from the second-to-last dot
backwards, then the host. -/
theorem createSubdomainList_eq (domain : QString) (h0 : domain.get? 0 ≠ some '.') :
    createSubdomainList domain =
      some (((positionsBelow domain '.' domain.length).drop 1).map (fun k => domain.drop (k + 1)) ++
        [domain]) := by
  unfold createSubdomainList
  simp only []
  rw [lastIndexOf_last]
  cases hp : positionsBelow domain '.' domain.length with
  | nil =>
    rw [lastIndexOf_none_of_positions domain '.' _ hp]
    unfold createSubdomainListLoop
    simp
  | cons k rest =>
    obtain ⟨hrest, hkn, hget⟩ := positionsBelow_cons domain '.' _ k rest hp
    have hk1 : 1 ≤ k := by
      rcases Nat.eq_zero_or_pos k with hz | hz
      · subst hz; exact absurd hget h0
      · exact hz
    show createSubdomainListLoop domain (domain.length + 1)
      (lastIndexOf domain '.' ((k : Int) - 1)) [] = _
    rw [lastIndexOf_pred domain '.' k hk1 hkn,
      createSubdomainListLoop_eq domain h0 _ k (by omega) (by omega), ← hrest]
    simp

theorem createSubdomainList_leading_dot (domain : QString) (h : domain.get? 0 = some '.') :
    createSubdomainList domain = none :=
  createSubdomainList_forever domain h (domain.length + 1)



theorem positionsBelow_sorted (s : QString) (ch : Char) (n : Nat) :
    List.Pairwise (fun a b => b < a) (positionsBelow s ch n) := by
  induction n with
  | zero => exact List.Pairwise.nil
  | succ n ih =>
    unfold positionsBelow
    split
    · refine List.Pairwise.cons ?_ ih
      intro b hb
      exact ((mem_positionsBelow s ch n b).1 hb).1
    · exact ih

theorem drop_eq_cons_of_get? (s : QString) (k : Nat) (c : Char) (h : s.get? k = some c) :
    s = s.take k ++ c :: s.drop (k + 1) := by
  have hlt : k < s.length := by
    rcases Nat.lt_or_ge k s.length with hl | hl
    · exact hl
    · rw [List.get?_eq_none.2 hl] at h; cases h
  have hget : s.get ⟨k, hlt⟩ = c := by
    rw [List.get?_eq_get hlt] at h; exact Option.some.inj h
  have hd : s.drop k = c :: s.drop (k + 1) := by
    rw [← hget]
    exact List.drop_eq_getElem_cons hlt
  conv_lhs => rw [← List.take_append_drop k s, hd]

theorem mem_drop_of_get? (s : QString) (k j : Nat) (c : Char) (hkj : k < j)
    (h : s.get? j = some c) : c ∈ s.drop (k + 1) := by
  have h1 : (s.drop (k + 1)).get? (j - (k + 1)) = some c := by
    rw [List.get?_eq_getElem?, List.getElem?_drop, ← List.get?_eq_getElem?]
    have e : k + 1 + (j - (k + 1)) = j := by omega
    rw [e]; exact h
  exact List.get?_mem h1

theorem startsWith_of_not_contains (line t : QString) (h : contains line t = false) :
    startsWith line t = false := by
  cases hs : startsWith line t with
  | false => rfl
  | true =>
    have : contains line t = true := by
      rw [contains_iff_drop]
      exact ⟨0, Nat.zero_le _, hs⟩
    rw [h] at this
    cases this

theorem ensureLoaded_file (p : ContentBlockingProfile) : (ensureLoaded p).file = p.file := by
  unfold ensureLoaded
  split
  · exact (loadRules_facts p).2.1
  · rfl

/-- The index loop of the two cosmetic queries of the manager, for a profile member that
loads the profile lazily and returns the map `sel` of the loaded profile; `ms` are profile
states that differ from the initial states `ms0` only by lazy loading. -/
theorem styleSheetListLoop_eq
    (getter : ContentBlockingProfile → List (QString × QString) × ContentBlockingProfile)
    (sel : ContentBlockingProfile → List (QString × QString))
    (hg : ∀ p, getter p = (sel (ensureLoaded p), ensureLoaded p))
    (ms0 : List ContentBlockingProfile) (profiles : List Int) (ms : List ContentBlockingProfile)
    (list : List (QString × QString)) (hE : ms.map ensureLoaded = ms0.map ensureLoaded) :
    (ContentBlockingManager.styleSheetListLoop getter profiles ms list).1 =
        list ++ (profiles.filter (fun k => decide (0 ≤ k ∧ k < (ms0.length : Int)))).flatMap
          (fun k => match ms0.get? k.toNat with
            | some p => sel (ensureLoaded p)
            | none => []) ∧
      (ContentBlockingManager.styleSheetListLoop getter profiles ms list).2.map ensureLoaded =
        ms0.map ensureLoaded := by
  induction profiles generalizing ms list with
  | nil => simp [ContentBlockingManager.styleSheetListLoop, hE]
  | cons k rest ih =>
    have hlen : ms.length = ms0.length := by
      have := congrArg List.length hE
      simpa using this
    unfold ContentBlockingManager.styleSheetListLoop
    by_cases hk : 0 ≤ k ∧ k < (ms.length : Int)
    · rw [if_pos hk]
      have hk0 : decide (0 ≤ k ∧ k < (ms0.length : Int)) = true := by
        rw [← hlen]; exact decide_eq_true hk
      rw [List.filter_cons, if_pos hk0, List.flatMap_cons]
      have hlt : k.toNat < ms.length := by omega
      obtain ⟨p, hp⟩ := get?_in_range ms k.toNat hlt
      obtain ⟨p0, hp0⟩ := get?_in_range ms0 k.toNat (hlen ▸ hlt)
      have hpp : ensureLoaded p = ensureLoaded p0 :=
        get?_of_map_eq ensureLoaded ms ms0 hE k.toNat p p0 hp hp0
      simp only [hp, hp0, hg]
      have hE1 : (ms.set k.toNat (ensureLoaded p)).map ensureLoaded = ms0.map ensureLoaded := by
        rw [map_set_same ensureLoaded ms k.toNat (ensureLoaded p) p hp (ensureLoaded_idem p)]
        exact hE
      obtain ⟨i1, i2⟩ := ih (ms.set k.toNat (ensureLoaded p)) (list ++ sel (ensureLoaded p)) hE1
      rw [i1, i2, hpp]
      simp
    · rw [if_neg hk]
      have hk0 : ¬ decide (0 ≤ k ∧ k < (ms0.length : Int)) = true := by
        rw [← hlen]; simpa using hk
      rw [List.filter_cons, if_neg hk0]
      exact ih ms list hE

theorem mid_drop (s : QString) (n : Nat) (h : n ≤ s.length) : mid s (n : Int) = s.drop n := by
  unfold mid
  rw [if_neg (by omega)]
  rfl

theorem startsWith_append (t r : QString) : startsWith (t ++ r) t = true :=
  (isPrefixOf_iff t (t ++ r)).2 ⟨r, rfl⟩

theorem optionTokens_nil (line : QString) (h : '$' ∉ line) :
    line.takeWhile (fun c => c != '$') = line ∧ optionTokens line = [] := by
  have hall : ∀ c ∈ line, (c != '$') = true := by
    intro c hc
    rw [bne_iff_ne]
    exact fun hcd => h (hcd ▸ hc)
  have h1 : line.takeWhile (fun c => c != '$') = line := List.takeWhile_eq_self_iff.2 hall
  have h2 : line.dropWhile (fun c => c != '$') = [] := List.dropWhile_eq_nil_iff.2 hall
  refine ⟨h1, ?_⟩
  unfold optionTokens
  rw [h2]
  rfl

theorem stripTrailing_keep (line : QString) (hne : line ≠ [])
    (hlast : ∀ c, line.getLast? = some c → (c == '|' || c == '*' || c == '^') = false) :
    stripTrailing line = line := by
  unfold stripTrailing
  rw [stripTrailingRev_eq, dropWhile_reverse_keep _ line hne hlast, List.reverse_reverse]

/-- The network-rule part of `parseRuleLine` on a line without options, wildcards and
trailing `|`: only the two prefix tests are left. -/
theorem parseNetworkRule_plain (line : QString) (hne : line ≠ [])
    (hno : ∀ c ∈ line, c ≠ '*' ∧ c ≠ '^' ∧ c ≠ '$') (hlast : line.getLast? ≠ some '|') :
    parseNetworkRule line =
      some (optionRule NoOption NoOption (startsWith line (qs "@@"))
          (startsWith (if startsWith line (qs "@@") then mid line 2 else line) (qs "||")),
        if startsWith (if startsWith line (qs "@@") then mid line 2 else line) (qs "||") then
          mid (if startsWith line (qs "@@") then mid line 2 else line) 2
        else (if startsWith line (qs "@@") then mid line 2 else line)) := by
  have hd : '$' ∉ line := fun hm => (hno _ hm).2.2 rfl
  rw [parseNetworkRule_eq, (optionTokens_nil line hd).1, (optionTokens_nil line hd).2]
  unfold parsePattern
  have hkeep : stripTrailing line = line := by
    apply stripTrailing_keep line hne
    intro c hc
    have hcm : c ∈ line := List.mem_of_mem_getLast? hc
    have h1 : c ≠ '|' := fun h => hlast (h ▸ hc)
    have h2 := (hno c hcm).1
    have h3 := (hno c hcm).2.1
    simp [h1, h2, h3]
  have hstar : startsWithChar line '*' = false := by
    cases line with
    | nil => rfl
    | cons c cs =>
      have := (hno c (List.mem_cons_self _ _)).1
      simpa [startsWithChar] using this
  have hcont : (containsChar line '*' || containsChar line '^') = false := by
    rw [Bool.or_eq_false_iff]
    constructor
    · cases h : containsChar line '*' with
      | false => rfl
      | true => exact absurd rfl ((hno _ ((containsChar_iff _ _).1 h)).1)
    · cases h : containsChar line '^' with
      | false => rfl
      | true => exact absurd rfl ((hno _ ((containsChar_iff _ _).1 h)).2.1)
  simp only [hkeep, hstar, Bool.false_eq_true, if_false, hcont]
  cases startsWith line (qs "@@")
  · simp only [Bool.false_eq_true, if_false]
    cases startsWith line (qs "||") <;> rfl
  · simp only [if_true]
    cases startsWith (mid line 2) (qs "||") <;> rfl

theorem splitCharAux_append (sep : Char) (d rest cur : QString) (h : sep ∉ d) :
    splitCharAux sep (d ++ rest) cur = splitCharAux sep rest (cur ++ d) := by
  induction d generalizing cur with
  | nil => simp
  | cons c cs ih =>
    have hc : (c == sep) = false := by
      rw [beq_eq_false_iff_ne]
      exact fun hcs => h (hcs ▸ List.mem_cons_self _ _)
    rw [List.cons_append, splitCharAux, hc]
    simp only [Bool.false_eq_true, if_false]
    rw [ih _ (fun hm => h (List.mem_cons_of_mem _ hm))]
    simp

theorem splitCharAux_intercalate (sep : Char) (d : QString) (ds : List QString) (cur : QString)
    (h : ∀ x ∈ d :: ds, sep ∉ x) :
    splitCharAux sep (List.intercalate [sep] (d :: ds)) cur = (cur ++ d) :: ds := by
  induction ds generalizing d cur with
  | nil =>
    have e : List.intercalate [sep] [d] = d ++ [] := by simp [List.intercalate]
    rw [e, splitCharAux_append sep d [] cur (h d (List.mem_cons_self _ _))]
    rfl
  | cons d1 rest ih =>
    have e : List.intercalate [sep] (d :: d1 :: rest) =
        d ++ sep :: List.intercalate [sep] (d1 :: rest) := by
      simp [List.intercalate, List.intersperse]
    rw [e, splitCharAux_append sep d _ cur (h d (List.mem_cons_self _ _)), splitCharAux]
    simp only [beq_self_eq_true, if_true]
    rw [ih d1 [] (fun x hx => h x (List.mem_cons_of_mem _ hx))]
    rfl

/-- Splitting a comma-joined list of names without commas gives the names back. -/
theorem splitChar_intercalate (sep : Char) (ds : List QString) (hne : ds ≠ [])
    (h : ∀ x ∈ ds, sep ∉ x) : splitChar (List.intercalate [sep] ds) sep = ds := by
  cases ds with
  | nil => exact absurd rfl hne
  | cons d rest =>
    unfold splitChar
    rw [splitCharAux_intercalate sep d rest [] h]
    rfl

theorem splitStrAux_before (L rest cur : QString) (h : '#' ∉ L) :
    splitStrAux (qs "##") (L ++ rest) 0 cur = splitStrAux (qs "##") rest 0 (cur ++ L) := by
  induction L generalizing cur with
  | nil => simp
  | cons x xs ih =>
    have hx : x ≠ '#' := fun hx => h (hx ▸ List.mem_cons_self _ _)
    have hp : (qs "##").isPrefixOf (x :: (xs ++ rest)) = false := by
      have e : qs "##" = ['#', '#'] := rfl
      rw [e, List.isPrefixOf]
      have : ('#' == x) = false := by
        rw [beq_eq_false_iff_ne]
        exact fun hh => hx hh.symm
      rw [this, Bool.false_and]
    rw [List.cons_append, splitStrAux, hp]
    simp only [Bool.false_eq_true, if_false]
    rw [ih _ (fun hm => h (List.mem_cons_of_mem _ hm))]
    simp

theorem splitStrAux_at (S cur : QString) :
    splitStrAux (qs "##") (qs "##" ++ S) 0 cur = cur :: splitStrAux (qs "##") S 0 [] := by
  have e : qs "##" ++ S = '#' :: ('#' :: S) := rfl
  have hp : (qs "##").isPrefixOf ('#' :: ('#' :: S)) = true := startsWith_append (qs "##") S
  rw [e, splitStrAux, hp]
  simp only [if_true]
  rfl

theorem splitStrAux_rest (sep S cur : QString) (h : contains S sep = false) :
    splitStrAux sep S 0 cur = [cur ++ S] := by
  induction S generalizing cur with
  | nil => simp [splitStrAux]
  | cons c cs ih =>
    rw [contains, Bool.or_eq_false_iff] at h
    rw [splitStrAux, h.1]
    simp only [Bool.false_eq_true, if_false]
    rw [ih _ h.2]
    simp

/-- Splitting `L##S` at `##`, for a left side without `#` and a selector without `##`. -/
theorem splitStr_hide (L S : QString) (hL : '#' ∉ L) (hS : contains S (qs "##") = false) :
    splitStr (L ++ qs "##" ++ S) (qs "##") = [L, S] := by
  unfold splitStr
  rw [List.append_assoc, splitStrAux_before L _ [] hL, splitStrAux_at, splitStrAux_rest _ S [] hS]
  rfl

theorem contains_append_right (a t b : QString) : contains (a ++ t ++ b) t = true :=
  (contains_iff _ _).2 ⟨a, b, rfl⟩



theorem mem_intercalate (sep c : Char) (ds : List QString)
    (h : c ∈ List.intercalate [sep] ds) : c = sep ∨ ∃ d ∈ ds, c ∈ d := by
  induction ds with
  | nil => simp [List.intercalate] at h
  | cons d rest ih =>
    cases rest with
    | nil =>
      have e : List.intercalate [sep] [d] = d := by simp [List.intercalate]
      rw [e] at h
      exact Or.inr ⟨d, List.mem_cons_self _ _, h⟩
    | cons d1 rest1 =>
      have e : List.intercalate [sep] (d :: d1 :: rest1) =
          d ++ sep :: List.intercalate [sep] (d1 :: rest1) := by
        simp [List.intercalate, List.intersperse]
      rw [e, List.mem_append, List.mem_cons] at h
      rcases h with h | h | h
      · exact Or.inr ⟨d, List.mem_cons_self _ _, h⟩
      · exact Or.inl h
      · rcases ih h with h1 | ⟨x, hx, hcx⟩
        · exact Or.inl h1
        · exact Or.inr ⟨x, List.mem_cons_of_mem _ hx, hcx⟩

/-- The branch of `parseRuleLine` for the lines `L##S`, for a non-empty left side without `#`
that does not start with `!` and a selector without `##`. -/
theorem parseRuleLine_hide (p : ContentBlockingProfile) (L S : QString) (hne : L ≠ [])
    (hL : '#' ∉ L) (hbang : startsWithChar L '!' = false)
    (hS : contains S (qs "##") = false) :
    parseRuleLine p (L ++ qs "##" ++ S) =
      { p with
        m_styleSheetBlackList :=
          p.m_styleSheetBlackList ++ (splitChar L ',').map (fun domain => (domain, S)) } := by
  cases L with
  | nil => exact absurd rfl hne
  | cons c cs =>
    have hc : c ≠ '#' := fun h => hL (h ▸ List.mem_cons_self _ _)
    have h1 : (decide (indexOfChar (c :: cs ++ qs "##" ++ S) '!' = 0) ||
        (c :: cs ++ qs "##" ++ S).isEmpty) = false := by
      rw [Bool.or_eq_false_iff]
      constructor
      · rw [decide_eq_false_iff_not, indexOfChar_eq_zero]
        have : startsWithChar (c :: cs ++ qs "##" ++ S) '!' = startsWithChar (c :: cs) '!' := rfl
        rw [this, hbang]
        exact Bool.false_ne_true
      · rfl
    have h2 : startsWith (c :: cs ++ qs "##" ++ S) (qs "##") = false := by
      have e : qs "##" = ['#', '#'] := rfl
      have e2 : c :: cs ++ qs "##" ++ S = c :: (cs ++ qs "##" ++ S) := rfl
      unfold startsWith
      rw [e2, e, List.isPrefixOf]
      have : ('#' == c) = false := by
        rw [beq_eq_false_iff_ne]
        exact fun hh => hc hh.symm
      rw [this, Bool.false_and]
    have h3 : contains (c :: cs ++ qs "##" ++ S) (qs "##") = true :=
      contains_append_right (c :: cs) (qs "##") S
    unfold parseRuleLine
    rw [h1, h2, h3]
    simp only [Bool.false_eq_true, if_false, if_true]
    rw [splitStr_hide (c :: cs) S hL hS]
    rfl

theorem optionStep_eq (carried negated evidence isBlocked : Bool) :
    (if carried = true then
        if evidence = true then (if isBlocked = true then !negated else isBlocked)
        else (if isBlocked = true then negated else isBlocked)
      else isBlocked) =
      (isBlocked && (if carried = true then (if negated = true then !evidence else evidence)
        else true)) := by
  cases carried <;> cases negated <;> cases evidence <;> cases isBlocked <;> rfl

/-- The content-type steps of `resolveRuleOptions` form a conjunction. -/
theorem resolveRuleOptions_conjunction (rule : ContentBlockingRule) (request : QNetworkRequest)
    (baseUrlHost : QString) (l : List QString) (prior : Bool) :
    resolveRuleOptions rule request baseUrlHost l prior =
      (stateAfterThirdParty rule baseUrlHost l prior &&
        optionSatisfied rule ImageOption request && optionSatisfied rule ScriptOption request &&
        optionSatisfied rule StyleSheetOption request && optionSatisfied rule ObjectOption request &&
        optionSatisfied rule XmlHttpRequestOption request) := by
  rw [resolveRuleOptions_eq]
  unfold resolveOptionBits
  simp only [optionStep_eq]
  rfl

theorem distinctSiblingsList_iff (children : List Node) :
    distinctSiblingsList children = true ↔ ∀ child ∈ children, child.distinctSiblings = true := by
  induction children with
  | nil => simp [distinctSiblingsList]
  | cons node rest ih =>
    rw [distinctSiblingsList, Bool.and_eq_true, ih]
    simp

theorem distinctSiblings_iff (node : Node) :
    node.distinctSiblings = true ↔
      (node.children.map Node.value).Nodup ∧
        ∀ child ∈ node.children, child.distinctSiblings = true := by
  cases node with
  | mk v children rule =>
    rw [Node.distinctSiblings, Bool.and_eq_true, decide_eq_true_iff, distinctSiblingsList_iff]
    rfl

theorem addRuleChild_values (value : Char) (step : Node → Node)
    (hstep : ∀ node, (step node).value = node.value) (children : List Node) :
    (addRuleChild value step children).map Node.value =
      if value ∈ children.map Node.value then children.map Node.value
      else children.map Node.value ++ [value] := by
  induction children with
  | nil =>
    rw [addRuleChild_nil]
    simp only [List.map_cons, List.map_nil, List.not_mem_nil, if_false, List.nil_append, hstep]
    rfl
  | cons node rest ih =>
    by_cases h : (node.value == value) = true
    · rw [addRuleChild_cons_pos value step node rest h]
      have hv : node.value = value := by simpa using h
      simp only [List.map_cons, hstep, List.mem_cons, hv, true_or, if_true]
    · rw [addRuleChild_cons_neg value step node rest h, List.map_cons, ih]
      have hv : ¬ value = node.value := by
        intro e
        exact h (by simp [e])
      simp only [List.map_cons, List.mem_cons, hv, false_or]
      split <;> simp

theorem addRuleChild_mem (value : Char) (step : Node → Node) (children : List Node)
    (child : Node) (h : child ∈ addRuleChild value step children) :
    child ∈ children ∨ (∃ node ∈ children, child = step node) ∨
      child = step (Node.mk value [] none) := by
  induction children with
  | nil =>
    rw [addRuleChild_nil] at h
    exact Or.inr (Or.inr (List.mem_singleton.1 h))
  | cons node rest ih =>
    by_cases hv : (node.value == value) = true
    · rw [addRuleChild_cons_pos value step node rest hv] at h
      rcases List.mem_cons.1 h with h | h
      · exact Or.inr (Or.inl ⟨node, List.mem_cons_self _ _, h⟩)
      · exact Or.inl (List.mem_cons_of_mem _ h)
    · rw [addRuleChild_cons_neg value step node rest hv] at h
      rcases List.mem_cons.1 h with h | h
      · exact Or.inl (h ▸ List.mem_cons_self _ _)
      · rcases ih h with h1 | ⟨n, hn, hc⟩ | h1
        · exact Or.inl (List.mem_cons_of_mem _ h1)
        · exact Or.inr (Or.inl ⟨n, List.mem_cons_of_mem _ hn, hc⟩)
        · exact Or.inr (Or.inr h1)

theorem distinctSiblings_leaf (value : Char) (rule : Option ContentBlockingRule) :
    (Node.mk value [] rule).distinctSiblings = true := by
  rw [distinctSiblings_iff]
  exact ⟨List.nodup_nil, fun child hc => by cases hc⟩

/-- `addRule` keeps the structural invariant of the trie. -/
theorem addRule_distinctSiblings (rule : ContentBlockingRule) (anchor : QString) (node : Node)
    (h : node.distinctSiblings = true) : (addRule rule anchor node).distinctSiblings = true := by
  induction anchor generalizing node with
  | nil =>
    rw [distinctSiblings_iff] at h ⊢
    exact h
  | cons c cs ih =>
    rw [addRule_cons]
    rw [distinctSiblings_iff] at h ⊢
    have hch : (Node.mk node.value (addRuleChild c (addRule rule cs) node.children) node.rule).children =
        addRuleChild c (addRule rule cs) node.children := rfl
    rw [hch]
    constructor
    · rw [addRuleChild_values c _ (addRule_value rule cs)]
      split
      · exact h.1
      · rename_i hc
        exact List.Nodup.append h.1 (List.nodup_singleton c)
          (by
            intro x hx hx1
            rw [List.mem_singleton] at hx1
            exact hc (hx1 ▸ hx))
    · intro child hc
      rcases addRuleChild_mem c _ _ child hc with h1 | ⟨n, hn, h1⟩ | h1
      · exact h.2 child h1
      · rw [h1]
        exact ih n (h.2 n hn)
      · rw [h1]
        exact ih _ (distinctSiblings_leaf c none)

theorem ruleAt_addRule (rule : ContentBlockingRule) (a s : QString) (root : Node) :
    ruleAt s (addRule rule a root) = if s = a then some rule else ruleAt s root := by
  by_cases h : s = a
  · rw [if_pos h, h]
    exact ruleAt_addRule_self rule a root
  · rw [if_neg h]
    exact ruleAt_addRule_other rule a s h root

theorem foldl_addRule_facts (calls : List (ContentBlockingRule × QString)) (root : Node)
    (h : root.distinctSiblings = true) :
    (calls.foldl (fun root call => addRule call.1 call.2 root) root).distinctSiblings = true ∧
      ∀ s, (ruleAt s (calls.foldl (fun root call => addRule call.1 call.2 root) root)).isSome = true ↔
        s ∈ calls.map Prod.snd ∨ (ruleAt s root).isSome = true := by
  induction calls generalizing root with
  | nil => exact ⟨h, fun s => by simp⟩
  | cons call rest ih =>
    obtain ⟨h1, h2⟩ := ih (addRule call.1 call.2 root) (addRule_distinctSiblings _ _ _ h)
    refine ⟨h1, ?_⟩
    intro s
    rw [List.foldl_cons, h2 s, ruleAt_addRule]
    by_cases hs : s = call.2
    · simp [hs]
    · simp only [hs, if_false, List.map_cons, List.mem_cons, false_or]



theorem foldl_addRule_ruleAt (calls : List (ContentBlockingRule × QString)) (root : Node)
    (s : QString) :
    ruleAt s (calls.foldl (fun root call => addRule call.1 call.2 root) root) =
      match calls.reverse.find? (fun call => decide (call.2 = s)) with
      | some call => some call.1
      | none => ruleAt s root := by
  induction calls generalizing root with
  | nil => rfl
  | cons call rest ih =>
    rw [List.foldl_cons, ih, List.reverse_cons, List.find?_append]
    cases hf : rest.reverse.find? (fun call => decide (call.2 = s)) with
    | some found => rfl
    | none =>
      rw [ruleAt_addRule]
      by_cases hs : s = call.2
      · simp [hs, List.find?]
      · have hs1 : ¬ call.2 = s := fun e => hs e.symm
        simp [hs, hs1, List.find?]

theorem load_eq_loadWith (qt : QtServices) (p : ContentBlockingProfile) (onlyHeader : Bool) :
    load qt p onlyHeader = loadWith downloadUpdate qt p onlyHeader := rfl

/-- A profile that is marked up to date is loaded without a call of the download action. -/
theorem loadWith_upToDate (download : ContentBlockingProfile → ContentBlockingProfile)
    (qt : QtServices) (p : ContentBlockingProfile) (onlyHeader : Bool)
    (h : p.m_information.isUpToDate = true) :
    loadWith download qt p onlyHeader = loadWith (fun q => q) qt p onlyHeader := by
  unfold loadWith
  cases hf : p.file with
  | none => rfl
  | some lines =>
    simp only []
    split
    · rfl
    · have hflag := (loadHeader_flags qt (lines.drop 1) p.m_information).2
      rw [h] at hflag
      simp only [hflag, Bool.not_true, Bool.false_and, Bool.false_eq_true, if_false]

theorem updateDownloaded_success (qt : QtServices) (env : UpdateServices)
    (p : ContentBlockingProfile) (reply : QNetworkReply)
    (hreply : p.m_networkReply = some reply.request) (herror : reply.error = false)
    (hheader : startsWith (trimmedBytes (downloadedDataHeader reply)) (qs "[Adblock Plus 2.") = true)
    (hsum : contains (downloadedDataChecksum reply) (qs "! Checksum: ") = true →
      removeStr (env.md5Base64 (downloadedDataHeader reply ++ downloadedData reply)) (qs "=") =
        removeStr (removeStr (downloadedDataChecksum reply) (qs "! Checksum: ")) (qs "\n"))
    (hopen : env.canOpenForWriting = true) :
    updateDownloaded qt env p reply = load qt (stateBeforeReload env p reply) onlyHeaderDefault := by
  unfold updateDownloaded
  have h1 : (p.m_networkReply != some reply.request) = false := by
    rw [hreply]
    simp
  have h2 : (reply.error ||
      !startsWith (trimmedBytes (downloadedDataHeader reply)) (qs "[Adblock Plus 2.")) = false := by
    rw [herror, hheader]
    rfl
  have h3 : (contains (downloadedDataChecksum reply) (qs "! Checksum: ") &&
      removeStr (env.md5Base64 (downloadedDataHeader reply ++ downloadedData reply)) (qs "=") !=
        removeStr (removeStr (downloadedDataChecksum reply) (qs "! Checksum: ")) (qs "\n")) = false := by
    cases hc : contains (downloadedDataChecksum reply) (qs "! Checksum: ") with
    | false => rfl
    | true =>
      rw [Bool.true_and, hsum hc]
      simp
  rw [h1, h2, h3, hopen]
  rfl



theorem loadWith_id_facts (qt : QtServices) (p : ContentBlockingProfile) (onlyHeader : Bool) :
    (loadWith (fun q => q) qt p onlyHeader).m_networkReply = p.m_networkReply ∧
      (loadWith (fun q => q) qt p onlyHeader).m_information.isUpToDate =
        p.m_information.isUpToDate := by
  unfold loadWith
  cases hf : p.file with
  | none => exact ⟨rfl, rfl⟩
  | some lines =>
    simp only []
    split
    · exact ⟨rfl, rfl⟩
    · have hflag := (loadHeader_flags qt (lines.drop 1) p.m_information).2
      simp only [ite_self]
      cases onlyHeader with
      | true => exact ⟨rfl, hflag⟩
      | false =>
        simp only [Bool.not_false, if_true]
        obtain ⟨h1, _, h3, _⟩ := loadRules_facts
          { p with
            file := some lines,
            m_information := (loadHeader qt (lines.drop 1) p.m_information).1 }
        rw [h1, h3]
        exact ⟨rfl, hflag⟩

/-! ## Claims -/

/-- C1: with the single rule `||ads.example.com^` the request for
http://ads.example.com/banner.png is answered true and the one for
http://notads.example.com/banner.png false. In general, for the single option-less rule
`||H^`, H being a non-empty string without the delimiters `:?&/=` and without the filter
syntax characters `$*^#|`, and a request whose URL text contains its host: the answer is true
exactly when createSubdomainList(host) returns a list containing H, and it is false when that
list does not contain H. -/
theorem anchored_rule_blocks_iff_subdomain (qt : QtServices) (header H : QString)
    (request : QNetworkRequest) (baseUrl : QUrl) (hne : H ≠ [])
    (hchars : ∀ c ∈ H, c ∉ qs ":?&/=$*^#|")
    (hurl : contains request.url request.host = true) :
    ((profileOfLines qt adsLines).isUrlBlocked adsRequest baseUrl).map Prod.fst = some true ∧
      ((profileOfLines qt adsLines).isUrlBlocked notAdsRequest baseUrl).map Prod.fst = some false ∧
      ((((ContentBlockingProfile.create qt (some [header, qs "||" ++ H ++ qs "^"])).isUrlBlocked
            request baseUrl).map Prod.fst = some true) ↔
          ∃ l, createSubdomainList request.host = some l ∧ H ∈ l) ∧
      (∀ l, createSubdomainList request.host = some l → H ∉ l →
        ((ContentBlockingProfile.create qt (some [header, qs "||" ++ H ++ qs "^"])).isUrlBlocked
            request baseUrl).map Prod.fst = some false) := by
  refine ⟨rfl, rfl, ?_⟩
  have hline : qs "||" ++ H ++ qs "^" = '|' :: '|' :: (H ++ ['^']) := rfl
  have hnohash : '#' ∉ qs "||" ++ H ++ qs "^" := by
    rw [hline]
    simp only [List.mem_cons, List.mem_append, List.mem_singleton, List.not_mem_nil, or_false]
    rintro (h | h | h | h)
    · cases h
    · cases h
    · exact absurd (by decide) (hchars _ h)
    · cases h
  have hdelim : ∀ c ∈ H, isDomainDelimiter c = false := by
    intro c hc
    cases hd : isDomainDelimiter c with
    | false => rfl
    | true =>
      exfalso
      apply hchars c hc
      simp only [isDomainDelimiter, Bool.or_eq_true, beq_iff_eq] at hd
      rcases hd with (((h | h) | h) | h) | h <;> subst h <;> decide
  have hroot := singleRule_root qt header (qs "||" ++ H ++ qs "^") rfl (by rw [hline]; simp)
    (not_contains_of_not_mem _ _ '#' (by decide) hnohash)
    (not_contains_of_not_mem _ _ '#' (by decide) hnohash)
    anchoredRule H (parseNetworkRule_anchored H hne hchars)
  have hiff : ((ContentBlockingProfile.create qt (some [header, qs "||" ++ H ++ qs "^"])).isUrlBlocked
      request baseUrl).map Prod.fst = some true ↔
      ∃ l, createSubdomainList request.host = some l ∧ H ∈ l := by
    rw [isUrlBlocked_answer _ _ hroot, isUrlBlockedIn_true_iff]
    unfold checkUrlSubstring Node.empty
    simp only [checkUrlSubstringFrom_chain, List.nil_append, checkRuleMatch_anchoredRule H request baseUrl hdelim]
    constructor
    · rintro ⟨i, _, hi⟩
      split at hi
      · split at hi
        · cases hl : createSubdomainList request.host with
          | none => rw [hl] at hi; cases hi
          | some l =>
            rw [hl] at hi
            simp only [Option.map_some', Option.some.injEq, List.contains_iff_exists_mem_beq,
              beq_iff_eq, exists_eq_right'] at hi
            exact ⟨l, rfl, by simpa using hi⟩
        · cases hi
      · cases hi
    · rintro ⟨l, hl, hmem⟩
      obtain ⟨a, ha⟩ := createSubdomainList_tail _ _ hl H hmem
      have hhost : contains request.host H = true := by
        rw [contains_iff]
        exact ⟨a, [], by simpa using ha⟩
      have hcont : contains request.url H = true := contains_trans _ _ _ hurl hhost
      obtain ⟨i, hi, hpre⟩ := (contains_iff_drop _ _).1 hcont
      have hilt : i < request.url.length := by
        rcases Nat.lt_or_ge i request.url.length with h | h
        · exact h
        · exfalso
          rw [List.drop_of_length_le h] at hpre
          cases H with
          | nil => exact hne rfl
          | cons c cs => cases hpre
      refine ⟨i, hilt, ?_⟩
      rw [if_pos hpre, if_pos hcont, hl]
      simp only [Option.map_some', Option.some.injEq]
      simpa using hmem
  refine ⟨hiff, ?_⟩
  intro l hl hnot
  obtain ⟨b, hb⟩ := isUrlBlocked_total _ (create_wellFormed qt (some [header, qs "||" ++ H ++ qs "^"]))
    request baseUrl l hl
  cases b with
  | false => rw [hb]; rfl
  | true =>
    exfalso
    have htrue : ((ContentBlockingProfile.create qt (some [header, qs "||" ++ H ++ qs "^"])).isUrlBlocked
        request baseUrl).map Prod.fst = some true := by rw [hb]; rfl
    obtain ⟨l2, hl2, hmem⟩ := hiff.1 htrue
    rw [hl] at hl2
    cases hl2
    exact hnot hmem


/-- C1 at H = ads.example.com and the request for the banner. -/
theorem anchored_rule_blocks_iff_subdomain_witness :
    (qs "ads.example.com" ≠ [] ∧ (∀ c ∈ qs "ads.example.com", c ∉ qs ":?&/=$*^#|") ∧
        contains adsRequest.url adsRequest.host = true) ∧
      (((profileOfLines exampleQt adsLines).isUrlBlocked adsRequest { host := [] }).map Prod.fst =
          some true ∧
        ((profileOfLines exampleQt adsLines).isUrlBlocked notAdsRequest { host := [] }).map Prod.fst =
          some false ∧
        ((((ContentBlockingProfile.create exampleQt
              (some [qs "[Adblock Plus 2.0]", qs "||" ++ qs "ads.example.com" ++ qs "^"])).isUrlBlocked
              adsRequest { host := [] }).map Prod.fst = some true) ↔
            ∃ l, createSubdomainList adsRequest.host = some l ∧ qs "ads.example.com" ∈ l) ∧
        (∀ l, createSubdomainList adsRequest.host = some l → qs "ads.example.com" ∉ l →
          ((ContentBlockingProfile.create exampleQt
              (some [qs "[Adblock Plus 2.0]", qs "||" ++ qs "ads.example.com" ++ qs "^"])).isUrlBlocked
              adsRequest { host := [] }).map Prod.fst = some false)) :=
  ⟨⟨by decide, by decide, by decide⟩,
    anchored_rule_blocks_iff_subdomain exampleQt (qs "[Adblock Plus 2.0]") (qs "ads.example.com")
      adsRequest { host := [] } (by decide) (by decide) (by decide)⟩

/-- C5: the profile's isUrlBlocked answers true exactly when the walk of checkUrlSubstring
answers true on the suffix of the URL text at some offset below its length; so it answers
false for an empty URL text and for a trie that owns no rule. Here `root` is the trie the
profile holds once its rules are loaded. -/
theorem isUrlBlocked_iff_some_offset (p : ContentBlockingProfile) (root : Node)
    (request : QNetworkRequest) (baseUrl : QUrl) (hroot : (ensureLoaded p).m_root = some root) :
    ((p.isUrlBlocked request baseUrl).map Prod.fst = some true ↔
        ∃ i, i < request.url.length ∧
          checkUrlSubstring root (request.url.drop i) request baseUrl = some true) ∧
      (request.url = [] → (p.isUrlBlocked request baseUrl).map Prod.fst = some false) ∧
      (root.ruleCount = 0 → (p.isUrlBlocked request baseUrl).map Prod.fst = some false) := by
  rw [isUrlBlocked_answer p root hroot]
  refine ⟨isUrlBlockedIn_true_iff root request baseUrl, ?_, ?_⟩
  · intro hurl
    unfold isUrlBlockedIn
    rw [hurl]
    rfl
  · intro hcount
    exact isUrlBlockedLoop_no_rule root request baseUrl hcount _ _

/-- C5 at the profile of `||ads.example.com^` and the request for the banner. -/
theorem isUrlBlocked_iff_some_offset_witness :
    (ensureLoaded (profileOfLines exampleQt adsLines)).m_root = some adsRoot ∧
      (((profileOfLines exampleQt adsLines).isUrlBlocked adsRequest { host := [] }).map Prod.fst =
            some true ↔
          ∃ i, i < adsRequest.url.length ∧
            checkUrlSubstring adsRoot (adsRequest.url.drop i) adsRequest { host := [] } = some true) ∧
      (adsRequest.url = [] →
        ((profileOfLines exampleQt adsLines).isUrlBlocked adsRequest { host := [] }).map Prod.fst =
          some false) ∧
      (adsRoot.ruleCount = 0 →
        ((profileOfLines exampleQt adsLines).isUrlBlocked adsRequest { host := [] }).map Prod.fst =
          some false) :=
  ⟨rfl, isUrlBlocked_iff_some_offset (profileOfLines exampleQt adsLines) adsRoot adsRequest
    { host := [] } rfl⟩

/-- C2 (as amended): with the two rules `||ads.example.com^` and `@@||ads.example.com/ok^` the
request for http://ads.example.com/ok/img.png is answered true, as it is with the blocking
rule alone: the exception rule does not un-block it. -/
theorem exception_rule_does_not_unblock (qt : QtServices) (baseHost : String) :
    blockedBy qt ["[Adblock Plus 2.0]", "||ads.example.com^"] okRequest baseHost = some true ∧
      blockedBy qt ["[Adblock Plus 2.0]", "||ads.example.com^", "@@||ads.example.com/ok^"]
        okRequest baseHost = some true :=
  ⟨rfl, rfl⟩

/-- C2 as stated fails: the answer for http://ads.example.com/ok/img.png is not false. -/
theorem exception_rule_unblocks_counterexample :
    blockedBy exampleQt ["[Adblock Plus 2.0]", "||ads.example.com^", "@@||ads.example.com/ok^"]
      okRequest "" ≠ some false := by
  decide

/-- C3 at the failing input: the option-less line `banner` is accepted and stored under the
anchor `banner` with isException = false, the URL text http://example.com/banner contains
that anchor, and the profile holding just that rule answers false. -/
theorem plain_rule_never_blocks_example (qt : QtServices) (baseHost : String) :
    parseNetworkRule (qs "banner") = some (plainRule, qs "banner") ∧
      contains (httpRequest "http://example.com/banner" "example.com").url (qs "banner") = true ∧
      blockedBy qt ["[Adblock Plus 2.0]", "banner"]
        (httpRequest "http://example.com/banner" "example.com") baseHost = some false :=
  ⟨rfl, rfl, rfl⟩

/-- C4 at the failing input: the line `@@||ads.example.com^$third-party` gives a rule with
isException = true for which checkRuleMatch answers true on a request to ads.example.com
made by a page of other.org; the profile holding just that rule blocks the request. -/
theorem exception_rule_blocks_example (qt : QtServices) :
    parseNetworkRule (qs "@@||ads.example.com^$third-party") =
        some ({ blockedDomains := [], allowedDomains := [], ruleOption := ThirdPartyOption,
                exceptionRuleOption := NoOption, isException := true, needsDomainCheck := true },
              qs "ads.example.com") ∧
      checkRuleMatch { blockedDomains := [], allowedDomains := [], ruleOption := ThirdPartyOption,
                       exceptionRuleOption := NoOption, isException := true, needsDomainCheck := true }
        (qs "ads.example.com") adsRequest { host := qs "other.org" } = some true ∧
      blockedBy qt ["[Adblock Plus 2.0]", "@@||ads.example.com^$third-party"] adsRequest
        "other.org" = some true :=
  ⟨rfl, rfl, rfl⟩

/-- C7 at the failing input: the first line `not a filter list` does not start with the
version marker, yet after lazy loading the profile holds one rule and answers true for
http://ads.example.com/banner.png. -/
theorem invalid_header_still_loads_example (qt : QtServices) (baseHost : String) :
    startsWith (trimmed (qs "not a filter list")) (qs "[Adblock Plus 2.") = false ∧
      ((ensureLoaded (profileOfLines qt ["not a filter list", "||ads.example.com^"])).m_root.map
        Node.ruleCount) = some 1 ∧
      blockedBy qt ["not a filter list", "||ads.example.com^"] adsRequest baseHost = some true :=
  ⟨rfl, rfl, rfl⟩

/-- C8 (as amended): createSubdomainList("a.b.example.co.uk") returns co.uk, example.co.uk,
b.example.co.uk and the full host, in this order: it contains example.co.uk, b.example.co.uk
and the full host, and it contains co.uk as well. -/
theorem createSubdomainList_co_uk :
    createSubdomainList (qs "a.b.example.co.uk") =
      some [qs "co.uk", qs "example.co.uk", qs "b.example.co.uk", qs "a.b.example.co.uk"] := by
  decide

/-- C8 as stated fails: the list for a.b.example.co.uk does contain co.uk. -/
theorem createSubdomainList_co_uk_counterexample :
    ¬ (∃ l, createSubdomainList (qs "a.b.example.co.uk") = some l ∧ qs "example.co.uk" ∈ l ∧
        qs "b.example.co.uk" ∈ l ∧ qs "a.b.example.co.uk" ∈ l ∧ qs "co.uk" ∉ l) := by
  rintro ⟨l, hl, _, _, _, hno⟩
  have h : createSubdomainList (qs "a.b.example.co.uk") =
      some [qs "co.uk", qs "example.co.uk", qs "b.example.co.uk", qs "a.b.example.co.uk"] := by
    decide
  rw [h] at hl
  cases hl
  exact hno (List.mem_cons_self _ _)

/-- C9: for a profile constructed from a file, getStyleSheet returns the selectors of the
generic lines of the rule body (the lines starting with `##`, without these two characters),
in file order, joined by single commas and followed by one `{display:none;}`; it returns the
empty string when the body has no generic line. For the body `##.ad`, `##.promo` the result
is `.ad,.promo{display:none;}`. -/
theorem getStyleSheet_generic (qt : QtServices) (file : Option (List QString)) :
    ((ContentBlockingProfile.create qt file).getStyleSheet.1 =
        if ((((file.getD []).drop 1).filter (fun line => startsWith line (qs "##"))).map
            (fun line => line.drop 2)).isEmpty then []
        else
          List.intercalate [',']
              ((((file.getD []).drop 1).filter (fun line => startsWith line (qs "##"))).map
                (fun line => line.drop 2)) ++
            qs "\x7bdisplay:none;\x7d") ∧
      (profileOfLines qt ["[Adblock Plus 2.0]", "##.ad", "##.promo"]).getStyleSheet.1 =
        qs ".ad,.promo\x7bdisplay:none;\x7d" := by
  refine ⟨?_, rfl⟩
  obtain ⟨hfile, hloaded, _, hsheet, _, _⟩ := create_facts qt file
  unfold ContentBlockingProfile.getStyleSheet ensureLoaded
  simp only [hloaded, Bool.not_false, if_true]
  rw [loadRules_styleSheet, hsheet, hfile, List.nil_append, genericSheet_eq]
  generalize ((file.getD []).drop 1).filter (fun line => startsWith line (qs "##")) = generic
  cases generic with
  | nil => rfl
  | cons g rest =>
    have hmap : List.map (fun line => List.drop 2 line ++ [',']) (g :: rest) =
        List.map (fun s => s ++ [',']) (List.map (fun line => List.drop 2 line) (g :: rest)) := by
      simp [List.map_map]
    rw [hmap, join_comma_dropLast _ (by simp)]
    have hpos : 0 < ((List.map (fun s => s ++ [','])
        (List.map (fun line => List.drop 2 line) (g :: rest))).flatten).length := by
      simp
    rw [if_pos hpos]
    rfl

/-- C6 (as amended): a line that is not cosmetic (it contains neither `##` nor `#@#`) and whose
pattern body, taken with the options suffix starting at the first `$` (the text before the
first `$`, without trailing `|`, `*`, `^` and without one leading `*`), still contains `*` or
`^` yields no rule, and parseRuleLine returns the profile unchanged: same trie, same cosmetic
maps, same generic style sheet. -/
theorem parseRuleLine_wildcard_rejected (p : ContentBlockingProfile) (line : QString)
    (hhide : contains line (qs "##") = false) (hshow : contains line (qs "#@#") = false)
    (hbody : '*' ∈ patternBody line ∨ '^' ∈ patternBody line) :
    parseNetworkRule line = none ∧ parseRuleLine p line = p := by
  have hnone := parseNetworkRule_body line hbody
  refine ⟨hnone, ?_⟩
  unfold parseRuleLine
  have hstart : startsWith line (qs "##") = false := by
    cases hs : startsWith line (qs "##") with
    | false => rfl
    | true =>
      have : contains line (qs "##") = true := by
        rw [contains_iff_drop]
        exact ⟨0, Nat.zero_le _, hs⟩
      rw [hhide] at this
      cases this
  rw [hstart, hhide, hshow, hnone]
  simp

/-- C6 (as amended) at the line `||ads*.example.com^$image` and the loaded profile of
`||ads.example.com^`. -/
theorem parseRuleLine_wildcard_rejected_witness :
    contains (qs "||ads*.example.com^$image") (qs "##") = false ∧
      contains (qs "||ads*.example.com^$image") (qs "#@#") = false ∧
      ('*' ∈ patternBody (qs "||ads*.example.com^$image") ∨
        '^' ∈ patternBody (qs "||ads*.example.com^$image")) ∧
      parseNetworkRule (qs "||ads*.example.com^$image") = none ∧
      parseRuleLine (ensureLoaded (profileOfLines exampleQt adsLines)) (qs "||ads*.example.com^$image") =
        ensureLoaded (profileOfLines exampleQt adsLines) :=
  ⟨by decide, by decide, Or.inl (by decide),
    parseRuleLine_wildcard_rejected (ensureLoaded (profileOfLines exampleQt adsLines))
      (qs "||ads*.example.com^$image") (by decide) (by decide) (Or.inl (by decide))⟩

/-- C6 as stated fails: with the options suffix after the last `$`, as the specification
defines it, the pattern of `ab$c*d$image` is `ab$c*d` and the pattern of `ab*$image$x` is
`ab*$image`; both still contain `*`, neither line is a comment or cosmetic, and parseRuleLine
inserts a rule for each of them, at the key `ab` with the image option: the trie of the loaded
profile of `||ads.example.com^` holds no rule at `ab` before the call and one after it. -/
theorem parseRuleLine_wildcard_accepted_counterexample :
    (startsWithChar (qs "ab$c*d$image") '!' = false ∧
        contains (qs "ab$c*d$image") (qs "##") = false ∧
        contains (qs "ab$c*d$image") (qs "#@#") = false ∧
        specPatternBody (qs "ab$c*d$image") = qs "ab$c*d" ∧
        '*' ∈ specPatternBody (qs "ab$c*d$image")) ∧
      parseNetworkRule (qs "ab$c*d$image") =
        some (optionRule ImageOption NoOption false false, qs "ab") ∧
      (ensureLoaded (profileOfLines exampleQt adsLines)).m_root.bind (ruleAt (qs "ab")) = none ∧
      (parseRuleLine (ensureLoaded (profileOfLines exampleQt adsLines))
          (qs "ab$c*d$image")).m_root.bind (ruleAt (qs "ab")) =
        some (optionRule ImageOption NoOption false false) ∧
      (startsWithChar (qs "ab*$image$x") '!' = false ∧
        contains (qs "ab*$image$x") (qs "##") = false ∧
        contains (qs "ab*$image$x") (qs "#@#") = false ∧
        specPatternBody (qs "ab*$image$x") = qs "ab*$image" ∧
        '*' ∈ specPatternBody (qs "ab*$image$x")) ∧
      parseNetworkRule (qs "ab*$image$x") =
        some (optionRule ImageOption NoOption false false, qs "ab") ∧
      (parseRuleLine (ensureLoaded (profileOfLines exampleQt adsLines))
          (qs "ab*$image$x")).m_root.bind (ruleAt (qs "ab")) =
        some (optionRule ImageOption NoOption false false) := by
  decide

/-- C10: ContentBlockingManager::isUrlBlocked is true exactly when the index list is not
empty, the scheme is `http` or `https`, and some index k of the list with 0 <= k < number of
profiles names a profile whose isUrlBlocked is true for the request; indices outside that
range are skipped: the call (answer and resulting profiles) equals the call without them. -/
theorem manager_isUrlBlocked_iff (m_profiles : List ContentBlockingProfile) (profiles : List Int)
    (request : QNetworkRequest) (baseUrl : QUrl) (hwf : ∀ p ∈ m_profiles, p.WellFormed) :
    ((ContentBlockingManager.isUrlBlocked m_profiles profiles request baseUrl).map Prod.fst =
          some true ↔
        profiles ≠ [] ∧ (request.scheme = qs "http" ∨ request.scheme = qs "https") ∧
          ∃ k ∈ profiles, 0 ≤ k ∧ k < (m_profiles.length : Int) ∧
            ∃ p, m_profiles.get? k.toNat = some p ∧
              (p.isUrlBlocked request baseUrl).map Prod.fst = some true) ∧
      ContentBlockingManager.isUrlBlocked m_profiles profiles request baseUrl =
        ContentBlockingManager.isUrlBlocked m_profiles
          (profiles.filter (fun k => decide (0 ≤ k ∧ k < (m_profiles.length : Int)))) request baseUrl := by
  constructor
  · unfold ContentBlockingManager.isUrlBlocked
    cases profiles with
    | nil => simp
    | cons k rest =>
      simp only [List.isEmpty_cons, Bool.false_eq_true, if_false, ne_eq, not_false_eq_true,
        true_and, reduceCtorEq]
      by_cases hs : request.scheme = qs "http" ∨ request.scheme = qs "https"
      · have hs1 : ¬ ((request.scheme != qs "http" && request.scheme != qs "https") = true) := by
          rcases hs with hs | hs <;> simp [hs]
        rw [if_neg hs1, managerLoop_true_iff request baseUrl m_profiles (k :: rest) m_profiles rfl hwf]
        simp only [hs, true_and]
      · have hs1 : (request.scheme != qs "http" && request.scheme != qs "https") = true := by
          simp only [not_or] at hs
          rw [Bool.and_eq_true, bne_iff_ne, bne_iff_ne]
          exact hs
        rw [if_pos hs1]
        simp only [Option.map_some', hs, false_and, iff_false]
        intro h
        cases h
  · unfold ContentBlockingManager.isUrlBlocked
    by_cases hs1 : (request.scheme != qs "http" && request.scheme != qs "https") = true
    · simp only [hs1, if_true]
      split <;> split <;> rfl
    · simp only [hs1, if_false]
      rw [managerLoop_filter request baseUrl m_profiles.length profiles m_profiles rfl]
      cases hf : profiles.filter (fun k => decide (0 ≤ k ∧ k < (m_profiles.length : Int))) with
      | nil =>
        simp only [List.isEmpty_nil, if_true]
        split <;> rfl
      | cons k rest =>
        have hne : profiles.isEmpty = false := by
          cases profiles with
          | nil => simp at hf
          | cons a b => rfl
        simp only [hne, List.isEmpty_cons, Bool.false_eq_true, if_false]

/-- C10 at the registry holding the profile of `||ads.example.com^`, the index list
-1, 0, 5 and the request for the banner. -/
theorem manager_isUrlBlocked_iff_witness :
    (∀ p ∈ [profileOfLines exampleQt adsLines], p.WellFormed) ∧
      (((ContentBlockingManager.isUrlBlocked [profileOfLines exampleQt adsLines] [-1, 0, 5]
              adsRequest { host := [] }).map Prod.fst = some true ↔
          ([-1, 0, 5] : List Int) ≠ [] ∧
            (adsRequest.scheme = qs "http" ∨ adsRequest.scheme = qs "https") ∧
            ∃ k ∈ ([-1, 0, 5] : List Int),
              0 ≤ k ∧ k < (([profileOfLines exampleQt adsLines].length : Nat) : Int) ∧
                ∃ p, [profileOfLines exampleQt adsLines].get? k.toNat = some p ∧
                  (p.isUrlBlocked adsRequest { host := [] }).map Prod.fst = some true) ∧
        ContentBlockingManager.isUrlBlocked [profileOfLines exampleQt adsLines] [-1, 0, 5]
            adsRequest { host := [] } =
          ContentBlockingManager.isUrlBlocked [profileOfLines exampleQt adsLines]
            (([-1, 0, 5] : List Int).filter
              (fun k => decide (0 ≤ k ∧ k < (([profileOfLines exampleQt adsLines].length : Nat) : Int))))
            adsRequest { host := [] }) :=
  ⟨fun p hp => by
      rw [List.mem_singleton.1 hp]
      exact create_wellFormed _ _,
    manager_isUrlBlocked_iff [profileOfLines exampleQt adsLines] [-1, 0, 5] adsRequest { host := [] }
      (fun p hp => by
        rw [List.mem_singleton.1 hp]
        exact create_wellFormed _ _)⟩

/-- C11 (as amended): the walk for one starting offset ends at the first rule-owning node whose
rule resolves to blocked. If the anchor A1 is stored with rule r1 and the input starts with
A1 followed by B, then when r1 resolves to blocked the walk answers true whatever is
stored further down (the rule at A2 = A1 B is not consulted). When r1 resolves to not blocked
the walk goes on: in the trie that stores just r1 at A1 and r2 at A2 (built in either order)
the answer is then the resolution of r2. -/
theorem walk_ends_at_first_blocking_rule (request : QNetworkRequest) (baseUrl : QUrl)
    (root : Node) (r1 r2 : ContentBlockingRule) (A1 B t : QString) (hB : B ≠ [])
    (hstored : ruleAt A1 root = some r1) :
    (checkRuleMatch r1 A1 request baseUrl = some true →
        checkUrlSubstring root (A1 ++ B ++ t) request baseUrl = some true) ∧
      addRule r1 A1 (addRule r2 (A1 ++ B) Node.empty) =
        addRule r2 (A1 ++ B) (addRule r1 A1 Node.empty) ∧
      checkUrlSubstring (addRule r2 (A1 ++ B) (addRule r1 A1 Node.empty)) (A1 ++ B ++ t)
          request baseUrl =
        match checkRuleMatch r1 A1 request baseUrl with
        | none => none
        | some true => some true
        | some false => checkRuleMatch r2 (A1 ++ B) request baseUrl := by
  cases B with
  | nil => exact absurd rfl hB
  | cons b bs =>
    refine ⟨?_, addRule_proper_prefix_comm r1 r2 A1 b bs Node.empty, ?_⟩
    · intro hres
      unfold checkUrlSubstring
      rw [List.append_assoc]
      exact checkUrlSubstringFrom_blocked request baseUrl A1 _ root [] r1 hstored (by simpa using hres)
    · unfold checkUrlSubstring Node.empty
      rw [checkUrlSubstringFrom_two]
      simp only [List.nil_append]

/-- C11 (as amended) at the trie holding the exception rule of `@@||ads.example.com` and the
blocking rule of `||ads.example.com/ok`, for the input `ads.example.com/ok/img.png`. -/
theorem walk_ends_at_first_blocking_rule_witness :
    (qs "/ok" ≠ [] ∧ ruleAt (qs "ads.example.com") exceptionFirstRoot = some anchoredException) ∧
      ((checkRuleMatch anchoredException (qs "ads.example.com") okRequest { host := [] } = some true →
          checkUrlSubstring exceptionFirstRoot (qs "ads.example.com" ++ qs "/ok" ++ qs "/img.png")
            okRequest { host := [] } = some true) ∧
        addRule anchoredException (qs "ads.example.com")
            (addRule anchoredRule (qs "ads.example.com" ++ qs "/ok") Node.empty) =
          addRule anchoredRule (qs "ads.example.com" ++ qs "/ok")
            (addRule anchoredException (qs "ads.example.com") Node.empty) ∧
        checkUrlSubstring
            (addRule anchoredRule (qs "ads.example.com" ++ qs "/ok")
              (addRule anchoredException (qs "ads.example.com") Node.empty))
            (qs "ads.example.com" ++ qs "/ok" ++ qs "/img.png") okRequest { host := [] } =
          match checkRuleMatch anchoredException (qs "ads.example.com") okRequest { host := [] } with
          | none => none
          | some true => some true
          | some false =>
            checkRuleMatch anchoredRule (qs "ads.example.com" ++ qs "/ok") okRequest { host := [] }) :=
  ⟨⟨by decide, by decide⟩,
    walk_ends_at_first_blocking_rule okRequest { host := [] } exceptionFirstRoot anchoredException
      anchoredRule (qs "ads.example.com") (qs "/ok") (qs "/img.png") (by decide) (by decide)⟩

/-- C11 as stated fails: with the exception rule of `@@||ads.example.com` stored at A1 and the
blocking rule of `||ads.example.com/ok` stored at A2, the rule at A1 resolves to not blocked
for http://ads.example.com/ok/img.png, yet the walk over `ads.example.com/ok/img.png`
answers true: it went on to the rule at A2. -/
theorem walk_ends_at_first_rule_counterexample :
    ruleAt (qs "ads.example.com") exceptionFirstRoot = some anchoredException ∧
      ruleAt (qs "ads.example.com/ok") exceptionFirstRoot = some anchoredRule ∧
      checkRuleMatch anchoredException (qs "ads.example.com") okRequest { host := [] } = some false ∧
      checkUrlSubstring exceptionFirstRoot (qs "ads.example.com/ok/img.png") okRequest { host := [] } =
        some true := by
  decide



/-- C12: the trie is a last-writer-wins map from anchors to rules. After addRule(r1, a) and
then addRule(r2, a) the node reached by walking a from the root stores r2, and for every
string b other than a, addRule(r, a) leaves the rule stored at (or absent from) the node for
b as it was. This holds from every trie `root`. -/
theorem addRule_last_writer_wins (root : Node) (r r1 r2 : ContentBlockingRule) (a b : QString)
    (hba : b ≠ a) :
    ruleAt a (addRule r2 a (addRule r1 a root)) = some r2 ∧
      ruleAt b (addRule r a root) = ruleAt b root :=
  ⟨ruleAt_addRule_self r2 a _, ruleAt_addRule_other r a b hba root⟩

/-- C12 at the trie of `||ads.example.com^`, writing the anchor `ads.example.com` twice and
reading the anchor `ads`. -/
theorem addRule_last_writer_wins_witness :
    qs "ads" ≠ qs "ads.example.com" ∧
      ruleAt (qs "ads.example.com")
          (addRule plainRule (qs "ads.example.com") (addRule anchoredRule (qs "ads.example.com") adsRoot)) =
        some plainRule ∧
      ruleAt (qs "ads") (addRule plainRule (qs "ads.example.com") adsRoot) = ruleAt (qs "ads") adsRoot :=
  ⟨by decide,
    addRule_last_writer_wins adsRoot plainRule anchoredRule plainRule (qs "ads.example.com") (qs "ads")
      (by decide)⟩



/-- C13: for a rule with needsDomainCheck = true, a matched anchor m and a request whose
subdomain list is l = createSubdomainList(host): if m cut before its first delimiter among
`:?&/=` (m whole when it has none) is not an element of l, checkRuleMatch returns false,
whatever the option bits, the domain lists and the isException flag of the rule. The cut is
what the code computes with `left` and `indexOf`. -/
theorem checkRuleMatch_domain_anchor_fails (rule : ContentBlockingRule) (m : QString)
    (request : QNetworkRequest) (baseUrl : QUrl) (l : List QString)
    (hcheck : rule.needsDomainCheck = true)
    (hl : createSubdomainList request.host = some l)
    (hnot : m.takeWhile (fun c => !isDomainDelimiter c) ∉ l) :
    left m (indexOfDomainExpression m) = m.takeWhile (fun c => !isDomainDelimiter c) ∧
      checkRuleMatch rule m request baseUrl = some false := by
  refine ⟨left_indexOfDomainExpression m, ?_⟩
  unfold checkRuleMatch
  simp only [hl, hcheck, left_indexOfDomainExpression]
  have hc : l.contains (m.takeWhile (fun c => !isDomainDelimiter c)) = false := by
    cases h : l.contains (m.takeWhile (fun c => !isDomainDelimiter c)) with
    | false => rfl
    | true => exact absurd (by simpa using h) hnot
  rw [hc]
  split <;> rfl

/-- C13 at the rule of `||ads.example.com/ok` and the request for
http://notads.example.com/ok: the URL contains the anchor `ads.example.com/ok`, so the
domain-anchor check is reached; the anchor cut at `/` is `ads.example.com`, which is not in
the subdomain list of notads.example.com, and checkRuleMatch returns false. For the request
for http://ads.example.com/ok/img.png the cut anchor is in the list and the same rule
blocks. -/
theorem checkRuleMatch_domain_anchor_fails_witness :
    (anchoredRule.needsDomainCheck = true ∧
        contains notAdsOkRequest.url (qs "ads.example.com/ok") = true ∧
        createSubdomainList notAdsOkRequest.host =
          some [qs "example.com", qs "notads.example.com"] ∧
        (qs "ads.example.com/ok").takeWhile (fun c => !isDomainDelimiter c) = qs "ads.example.com" ∧
        (qs "ads.example.com/ok").takeWhile (fun c => !isDomainDelimiter c) ∉
          [qs "example.com", qs "notads.example.com"]) ∧
      (left (qs "ads.example.com/ok") (indexOfDomainExpression (qs "ads.example.com/ok")) =
          (qs "ads.example.com/ok").takeWhile (fun c => !isDomainDelimiter c) ∧
        checkRuleMatch anchoredRule (qs "ads.example.com/ok") notAdsOkRequest { host := [] } =
          some false) ∧
      (contains okRequest.url (qs "ads.example.com/ok") = true ∧
        checkRuleMatch anchoredRule (qs "ads.example.com/ok") okRequest { host := [] } =
          some true) :=
  ⟨⟨rfl, by decide, by decide, by decide, by decide⟩,
    checkRuleMatch_domain_anchor_fails anchoredRule (qs "ads.example.com/ok") notAdsOkRequest
      { host := [] } [qs "example.com", qs "notads.example.com"] rfl (by decide) (by decide),
    ⟨by decide, by decide⟩⟩



/-- C14 (as amended): for a rule whose only option is image, script, stylesheet or object, not
negated, resolveRuleOptions yields blocked = (prior blocked state and evidence of that type in
the request): with evidence the prior value is kept, without evidence the result is not
blocked whatever the prior value was. In particular the rule of `||ads.example.com^$image`,
blocked before option resolution, is not blocked for http://ads.example.com/page.html. -/
theorem resolveRuleOptions_content_type (isException needsDomainCheck : Bool)
    (request : QNetworkRequest) (baseUrlHost : QString) (l : List QString) (prior : Bool) :
    resolveRuleOptions (optionRule ImageOption NoOption isException needsDomainCheck) request
        baseUrlHost l prior = (prior && contentTypeEvidence ImageOption request) ∧
      resolveRuleOptions (optionRule ScriptOption NoOption isException needsDomainCheck) request
        baseUrlHost l prior = (prior && contentTypeEvidence ScriptOption request) ∧
      resolveRuleOptions (optionRule StyleSheetOption NoOption isException needsDomainCheck) request
        baseUrlHost l prior = (prior && contentTypeEvidence StyleSheetOption request) ∧
      resolveRuleOptions (optionRule ObjectOption NoOption isException needsDomainCheck) request
        baseUrlHost l prior = (prior && contentTypeEvidence ObjectOption request) ∧
      parseNetworkRule (qs "||ads.example.com^$image") =
        some (optionRule ImageOption NoOption false true, qs "ads.example.com") ∧
      contentTypeEvidence ImageOption pageRequest = false ∧
      resolveRuleOptions (optionRule ImageOption NoOption false true) pageRequest baseUrlHost l true =
        false := by
  refine ⟨?_, ?_, ?_, ?_, rfl, rfl, rfl⟩
  all_goals
    rw [resolveRuleOptions_eq, resolveDomainLists_nil _ _ _ rfl rfl]
    simp only [optionRule]
    generalize (baseUrlHost.isEmpty || l.contains baseUrlHost) = firstParty
    generalize contentTypeEvidence ImageOption request = image
    generalize contentTypeEvidence ScriptOption request = script
    generalize contentTypeEvidence StyleSheetOption request = styleSheet
    generalize contentTypeEvidence ObjectOption request = object
    generalize (request.xRequestedWith == qs "XMLHttpRequest") = xhr
    cases prior <;> cases firstParty <;> cases image <;> cases script <;> cases styleSheet <;>
      cases object <;> cases xhr <;> decide

/-- C14 as stated fails: the image rule of `||ads.example.com^$image` was blocked before
option resolution, the request for http://ads.example.com/page.html shows no image
evidence, and resolveRuleOptions does not leave the state at its prior value true; the
profile holding that rule does not block the request. -/
theorem resolveRuleOptions_keeps_prior_counterexample :
    contains pageRequest.accept (qs "image/") = false ∧
      endsWith pageRequest.url (qs ".png") = false ∧ endsWith pageRequest.url (qs ".jpg") = false ∧
      endsWith pageRequest.url (qs ".gif") = false ∧
      resolveRuleOptions (optionRule ImageOption NoOption false true) pageRequest []
        [qs "example.com", qs "ads.example.com"] true ≠ true ∧
      blockedBy exampleQt ["[Adblock Plus 2.0]", "||ads.example.com^$image"] pageRequest "" =
        some false := by
  decide



/-- C15: for a rule whose only option is third-party and whose domain lists are empty,
resolveRuleOptions sets blocked, whatever its prior value, to true exactly when the page base
host is non-empty and is not an element of the request's subdomain list l (the value
checkRuleMatch takes from createSubdomainList(request host)); with the negated option
`~third-party` it sets blocked to true exactly when the base host is empty or an element of
l. These are the rules parseRuleLine builds for `$third-party` and `$~third-party`. -/
theorem resolveRuleOptions_third_party (isException needsDomainCheck : Bool)
    (request : QNetworkRequest) (baseUrlHost : QString) (l : List QString) (prior : Bool) :
    (resolveRuleOptions (optionRule ThirdPartyOption NoOption isException needsDomainCheck)
          request baseUrlHost l prior = true ↔
        baseUrlHost ≠ [] ∧ baseUrlHost ∉ l) ∧
      (resolveRuleOptions (optionRule ThirdPartyOption ThirdPartyOption isException needsDomainCheck)
          request baseUrlHost l prior = true ↔
        baseUrlHost = [] ∨ baseUrlHost ∈ l) ∧
      parseNetworkRule (qs "||ads.example.com^$third-party") =
        some (optionRule ThirdPartyOption NoOption false true, qs "ads.example.com") ∧
      parseNetworkRule (qs "||ads.example.com^$~third-party") =
        some (optionRule ThirdPartyOption ThirdPartyOption false true, qs "ads.example.com") := by
  have hfirst : (baseUrlHost.isEmpty || l.contains baseUrlHost) = true ↔
      baseUrlHost = [] ∨ baseUrlHost ∈ l := by
    rw [Bool.or_eq_true, List.isEmpty_iff, List.contains_iff_exists_mem_beq]
    simp
  refine ⟨?_, ?_, rfl, rfl⟩
  · rw [resolveRuleOptions_eq, resolveDomainLists_nil _ _ _ rfl rfl]
    simp only [optionRule]
    rw [← not_or, ← hfirst]
    generalize (baseUrlHost.isEmpty || l.contains baseUrlHost) = firstParty
    generalize contentTypeEvidence ImageOption request = image
    generalize contentTypeEvidence ScriptOption request = script
    generalize contentTypeEvidence StyleSheetOption request = styleSheet
    generalize contentTypeEvidence ObjectOption request = object
    generalize (request.xRequestedWith == qs "XMLHttpRequest") = xhr
    cases prior <;> cases firstParty <;> cases image <;> cases script <;> cases styleSheet <;>
      cases object <;> cases xhr <;> decide
  · rw [resolveRuleOptions_eq, resolveDomainLists_nil _ _ _ rfl rfl]
    simp only [optionRule]
    rw [← hfirst]
    generalize (baseUrlHost.isEmpty || l.contains baseUrlHost) = firstParty
    generalize contentTypeEvidence ImageOption request = image
    generalize contentTypeEvidence ScriptOption request = script
    generalize contentTypeEvidence StyleSheetOption request = styleSheet
    generalize contentTypeEvidence ObjectOption request = object
    generalize (request.xRequestedWith == qs "XMLHttpRequest") = xhr
    cases prior <;> cases firstParty <;> cases image <;> cases script <;> cases styleSheet <;>
      cases object <;> cases xhr <;> decide

/-- C16: for a rule with non-empty blockedDomains and no option bits, resolveRuleOptions
yields blocked = true exactly when the page base host contains at least one entry of
blockedDomains as a substring, whatever the prior blocked value and allowedDomains. -/
theorem resolveRuleOptions_blocked_domains (rule : ContentBlockingRule)
    (request : QNetworkRequest) (baseUrlHost : QString) (l : List QString) (prior : Bool)
    (hblocked : rule.blockedDomains ≠ []) (hopt : rule.ruleOption = NoOption) :
    resolveRuleOptions rule request baseUrlHost l prior = true ↔
      ∃ d ∈ rule.blockedDomains, contains baseUrlHost d = true := by
  rw [resolveRuleOptions_noOption rule request baseUrlHost l prior hopt]
  have hlen : rule.blockedDomains.length > 0 := List.length_pos.2 hblocked
  rw [if_pos hlen]
  exact resolveDomainExceptions_iff _ _

/-- C16 at a rule with blockedDomains = [example.com], allowedDomains = [shop.example.com],
on a page of shop.example.com, with the prior state false. -/
theorem resolveRuleOptions_blocked_domains_witness :
    (({ anchoredRule with blockedDomains := [qs "example.com"],
                          allowedDomains := [qs "shop.example.com"] } :
          ContentBlockingRule).blockedDomains ≠ [] ∧
        ({ anchoredRule with blockedDomains := [qs "example.com"],
                             allowedDomains := [qs "shop.example.com"] } :
          ContentBlockingRule).ruleOption = NoOption) ∧
      (resolveRuleOptions
          { anchoredRule with blockedDomains := [qs "example.com"],
                              allowedDomains := [qs "shop.example.com"] }
          adsRequest (qs "shop.example.com") [qs "example.com", qs "ads.example.com"] false = true ↔
        ∃ d ∈ ({ anchoredRule with blockedDomains := [qs "example.com"],
                                   allowedDomains := [qs "shop.example.com"] } :
                ContentBlockingRule).blockedDomains,
          contains (qs "shop.example.com") d = true) :=
  ⟨⟨by decide, rfl⟩,
    resolveRuleOptions_blocked_domains
      { anchoredRule with blockedDomains := [qs "example.com"],
                          allowedDomains := [qs "shop.example.com"] }
      adsRequest (qs "shop.example.com") [qs "example.com", qs "ads.example.com"] false
      (by decide) rfl⟩

/-- C18 (as amended): parseRuleLine splits a network-rule line at its first `$`. For a line
P$R in which P holds no `$`, the pattern is P and the options are the comma-separated tokens
of R, empty tokens dropped; `$` characters of R stay in the option text. -/
theorem parseNetworkRule_splits_at_first_dollar (P R : QString) (hP : '$' ∉ P) :
    parseNetworkRule (P ++ '$' :: R) = parsePattern P (splitCharSkipEmpty R ',') := by
  rw [parseNetworkRule_eq]
  unfold optionTokens
  rw [(takeWhile_before P R '$' hP).1, (takeWhile_before P R '$' hP).2]
  rfl

/-- C18 (as amended) at the line `ab$c$image`: pattern `ab`, option text `c$image`. -/
theorem parseNetworkRule_splits_at_first_dollar_witness :
    '$' ∉ qs "ab" ∧
      parseNetworkRule (qs "ab" ++ '$' :: qs "c$image") =
        parsePattern (qs "ab") (splitCharSkipEmpty (qs "c$image") ',') :=
  ⟨by decide, parseNetworkRule_splits_at_first_dollar (qs "ab") (qs "c$image") (by decide)⟩

/-- C18 as stated fails: the line `ab$c$image` is not parsed as the pattern `ab$c` before its
last `$` with the options after it; the rule is stored under `ab`, not under `ab$c`. -/
theorem parseNetworkRule_splits_at_last_dollar_counterexample :
    parseNetworkRule (qs "ab$c$image") ≠
        parsePattern (qs "ab$c") (splitCharSkipEmpty (qs "image") ',') ∧
      parseNetworkRule (qs "ab$c$image") = some (optionRule ImageOption NoOption false false, qs "ab") ∧
      parsePattern (qs "ab$c") (splitCharSkipEmpty (qs "image") ',') =
        some (optionRule ImageOption NoOption false false, qs "ab$c") := by
  decide

/-- C19 at the failing inputs: the lines `||ads.example.com^$object-subrequest`, with
`object_subrequest` and with `~object-subrequest` are accepted as rules with the object
option (the token contains `object`), and the profile of the first one holds one rule.
Lines with a token `subdocument` or `~subdocument` are rejected, wherever the token stands. -/
theorem object_subrequest_accepted_example (qt : QtServices) :
    parseNetworkRule (qs "||ads.example.com^$object-subrequest") =
        some (optionRule ObjectOption NoOption false true, qs "ads.example.com") ∧
      parseNetworkRule (qs "||ads.example.com^$object_subrequest") =
        some (optionRule ObjectOption NoOption false true, qs "ads.example.com") ∧
      parseNetworkRule (qs "||ads.example.com^$~object-subrequest") =
        some (optionRule ObjectOption ObjectOption false true, qs "ads.example.com") ∧
      ((ensureLoaded (profileOfLines qt
          ["[Adblock Plus 2.0]", "||ads.example.com^$object-subrequest"])).m_root.map
        Node.ruleCount) = some 1 ∧
      (∀ pattern before after,
        parsePattern pattern (before ++ qs "subdocument" :: after) = none ∧
          parsePattern pattern (before ++ qs "~subdocument" :: after) = none) := by
  refine ⟨rfl, rfl, rfl, rfl, ?_⟩
  intro pattern before after
  constructor
  · apply parsePattern_none_of_options
    apply parseOptions_none_of_mem (qs "subdocument")
    · intro rest rule
      exact parseOptions_noOptionWord _ (by decide) rest rule
    · simp
  · apply parsePattern_none_of_options
    apply parseOptions_none_of_mem (qs "~subdocument")
    · intro rest rule
      exact parseOptions_noOptionWord _ (by decide) rest rule
    · simp

/-- C20 (as amended): a network-rule line with at least one option token that contains none
of the words third-party, stylesheet, image, script, object, xmlhttprequest, domain as a
substring is rejected as a whole: no rule is built and parseRuleLine returns the profile
unchanged, even when other tokens of the line are recognised. -/
theorem parseRuleLine_unknown_option_rejected (p : ContentBlockingProfile) (line token : QString)
    (hhide : contains line (qs "##") = false) (hshow : contains line (qs "#@#") = false)
    (hmem : token ∈ optionTokens line) (hword : containsNoOptionWord token = true) :
    parseNetworkRule line = none ∧ parseRuleLine p line = p := by
  have hnone : parseNetworkRule line = none := by
    rw [parseNetworkRule_eq]
    apply parsePattern_none_of_options
    exact parseOptions_none_of_mem token (parseOptions_noOptionWord token hword) _ hmem
  exact ⟨hnone, parseRuleLine_of_none p line hhide hshow hnone⟩

/-- C20 (as amended) at the line `||ads.example.com^$image,document` and the loaded profile of
`||ads.example.com^`. -/
theorem parseRuleLine_unknown_option_rejected_witness :
    (contains (qs "||ads.example.com^$image,document") (qs "##") = false ∧
        contains (qs "||ads.example.com^$image,document") (qs "#@#") = false ∧
        qs "document" ∈ optionTokens (qs "||ads.example.com^$image,document") ∧
        containsNoOptionWord (qs "document") = true) ∧
      (parseNetworkRule (qs "||ads.example.com^$image,document") = none ∧
        parseRuleLine (ensureLoaded (profileOfLines exampleQt adsLines))
            (qs "||ads.example.com^$image,document") =
          ensureLoaded (profileOfLines exampleQt adsLines)) :=
  ⟨⟨by decide, by decide, by decide, by decide⟩,
    parseRuleLine_unknown_option_rejected (ensureLoaded (profileOfLines exampleQt adsLines))
      (qs "||ads.example.com^$image,document") (qs "document") (by decide) (by decide) (by decide)
      (by decide)⟩

/-- C20 as stated fails: the token `javascript` is neither one of the option keywords nor a
`domain=` token, yet the line `||ads.example.com^$javascript` is accepted as a rule with the
script option and the profile holding it has one rule in its trie. -/
theorem parseRuleLine_unknown_option_counterexample :
    isRecognisedToken (qs "javascript") = false ∧
      qs "javascript" ∈ optionTokens (qs "||ads.example.com^$javascript") ∧
      parseNetworkRule (qs "||ads.example.com^$javascript") =
        some (optionRule ScriptOption NoOption false true, qs "ads.example.com") ∧
      ((ensureLoaded (profileOfLines exampleQt
          ["[Adblock Plus 2.0]", "||ads.example.com^$javascript"])).m_root.map
        Node.ruleCount) = some 1 := by
  decide

/-- C29 at the failing input: for the host `.com` the loop of createSubdomainList is still
running after any number of iterations, so the call does not return. More generally the call
returns exactly for the hosts that do not start with a dot (the empty host included), and
then with max(1, d) entries, d being the number of dots of the host. -/
theorem createSubdomainList_entry_count (domain : QString) :
    (∀ fuel, createSubdomainListLoop (qs ".com") fuel
        (lastIndexOf (qs ".com") '.' (lastIndexOf (qs ".com") '.' (-1) - 1)) [] = none) ∧
      createSubdomainList (qs ".com") = none ∧
      createSubdomainList [] = some [[]] ∧
      (createSubdomainList domain).map List.length =
        if domain.get? 0 = some '.' then none else some (max 1 (domain.count '.')) := by
  refine ⟨fun fuel => createSubdomainList_forever (qs ".com") rfl fuel, by decide, by decide, ?_⟩
  by_cases h : domain.get? 0 = some '.'
  · rw [if_pos h, createSubdomainList_leading_dot domain h]
    rfl
  · rw [if_neg h, createSubdomainList_eq domain h]
    simp only [Option.map_some', List.length_append, List.length_map, List.length_drop,
      List.length_singleton, positionsBelow_length]
    congr 1
    omega

/-- C30: whenever createSubdomainList(host) returns, the last element of the list is the host
and every earlier element is a proper suffix of the host that starts right after one of its
dots and contains a dot itself; the earlier elements come in strictly increasing length. -/
theorem createSubdomainList_shape (domain : QString) (l : List QString)
    (h : createSubdomainList domain = some l) :
    l.getLast? = some domain ∧
      (∀ x ∈ l.dropLast, (∃ a, domain = a ++ '.' :: x) ∧ '.' ∈ x ∧ x.length < domain.length) ∧
      List.Pairwise (fun x y => x.length < y.length) l.dropLast := by
  by_cases h0 : domain.get? 0 = some '.'
  · rw [createSubdomainList_leading_dot domain h0] at h
    cases h
  · rw [createSubdomainList_eq domain h0] at h
    cases h
    rw [List.dropLast_concat]
    refine ⟨by simp, ?_, ?_⟩
    · intro x hx
      rw [List.mem_map] at hx
      obtain ⟨k, hk, rfl⟩ := hx
      cases hp : positionsBelow domain '.' domain.length with
      | nil => rw [hp] at hk; cases hk
      | cons k0 rest =>
        rw [hp] at hk
        simp only [List.drop_succ_cons, List.drop_zero] at hk
        obtain ⟨hrest, hk0, hget0⟩ := positionsBelow_cons domain '.' _ k0 rest hp
        rw [hrest, mem_positionsBelow] at hk
        refine ⟨⟨domain.take k, drop_eq_cons_of_get? domain k '.' hk.2⟩,
          mem_drop_of_get? domain k k0 '.' hk.1 hget0, ?_⟩
        rw [List.length_drop]
        omega
    · rw [List.pairwise_map]
      have hs := positionsBelow_sorted domain '.' domain.length
      have hs1 : List.Pairwise (fun a b => b < a) ((positionsBelow domain '.' domain.length).drop 1) :=
        hs.sublist (List.drop_sublist _ _)
      have hm : ∀ k ∈ (positionsBelow domain '.' domain.length).drop 1, k < domain.length := by
        intro k hk
        exact ((mem_positionsBelow domain '.' _ k).1 (List.mem_of_mem_drop hk)).1
      refine List.Pairwise.imp_of_mem ?_ hs1
      intro a b ha hb hab
      have := hm a ha
      have := hm b hb
      rw [List.length_drop, List.length_drop]
      omega

/-- C30 at the host a.b.example.co.uk. -/
theorem createSubdomainList_shape_witness :
    createSubdomainList (qs "a.b.example.co.uk") =
        some [qs "co.uk", qs "example.co.uk", qs "b.example.co.uk", qs "a.b.example.co.uk"] ∧
      ([qs "co.uk", qs "example.co.uk", qs "b.example.co.uk", qs "a.b.example.co.uk"].getLast? =
          some (qs "a.b.example.co.uk") ∧
        (∀ x ∈ [qs "co.uk", qs "example.co.uk", qs "b.example.co.uk",
              qs "a.b.example.co.uk"].dropLast,
          (∃ a, qs "a.b.example.co.uk" = a ++ '.' :: x) ∧ '.' ∈ x ∧
            x.length < (qs "a.b.example.co.uk").length) ∧
        List.Pairwise (fun x y => x.length < y.length)
          [qs "co.uk", qs "example.co.uk", qs "b.example.co.uk", qs "a.b.example.co.uk"].dropLast) :=
  ⟨by decide,
    createSubdomainList_shape (qs "a.b.example.co.uk")
      [qs "co.uk", qs "example.co.uk", qs "b.example.co.uk", qs "a.b.example.co.uk"] (by decide)⟩

/-- C27 as stated fails: the requests pageRequest and xhrPageRequest differ only in the header
`X-Requested-With: XMLHttpRequest`, the rule of `||ads.example.com^$xmlhttprequest` is in the
blocked state before option resolution for both, and resolveRuleOptions answers not blocked
for the first and blocked for the second; the profile holding that rule blocks only the
second. -/
theorem resolveRuleOptions_xmlhttprequest_counterexample :
    xhrPageRequest.url = pageRequest.url ∧ xhrPageRequest.host = pageRequest.host ∧
      xhrPageRequest.scheme = pageRequest.scheme ∧ xhrPageRequest.accept = pageRequest.accept ∧
      parseNetworkRule (qs "||ads.example.com^$xmlhttprequest") =
        some (optionRule XmlHttpRequestOption NoOption false true, qs "ads.example.com") ∧
      resolveRuleOptions (optionRule XmlHttpRequestOption NoOption false true) pageRequest []
        [qs "example.com", qs "ads.example.com"] true = false ∧
      resolveRuleOptions (optionRule XmlHttpRequestOption NoOption false true) xhrPageRequest []
        [qs "example.com", qs "ads.example.com"] true = true ∧
      blockedBy exampleQt ["[Adblock Plus 2.0]", "||ads.example.com^$xmlhttprequest"]
        pageRequest "" = some false ∧
      blockedBy exampleQt ["[Adblock Plus 2.0]", "||ads.example.com^$xmlhttprequest"]
        xhrPageRequest "" = some true := by
  decide

/-- C27 (as amended): the xmlhttprequest step of resolveRuleOptions is gated on the header
`X-Requested-With`. For a rule whose only option is xmlhttprequest and whose domain lists are
empty, the result is blocked = (prior blocked state and the header equals `XMLHttpRequest`);
for the negated option `~xmlhttprequest` it is (prior blocked state and the header differs
from `XMLHttpRequest`). So two requests that differ only in that header receive the same
decision exactly when the prior state is not blocked. -/
theorem resolveRuleOptions_xmlhttprequest (isException needsDomainCheck : Bool)
    (request : QNetworkRequest) (baseUrlHost : QString) (l : List QString) (prior : Bool) :
    resolveRuleOptions (optionRule XmlHttpRequestOption NoOption isException needsDomainCheck)
        request baseUrlHost l prior =
        (prior && (request.xRequestedWith == qs "XMLHttpRequest")) ∧
      resolveRuleOptions
        (optionRule XmlHttpRequestOption XmlHttpRequestOption isException needsDomainCheck)
        request baseUrlHost l prior =
        (prior && !(request.xRequestedWith == qs "XMLHttpRequest")) ∧
      parseNetworkRule (qs "||ads.example.com^$xmlhttprequest") =
        some (optionRule XmlHttpRequestOption NoOption false true, qs "ads.example.com") ∧
      parseNetworkRule (qs "||ads.example.com^$~xmlhttprequest") =
        some (optionRule XmlHttpRequestOption XmlHttpRequestOption false true,
          qs "ads.example.com") := by
  refine ⟨?_, ?_, rfl, rfl⟩
  all_goals
    rw [resolveRuleOptions_eq, resolveDomainLists_nil _ _ _ rfl rfl]
    simp only [optionRule]
    generalize (baseUrlHost.isEmpty || l.contains baseUrlHost) = firstParty
    generalize contentTypeEvidence ImageOption request = image
    generalize contentTypeEvidence ScriptOption request = script
    generalize contentTypeEvidence StyleSheetOption request = styleSheet
    generalize contentTypeEvidence ObjectOption request = object
    generalize (request.xRequestedWith == qs "XMLHttpRequest") = xhr
    cases prior <;> cases firstParty <;> cases image <;> cases script <;> cases styleSheet <;>
      cases object <;> cases xhr <;> decide

/-- C21 at the failing input: the token `domain=imageshack.us` contains the word `image`, so
the option loop takes it as the image option: the rule of
`||ads.example.com^$domain=imageshack.us` carries ImageOption and empty domain lists, it
blocks the banner image on a page of other.example and does not block the page request on a
page of imageshack.us. The token `domain=a|~b|c` is parsed as claimed: no option bit,
blockedDomains = [a, c], allowedDomains = [b]. -/
theorem domain_option_taken_for_image_example :
    contains (qs "domain=imageshack.us") (qs "image") = true ∧
      parseNetworkRule (qs "||ads.example.com^$domain=imageshack.us") =
        some (optionRule ImageOption NoOption false true, qs "ads.example.com") ∧
      blockedBy exampleQt ["[Adblock Plus 2.0]", "||ads.example.com^$domain=imageshack.us"]
        adsRequest "other.example" = some true ∧
      blockedBy exampleQt ["[Adblock Plus 2.0]", "||ads.example.com^$domain=imageshack.us"]
        pageRequest "imageshack.us" = some false ∧
      parseNetworkRule (qs "||ads.example.com^$domain=a|~b|c") =
        some ({ blockedDomains := [qs "a", qs "c"], allowedDomains := [qs "b"],
                ruleOption := NoOption, exceptionRuleOption := NoOption, isException := false,
                needsDomainCheck := true }, qs "ads.example.com") ∧
      blockedBy exampleQt ["[Adblock Plus 2.0]", "||ads.example.com^$domain=shop.example"]
        adsRequest "other.example" = some false ∧
      blockedBy exampleQt ["[Adblock Plus 2.0]", "||ads.example.com^$domain=shop.example"]
        pageRequest "shop.example" = some true := by
  decide

/-- C24 at the failing input: the line `example.com#@##banner` contains `##`, so parseRuleLine
takes the branch of the `##` lines: the pair (`example.com#@`, `banner`) is added to the
cosmetic block map and nothing to the cosmetic exception map. For the class selector of
`example.com,example.org#@#.banner` the pairs (example.com, .banner), (example.org, .banner)
are added to the exception map and nothing to the block map. -/
theorem exception_id_selector_example (p : ContentBlockingProfile) :
    contains (qs "example.com#@##banner") (qs "##") = true ∧
      (parseRuleLine p (qs "example.com#@##banner")).m_styleSheetBlackList =
        p.m_styleSheetBlackList ++ [(qs "example.com#@", qs "banner")] ∧
      (parseRuleLine p (qs "example.com#@##banner")).m_styleSheetWhiteList =
        p.m_styleSheetWhiteList ∧
      (parseRuleLine p (qs "example.com,example.org#@#.banner")).m_styleSheetWhiteList =
        p.m_styleSheetWhiteList ++
          [(qs "example.com", qs ".banner"), (qs "example.org", qs ".banner")] ∧
      (parseRuleLine p (qs "example.com,example.org#@#.banner")).m_styleSheetBlackList =
        p.m_styleSheetBlackList :=
  ⟨rfl, rfl, rfl, rfl, rfl⟩

/-- C25 at the failing input: for the registry holding the profile of the exception line
`example.com#@##banner`, getStyleSheetWhiteList returns nothing and getStyleSheetBlackList
returns the pair (`example.com#@`, `banner`): the pair of a `#@#` line is in the block list.
The registry itself does not swap the maps: for every registry and index list,
getStyleSheetBlackList adds up the block maps (the maps filled from the `##` branch of
parseRuleLine) of the loaded profiles named by the in-range indices and
getStyleSheetWhiteList adds up their exception maps, as for the lines
`example.com#@#.banner` and `example.org##.ad`. -/
theorem exception_line_registry_example (m_profiles : List ContentBlockingProfile)
    (profiles : List Int) :
    (ContentBlockingManager.getStyleSheetWhiteList
        [profileOfLines exampleQt ["[Adblock Plus 2.0]", "example.com#@##banner"]] [0]).1 = [] ∧
      (ContentBlockingManager.getStyleSheetBlackList
        [profileOfLines exampleQt ["[Adblock Plus 2.0]", "example.com#@##banner"]] [0]).1 =
        [(qs "example.com#@", qs "banner")] ∧
      (ContentBlockingManager.getStyleSheetWhiteList
        [profileOfLines exampleQt
          ["[Adblock Plus 2.0]", "example.com#@#.banner", "example.org##.ad"]] [-1, 0, 5]).1 =
        [(qs "example.com", qs ".banner")] ∧
      (ContentBlockingManager.getStyleSheetBlackList
        [profileOfLines exampleQt
          ["[Adblock Plus 2.0]", "example.com#@#.banner", "example.org##.ad"]] [-1, 0, 5]).1 =
        [(qs "example.org", qs ".ad")] ∧
      (ContentBlockingManager.getStyleSheetBlackList m_profiles profiles).1 =
        (profiles.filter (fun k => decide (0 ≤ k ∧ k < (m_profiles.length : Int)))).flatMap
          (fun k => match m_profiles.get? k.toNat with
            | some p => (ensureLoaded p).m_styleSheetBlackList
            | none => []) ∧
      (ContentBlockingManager.getStyleSheetWhiteList m_profiles profiles).1 =
        (profiles.filter (fun k => decide (0 ≤ k ∧ k < (m_profiles.length : Int)))).flatMap
          (fun k => match m_profiles.get? k.toNat with
            | some p => (ensureLoaded p).m_styleSheetWhiteList
            | none => []) := by
  refine ⟨by decide, by decide, by decide, by decide, ?_, ?_⟩
  · unfold ContentBlockingManager.getStyleSheetBlackList
    rw [(styleSheetListLoop_eq ContentBlockingProfile.getStyleSheetWhiteList
      (fun p => p.m_styleSheetBlackList) (fun _ => rfl) m_profiles profiles m_profiles [] rfl).1,
      List.nil_append]
  · unfold ContentBlockingManager.getStyleSheetWhiteList
    rw [(styleSheetListLoop_eq ContentBlockingProfile.getStyleSheetBlackList
      (fun p => p.m_styleSheetWhiteList) (fun _ => rfl) m_profiles profiles m_profiles [] rfl).1,
      List.nil_append]

/-- C22 (as amended): for every line P·A with prefix P in {empty, `@@`, `||`, `@@||`} and a
non-empty body A that contains none of `*`, `^`, `$`, `#`, does not start with `!`, `@@` or
`||` and does not end with `|`, parseRuleLine inserts one rule at the trie key A, with
isException = (P starts with `@@`), needsDomainCheck = (P ends with `||`), both option masks
empty and both domain lists empty: afterwards the walk of A finds that rule and the walk of
every other string finds what it found before. -/
theorem parseRuleLine_prefix_flags (p : ContentBlockingProfile) (P A : QString)
    (hP : P ∈ [[], qs "@@", qs "||", qs "@@||"]) (hne : A ≠ [])
    (hchars : ∀ c ∈ A, c ≠ '*' ∧ c ≠ '^' ∧ c ≠ '$' ∧ c ≠ '#')
    (hbang : startsWithChar A '!' = false) (hat : startsWith A (qs "@@") = false)
    (hbar : startsWith A (qs "||") = false) (hend : A.getLast? ≠ some '|') :
    parseNetworkRule (P ++ A) =
        some (optionRule NoOption NoOption (startsWith P (qs "@@")) (endsWith P (qs "||")), A) ∧
      parseRuleLine p (P ++ A) =
        { p with
          m_root := p.m_root.map (addRule
            (optionRule NoOption NoOption (startsWith P (qs "@@")) (endsWith P (qs "||"))) A) } ∧
      ∀ root : Node,
        ruleAt A (addRule
            (optionRule NoOption NoOption (startsWith P (qs "@@")) (endsWith P (qs "||"))) A root) =
          some (optionRule NoOption NoOption (startsWith P (qs "@@")) (endsWith P (qs "||"))) ∧
        ∀ b, b ≠ A →
          ruleAt b (addRule
              (optionRule NoOption NoOption (startsWith P (qs "@@")) (endsWith P (qs "||"))) A root) =
            ruleAt b root := by
  have hPchars : ∀ c ∈ P, c = '@' ∨ c = '|' := by
    intro c hc
    simp only [List.mem_cons, List.mem_singleton, List.not_mem_nil, or_false] at hP
    rcases hP with h | h | h | h <;> subst h <;> simp [qs] at hc <;> tauto
  have hPbang : startsWithChar (P ++ A) '!' = false := by
    simp only [List.mem_cons, List.mem_singleton, List.not_mem_nil, or_false] at hP
    rcases hP with h | h | h | h <;> subst h
    · exact hbang
    · rfl
    · rfl
    · rfl
  have hline : P ++ A ≠ [] := by
    intro h
    exact hne (List.append_eq_nil.1 h).2
  have hmem : ∀ c ∈ P ++ A, c ≠ '*' ∧ c ≠ '^' ∧ c ≠ '$' ∧ c ≠ '#' := by
    intro c hc
    rcases List.mem_append.1 hc with h | h
    · rcases hPchars c h with h1 | h1 <;> subst h1 <;> decide
    · exact hchars c h
  have hlast : (P ++ A).getLast? ≠ some '|' := by
    rw [List.getLast?_append_of_ne_nil _ hne]
    exact hend
  have hnet : parseNetworkRule (P ++ A) =
      some (optionRule NoOption NoOption (startsWith P (qs "@@")) (endsWith P (qs "||")), A) := by
    rw [parseNetworkRule_plain (P ++ A) hline
      (fun c hc => ⟨(hmem c hc).1, (hmem c hc).2.1, (hmem c hc).2.2.1⟩) hlast]
    have hA2 : mid ('@' :: '@' :: A) 2 = A := mid_drop ('@' :: '@' :: A) 2 (by simp)
    have hB2 : mid ('|' :: '|' :: A) 2 = A := mid_drop ('|' :: '|' :: A) 2 (by simp)
    have hC2 : mid ('@' :: '@' :: '|' :: '|' :: A) 2 = '|' :: '|' :: A :=
      mid_drop ('@' :: '@' :: '|' :: '|' :: A) 2 (by simp)
    simp only [List.mem_cons, List.mem_singleton, List.not_mem_nil, or_false] at hP
    rcases hP with h | h | h | h <;> subst h
    · have e1 : startsWith ([] : QString) (qs "@@") = false := rfl
      have e2 : endsWith ([] : QString) (qs "||") = false := rfl
      rw [List.nil_append, hat, e1, e2]
      simp only [Bool.false_eq_true, if_false, hbar]
    · have e0 : qs "@@" ++ A = '@' :: '@' :: A := rfl
      have e1 : startsWith (qs "@@") (qs "@@") = true := rfl
      have e2 : endsWith (qs "@@") (qs "||") = false := rfl
      have e3 : startsWith ('@' :: '@' :: A) (qs "@@") = true := startsWith_append (qs "@@") A
      rw [e0, e1, e2, e3]
      simp only [if_true, hA2, hbar, Bool.false_eq_true, if_false]
    · have e0 : qs "||" ++ A = '|' :: '|' :: A := rfl
      have e1 : startsWith (qs "||") (qs "@@") = false := rfl
      have e2 : endsWith (qs "||") (qs "||") = true := rfl
      have e3 : startsWith ('|' :: '|' :: A) (qs "@@") = false := rfl
      have e4 : startsWith ('|' :: '|' :: A) (qs "||") = true := startsWith_append (qs "||") A
      rw [e0, e1, e2, e3]
      simp only [Bool.false_eq_true, if_false, e4, if_true, hB2]
    · have e0 : qs "@@||" ++ A = '@' :: '@' :: '|' :: '|' :: A := rfl
      have e1 : startsWith (qs "@@||") (qs "@@") = true := rfl
      have e2 : endsWith (qs "@@||") (qs "||") = true := rfl
      have e3 : startsWith ('@' :: '@' :: '|' :: '|' :: A) (qs "@@") = true := rfl
      have e4 : startsWith ('|' :: '|' :: A) (qs "||") = true := startsWith_append (qs "||") A
      rw [e0, e1, e2, e3]
      simp only [if_true, hC2, e4, hB2]
  refine ⟨hnet, ?_, ?_⟩
  · exact parseRuleLine_network p (P ++ A) hPbang hline
      (not_contains_of_not_mem _ _ '#' (by decide) (fun hm => (hmem _ hm).2.2.2 rfl))
      (not_contains_of_not_mem _ _ '#' (by decide) (fun hm => (hmem _ hm).2.2.2 rfl)) _ _ hnet
  · intro root
    exact ⟨ruleAt_addRule_self _ A root, fun b hb => ruleAt_addRule_other _ A b hb root⟩

/-- C22 (as amended) at the line `@@||ads.example.com/ok` and the loaded profile of
`||ads.example.com^`. -/
theorem parseRuleLine_prefix_flags_witness :
    parseNetworkRule (qs "@@||" ++ qs "ads.example.com/ok") =
        some (optionRule NoOption NoOption (startsWith (qs "@@||") (qs "@@"))
          (endsWith (qs "@@||") (qs "||")), qs "ads.example.com/ok") ∧
      optionRule NoOption NoOption (startsWith (qs "@@||") (qs "@@"))
          (endsWith (qs "@@||") (qs "||")) = optionRule NoOption NoOption true true ∧
      parseRuleLine (ensureLoaded (profileOfLines exampleQt adsLines))
          (qs "@@||" ++ qs "ads.example.com/ok") =
        { ensureLoaded (profileOfLines exampleQt adsLines) with
          m_root := (ensureLoaded (profileOfLines exampleQt adsLines)).m_root.map
            (addRule (optionRule NoOption NoOption (startsWith (qs "@@||") (qs "@@"))
              (endsWith (qs "@@||") (qs "||"))) (qs "ads.example.com/ok")) } :=
  ⟨(parseRuleLine_prefix_flags (ensureLoaded (profileOfLines exampleQt adsLines)) (qs "@@||")
      (qs "ads.example.com/ok") (by decide) (by decide) (by decide) (by decide) (by decide)
      (by decide) (by decide)).1,
    by decide,
    (parseRuleLine_prefix_flags (ensureLoaded (profileOfLines exampleQt adsLines)) (qs "@@||")
      (qs "ads.example.com/ok") (by decide) (by decide) (by decide) (by decide) (by decide)
      (by decide) (by decide)).2.1⟩

/-- C22 as stated fails for the empty body, which meets every condition of the claim: the
line `||` is stored with needsDomainCheck = false although its prefix ends with `||`, so is
the line `@@||`, and the empty line (empty prefix, empty body) inserts no rule at all. -/
theorem parseRuleLine_empty_body_counterexample :
    ((∀ c ∈ ([] : QString), c ≠ '*' ∧ c ≠ '^' ∧ c ≠ '$' ∧ c ≠ '#') ∧
        startsWithChar ([] : QString) '!' = false ∧ startsWith ([] : QString) (qs "@@") = false ∧
        startsWith ([] : QString) (qs "||") = false ∧ ([] : QString).getLast? ≠ some '|') ∧
      endsWith (qs "||") (qs "||") = true ∧
      parseNetworkRule (qs "||" ++ []) = some (optionRule NoOption NoOption false false, []) ∧
      parseNetworkRule (qs "@@||" ++ []) = some (optionRule NoOption NoOption true false, []) ∧
      (parseRuleLine (ensureLoaded (profileOfLines exampleQt adsLines)) ([] ++ [])).m_root =
        (ensureLoaded (profileOfLines exampleQt adsLines)).m_root ∧
      ((parseRuleLine (ensureLoaded (profileOfLines exampleQt adsLines)) ([] ++ [])).m_root.bind
          (ruleAt [])) = none :=
  ⟨⟨by decide, by decide, by decide, by decide, by decide⟩, by decide, by decide, by decide, rfl,
    by decide⟩

/-- C23: for every line `d1,d2,...,dk##S` whose domain names contain neither `,` nor `#`,
with a non-empty left-hand side that does not start with `!` and a selector S not containing
`##`, parseRuleLine adds exactly the pairs (d1, S), ..., (dk, S) to the cosmetic block map,
after the pairs it holds, and changes nothing else: the trie, the cosmetic exception map and
the generic style sheet stay as they are. -/
theorem parseRuleLine_hide_rule (p : ContentBlockingProfile) (ds : List QString) (S : QString)
    (hne : List.intercalate [','] ds ≠ []) (hds : ∀ d ∈ ds, ',' ∉ d ∧ '#' ∉ d)
    (hbang : startsWithChar (List.intercalate [','] ds) '!' = false)
    (hS : contains S (qs "##") = false) :
    parseRuleLine p (List.intercalate [','] ds ++ qs "##" ++ S) =
      { p with
        m_styleSheetBlackList := p.m_styleSheetBlackList ++ ds.map (fun d => (d, S)) } := by
  have hL : '#' ∉ List.intercalate [','] ds := by
    intro h
    rcases mem_intercalate ',' '#' ds h with h1 | ⟨d, hd, hcd⟩
    · cases h1
    · exact (hds d hd).2 hcd
  have hds0 : ds ≠ [] := by
    intro h
    rw [h] at hne
    exact hne rfl
  rw [parseRuleLine_hide p _ S hne hL hbang hS,
    splitChar_intercalate ',' ds hds0 (fun d hd => (hds d hd).1)]

/-- C23 at the line `example.com,example.org###promo` (the id selector `#promo`) and the
loaded profile of `||ads.example.com^`: the two pairs are added to the block map, the trie,
the exception map and the style sheet are unchanged. -/
theorem parseRuleLine_hide_rule_witness :
    List.intercalate [','] [qs "example.com", qs "example.org"] ++ qs "##" ++ qs "#promo" =
        qs "example.com,example.org###promo" ∧
      parseRuleLine (ensureLoaded (profileOfLines exampleQt adsLines))
          (List.intercalate [','] [qs "example.com", qs "example.org"] ++ qs "##" ++ qs "#promo") =
        { ensureLoaded (profileOfLines exampleQt adsLines) with
          m_styleSheetBlackList :=
            (ensureLoaded (profileOfLines exampleQt adsLines)).m_styleSheetBlackList ++
              [qs "example.com", qs "example.org"].map (fun d => (d, qs "#promo")) } :=
  ⟨by decide,
    parseRuleLine_hide_rule (ensureLoaded (profileOfLines exampleQt adsLines))
      [qs "example.com", qs "example.org"] (qs "#promo") (by decide) (by decide) (by decide)
      (by decide)⟩

/-- C26: with the content hash a fixed function, when the second downloaded line contains
`! Checksum: ` and the base64 text, `=` removed, of the hash of (first line + all bytes after
the second line) differs from the declared value (the second line without `! Checksum: ` and
without line feeds), updateDownloaded changes nothing: the profile after the call is the
profile before it, with the same file contents, trie, generic style sheet, cosmetic maps and
isUpToDate flag. -/
theorem updateDownloaded_checksum_mismatch (qt : QtServices) (env : UpdateServices)
    (p : ContentBlockingProfile) (reply : QNetworkReply)
    (hsum : contains (downloadedDataChecksum reply) (qs "! Checksum: ") = true)
    (hdiff : removeStr (env.md5Base64 (downloadedDataHeader reply ++ downloadedData reply)) (qs "=") ≠
      removeStr (removeStr (downloadedDataChecksum reply) (qs "! Checksum: ")) (qs "\n")) :
    updateDownloaded qt env p reply = p := by
  unfold updateDownloaded
  have h : (contains (downloadedDataChecksum reply) (qs "! Checksum: ") &&
      removeStr (env.md5Base64 (downloadedDataHeader reply ++ downloadedData reply)) (qs "=") !=
        removeStr (removeStr (downloadedDataChecksum reply) (qs "! Checksum: ")) (qs "\n")) = true := by
    rw [hsum, Bool.true_and, bne_iff_ne]
    exact hdiff
  rw [h]
  simp only [if_true]
  split
  · rfl
  · split <;> rfl

/-- C26 at the profile of cosmeticLines and a reply declaring the checksum `AAAA`, the hash
being `1B2M2Y8AsgTpgAmY7PhCfg==`: nothing changes. With the declared checksum
`1B2M2Y8AsgTpgAmY7PhCfg` the same reply is accepted: the profile is marked up to date and its
trie then blocks the tracker request and no longer the banner. -/
theorem updateDownloaded_checksum_mismatch_witness :
    contains (downloadedDataChecksum (replyWithChecksum "AAAA")) (qs "! Checksum: ") = true ∧
      removeStr ((exampleUpdate true).md5Base64
          (downloadedDataHeader (replyWithChecksum "AAAA") ++
            downloadedData (replyWithChecksum "AAAA"))) (qs "=") ≠
        removeStr (removeStr (downloadedDataChecksum (replyWithChecksum "AAAA"))
          (qs "! Checksum: ")) (qs "\n") ∧
      updateDownloaded exampleQt (exampleUpdate true) updatingProfile (replyWithChecksum "AAAA") =
        updatingProfile ∧
      (updateDownloaded exampleQt (exampleUpdate true) updatingProfile
          (replyWithChecksum "1B2M2Y8AsgTpgAmY7PhCfg")).m_information.isUpToDate = true ∧
      updatingProfile.m_information.isUpToDate = false ∧
      ((updateDownloaded exampleQt (exampleUpdate true) updatingProfile
          (replyWithChecksum "1B2M2Y8AsgTpgAmY7PhCfg")).isUrlBlocked trackerRequest
            { host := [] }).map Prod.fst = some true ∧
      ((updateDownloaded exampleQt (exampleUpdate true) updatingProfile
          (replyWithChecksum "1B2M2Y8AsgTpgAmY7PhCfg")).isUrlBlocked adsRequest
            { host := [] }).map Prod.fst = some false :=
  ⟨by decide, by decide,
    updateDownloaded_checksum_mismatch exampleQt (exampleUpdate true) updatingProfile
      (replyWithChecksum "AAAA") (by decide) (by decide),
    by decide, by decide, by decide, by decide⟩

/-- C28 as stated fails: the reply passes the header and checksum validation, the file of the
profile cannot be opened for writing, and updateDownloaded leaves the in-memory state as it
was: the profile is not marked up to date, it keeps its generic style sheet and its cosmetic
maps, and its old trie still blocks the banner and not the tracker of the download. When the
file can be opened, the same reply updates all of them. -/
theorem updateDownloaded_open_failure_counterexample :
    (replyWithChecksum "1B2M2Y8AsgTpgAmY7PhCfg").error = false ∧
      startsWith (trimmedBytes (downloadedDataHeader (replyWithChecksum "1B2M2Y8AsgTpgAmY7PhCfg")))
        (qs "[Adblock Plus 2.") = true ∧
      removeStr ((exampleUpdate false).md5Base64
          (downloadedDataHeader (replyWithChecksum "1B2M2Y8AsgTpgAmY7PhCfg") ++
            downloadedData (replyWithChecksum "1B2M2Y8AsgTpgAmY7PhCfg"))) (qs "=") =
        removeStr (removeStr (downloadedDataChecksum (replyWithChecksum "1B2M2Y8AsgTpgAmY7PhCfg"))
          (qs "! Checksum: ")) (qs "\n") ∧
      (updateDownloaded exampleQt (exampleUpdate false) updatingProfile
          (replyWithChecksum "1B2M2Y8AsgTpgAmY7PhCfg")).m_information.isUpToDate = false ∧
      (updateDownloaded exampleQt (exampleUpdate false) updatingProfile
          (replyWithChecksum "1B2M2Y8AsgTpgAmY7PhCfg")).m_styleSheet =
        qs ".ad\x7bdisplay:none;\x7d" ∧
      (updateDownloaded exampleQt (exampleUpdate false) updatingProfile
          (replyWithChecksum "1B2M2Y8AsgTpgAmY7PhCfg")).m_styleSheetBlackList =
        [(qs "example.com", qs ".banner"), (qs "example.org", qs ".banner"),
          (qs "shop.example", qs "#promo")] ∧
      ((updateDownloaded exampleQt (exampleUpdate false) updatingProfile
          (replyWithChecksum "1B2M2Y8AsgTpgAmY7PhCfg")).isUrlBlocked adsRequest
            { host := [] }).map Prod.fst = some true ∧
      ((updateDownloaded exampleQt (exampleUpdate false) updatingProfile
          (replyWithChecksum "1B2M2Y8AsgTpgAmY7PhCfg")).isUrlBlocked trackerRequest
            { host := [] }).map Prod.fst = some false ∧
      (updateDownloaded exampleQt (exampleUpdate true) updatingProfile
          (replyWithChecksum "1B2M2Y8AsgTpgAmY7PhCfg")).m_information.isUpToDate = true ∧
      (updateDownloaded exampleQt (exampleUpdate true) updatingProfile
          (replyWithChecksum "1B2M2Y8AsgTpgAmY7PhCfg")).m_styleSheet = [] ∧
      (updateDownloaded exampleQt (exampleUpdate true) updatingProfile
          (replyWithChecksum "1B2M2Y8AsgTpgAmY7PhCfg")).m_styleSheetBlackList = [] := by
  decide

/-- C28 (as amended): when the local file cannot be opened for writing, updateDownloaded
returns before it touches the profile, whether or not the download passes the header and
checksum validation: the profile after the call is the profile before it, with its old trie,
generic style sheet, cosmetic maps and isUpToDate flag, and the file keeps its contents. -/
theorem updateDownloaded_open_failure (qt : QtServices) (env : UpdateServices)
    (p : ContentBlockingProfile) (reply : QNetworkReply)
    (hopen : env.canOpenForWriting = false) :
    updateDownloaded qt env p reply = p := by
  unfold updateDownloaded
  rw [hopen]
  simp only [Bool.not_false, if_true]
  split
  · rfl
  · split
    · rfl
    · split <;> rfl

/-- C28 (as amended) at the profile of cosmeticLines and a reply that passes the
validation. -/
theorem updateDownloaded_open_failure_witness :
    (exampleUpdate false).canOpenForWriting = false ∧
      updateDownloaded exampleQt (exampleUpdate false) updatingProfile
          (replyWithChecksum "1B2M2Y8AsgTpgAmY7PhCfg") = updatingProfile :=
  ⟨rfl,
    updateDownloaded_open_failure exampleQt (exampleUpdate false) updatingProfile
      (replyWithChecksum "1B2M2Y8AsgTpgAmY7PhCfg") rfl⟩

/-- C32: content-type options combine as a conjunction. For a rule carrying a non-negated
option o among image, script, stylesheet, object and xmlhttprequest (alone or with others),
resolveRuleOptions returns blocked = true only if the request shows evidence for o and the
state was blocked after the domain and third-party steps, and lacking evidence for o yields
blocked = false. The result is exactly the conjunction of that state with what each of the
five options asks of the request. -/
theorem resolveRuleOptions_options_conjunction (rule : ContentBlockingRule)
    (request : QNetworkRequest) (baseUrlHost : QString) (l : List QString) (prior : Bool)
    (o : Nat)
    (ho : o ∈ [ImageOption, ScriptOption, StyleSheetOption, ObjectOption, XmlHttpRequestOption])
    (hcarried : hasOption rule.ruleOption o = true)
    (hplain : hasOption rule.exceptionRuleOption o = false) :
    (resolveRuleOptions rule request baseUrlHost l prior = true →
        requestEvidence o request = true ∧ stateAfterThirdParty rule baseUrlHost l prior = true) ∧
      (requestEvidence o request = false →
        resolveRuleOptions rule request baseUrlHost l prior = false) ∧
      resolveRuleOptions rule request baseUrlHost l prior =
        (stateAfterThirdParty rule baseUrlHost l prior &&
          optionSatisfied rule ImageOption request && optionSatisfied rule ScriptOption request &&
          optionSatisfied rule StyleSheetOption request &&
          optionSatisfied rule ObjectOption request &&
          optionSatisfied rule XmlHttpRequestOption request) := by
  have hsat : optionSatisfied rule o request = requestEvidence o request := by
    unfold optionSatisfied
    rw [hcarried, hplain]
    rfl
  have hconj := resolveRuleOptions_conjunction rule request baseUrlHost l prior
  have htrue : resolveRuleOptions rule request baseUrlHost l prior = true →
      requestEvidence o request = true ∧ stateAfterThirdParty rule baseUrlHost l prior = true := by
    intro h
    rw [hconj] at h
    simp only [Bool.and_eq_true] at h
    obtain ⟨⟨⟨⟨⟨h0, h1⟩, h2⟩, h3⟩, h4⟩, h5⟩ := h
    refine ⟨?_, h0⟩
    rw [← hsat]
    simp only [List.mem_cons, List.mem_singleton, List.not_mem_nil, or_false] at ho
    rcases ho with e | e | e | e | e <;> subst e <;> assumption
  refine ⟨htrue, ?_, hconj⟩
  intro hev
  cases hr : resolveRuleOptions rule request baseUrlHost l prior with
  | false => rfl
  | true =>
    have := (htrue hr).1
    rw [hev] at this
    cases this

/-- C32 at the rule of `||ads.example.com^$image,script`, blocked before the option steps:
the request for the banner shows image evidence and no script evidence and is not blocked;
the same request with an Accept header naming scripts shows both and is blocked. -/
theorem resolveRuleOptions_options_conjunction_witness :
    parseNetworkRule (qs "||ads.example.com^$image,script") =
        some (optionRule (ImageOption ||| ScriptOption) NoOption false true,
          qs "ads.example.com") ∧
      requestEvidence ImageOption adsRequest = true ∧
      requestEvidence ScriptOption adsRequest = false ∧
      resolveRuleOptions (optionRule (ImageOption ||| ScriptOption) NoOption false true)
        adsRequest [] [qs "example.com", qs "ads.example.com"] true = false ∧
      requestEvidence ImageOption scriptImageRequest = true ∧
      requestEvidence ScriptOption scriptImageRequest = true ∧
      resolveRuleOptions (optionRule (ImageOption ||| ScriptOption) NoOption false true)
        scriptImageRequest [] [qs "example.com", qs "ads.example.com"] true = true ∧
      blockedBy exampleQt ["[Adblock Plus 2.0]", "||ads.example.com^$image,script"]
        adsRequest "" = some false ∧
      blockedBy exampleQt ["[Adblock Plus 2.0]", "||ads.example.com^$image,script"]
        scriptImageRequest "" = some true :=
  ⟨by decide, by decide, by decide,
    (resolveRuleOptions_options_conjunction
      (optionRule (ImageOption ||| ScriptOption) NoOption false true) adsRequest []
      [qs "example.com", qs "ads.example.com"] true ScriptOption (by decide) (by decide)
      (by decide)).2.1 (by decide),
    by decide, by decide, by decide, by decide, by decide⟩

/-- C33: starting from an empty root and applying any sequence of addRule calls, the trie
keeps its structural invariant: no node has two children with the same character value, the
root owns a rule exactly when the empty anchor was inserted, and the walk of a string s from
the root ends at a rule-owning node if and only if s equals an anchor inserted earlier; the
rule found there is the one of the last call for that anchor. -/
theorem trie_invariant (calls : List (ContentBlockingRule × QString)) :
    (trieOf calls).distinctSiblings = true ∧
      ((trieOf calls).rule.isSome = true ↔ [] ∈ calls.map Prod.snd) ∧
      (∀ s, (ruleAt s (trieOf calls)).isSome = true ↔ s ∈ calls.map Prod.snd) ∧
      (∀ s, ruleAt s (trieOf calls) =
        (calls.reverse.find? (fun call => decide (call.2 = s))).map Prod.fst) ∧
      ruleAt (qs "ad") (trieOf [(anchoredRule, qs "ads"), (plainRule, qs "adv")]) = none ∧
      ruleAt (qs "ads") (trieOf [(anchoredRule, qs "ads"), (plainRule, qs "adv")]) =
        some anchoredRule := by
  obtain ⟨h1, h2⟩ := foldl_addRule_facts calls Node.empty (distinctSiblings_leaf _ none)
  have h3 : ∀ s, (ruleAt s (trieOf calls)).isSome = true ↔ s ∈ calls.map Prod.snd := by
    intro s
    unfold trieOf
    rw [h2 s]
    have : ruleAt s Node.empty = none := ruleAt_leaf s _
    rw [this]
    simp
  refine ⟨h1, h3 [], h3, ?_, by decide, by decide⟩
  intro s
  unfold trieOf
  rw [foldl_addRule_ruleAt]
  cases calls.reverse.find? (fun call => decide (call.2 = s)) with
  | some found => rfl
  | none => exact ruleAt_leaf s _

/-- C34: a successful update does not start another update. When the reply is the one in
flight, carries no error, has a valid header line, passes the checksum test and the file can
be opened for writing, updateDownloaded marks the profile up to date before it reloads, and
the load() it makes does not call downloadUpdate: whatever action `download` stands for that
call, the profile after updateDownloaded is the one load gives with it, for every file
written (an empty body included) and every answer of the date and URL services. The profile
stays marked up to date and the reply handle is the one of the finished download. -/
theorem update_starts_no_download (download : ContentBlockingProfile → ContentBlockingProfile)
    (qt : QtServices) (env : UpdateServices) (p : ContentBlockingProfile) (reply : QNetworkReply)
    (hreply : p.m_networkReply = some reply.request) (herror : reply.error = false)
    (hheader : startsWith (trimmedBytes (downloadedDataHeader reply)) (qs "[Adblock Plus 2.") = true)
    (hsum : contains (downloadedDataChecksum reply) (qs "! Checksum: ") = true →
      removeStr (env.md5Base64 (downloadedDataHeader reply ++ downloadedData reply)) (qs "=") =
        removeStr (removeStr (downloadedDataChecksum reply) (qs "! Checksum: ")) (qs "\n"))
    (hopen : env.canOpenForWriting = true) :
    (stateBeforeReload env p reply).m_information.isUpToDate = true ∧
      updateDownloaded qt env p reply =
        load qt (stateBeforeReload env p reply) onlyHeaderDefault ∧
      updateDownloaded qt env p reply =
        loadWith download qt (stateBeforeReload env p reply) onlyHeaderDefault ∧
      (updateDownloaded qt env p reply).m_information.isUpToDate = true ∧
      (updateDownloaded qt env p reply).m_networkReply = p.m_networkReply := by
  have hup : (stateBeforeReload env p reply).m_information.isUpToDate = true := rfl
  have hs := updateDownloaded_success qt env p reply hreply herror hheader hsum hopen
  have hid : updateDownloaded qt env p reply =
      loadWith (fun q => q) qt (stateBeforeReload env p reply) onlyHeaderDefault := by
    rw [hs, load_eq_loadWith, loadWith_upToDate downloadUpdate qt _ _ hup]
  refine ⟨hup, hs, ?_, ?_, ?_⟩
  · rw [hid, loadWith_upToDate download qt _ _ hup]
  · rw [hid, (loadWith_id_facts qt _ _).2]
    exact hup
  · rw [hid, (loadWith_id_facts qt _ _).1]
    rfl

/-- C34 at the profile of cosmeticLines, a reply whose written file has an empty body, and
services under which every URL is valid and every dated list is expired: the reload leaves no
mark of a download, while the same load of the same profile not marked up to date does call
the download action. -/
theorem update_starts_no_download_witness :
    (stateBeforeReload (exampleUpdate true) updatingProfile emptyBodyReply).file =
        some [qs "[Adblock Plus 2.0]", qs "! URL: ", qs "! Last modified: 30 Oct 2026 12:00 UTC"] ∧
      updateDownloaded expiredQt (exampleUpdate true) updatingProfile emptyBodyReply =
        loadWith markDownload expiredQt
          (stateBeforeReload (exampleUpdate true) updatingProfile emptyBodyReply)
          onlyHeaderDefault ∧
      (updateDownloaded expiredQt (exampleUpdate true) updatingProfile
          emptyBodyReply).m_networkReply = some (qs "http://example.com/list.txt") ∧
      (loadWith markDownload expiredQt
          { stateBeforeReload (exampleUpdate true) updatingProfile emptyBodyReply with
            m_information :=
              { (stateBeforeReload (exampleUpdate true) updatingProfile
                  emptyBodyReply).m_information with isUpToDate := false } }
          onlyHeaderDefault).m_networkReply = some (qs "download started") :=
  ⟨by decide,
    (update_starts_no_download markDownload expiredQt (exampleUpdate true) updatingProfile
      emptyBodyReply (by decide) (by decide) (by decide) (by decide) (by decide)).2.2.1,
    by decide, by decide⟩

end Otter
